import Mathlib

/-!
# depth2pcd: depth image to coloured point cloud

A shallow embedding of `depth2pcd` from `src/depth2pcd.cpp`.

Modelling conventions.

* C++ `float` is IEEE 754 binary32 (`F32`): finite values, the two zeros, the
  two infinities and NaN.  Every arithmetic operation is the exact operation
  followed by rounding to nearest, ties to even, with overflow to infinity and
  gradual underflow (`F32.round32`); comparisons with a NaN are false.
* The OpenCV expression `R * point_depth + T` is the three binary32 dot products
  evaluated from left to right, followed by the addition of `T`.
* `uint16_t` and `uchar` samples are `Fin 65536` and `Fin 256`.
* `int` values are integers (`ℤ`).  The only place where an `int` can leave the
  32-bit range is the conversion `(int)round(u)`, which is embedded with an
  explicit range test (`castInt`).
* `cv::Mat::at` on the colour image is a checked read: a read outside the image
  makes the whole conversion fail (`none`).
-/

namespace Depth2Pcd

/-! ## Binary32 arithmetic -/

/-- An IEEE 754 binary32 value: a finite value `q` (`finite 0` is `+0`), the
negative zero, an infinity with its sign, or NaN.  The finite values that occur
are those of the form `m * 2^k` with `|m| < 2^24` and `-149 <= k <= 104`. -/
inductive F32 where
  | finite (q : ℚ)
  | negZero
  | inf (neg : Bool)
  | nan
deriving DecidableEq

namespace F32

/-- The value is NaN. -/
def isNaN : F32 → Bool
  | nan => true
  | _ => false

/-- The value is an infinity. -/
def isInf : F32 → Bool
  | inf _ => true
  | _ => false

/-- The value is `+0` or `-0`. -/
def isZero : F32 → Bool
  | finite q => decide (q = 0)
  | negZero => true
  | _ => false

/-- The value is a finite number or a zero. -/
def isFinite : F32 → Bool
  | finite _ => true
  | negZero => true
  | _ => false

/-- The sign bit of a value that is not NaN. -/
def isNeg : F32 → Bool
  | finite q => decide (q < 0)
  | negZero => true
  | inf s => s
  | nan => false

/-- The number a finite value stands for (0 for the zeros). -/
def toRat : F32 → ℚ
  | finite q => q
  | _ => 0

/-- The zero with the given sign bit. -/
def zero (neg : Bool) : F32 := if neg then negZero else finite 0

/-- Rounding of a rational to an integer, halfway cases to the even
neighbour. -/
def rne (n : ℚ) : ℤ :=
  if n - ⌊n⌋ < 1 / 2 then ⌊n⌋
  else if 1 / 2 < n - ⌊n⌋ then ⌊n⌋ + 1
  else if ⌊n⌋ % 2 = 0 then ⌊n⌋ else ⌊n⌋ + 1

/-- The binary exponent of the binade of a positive value, not below the
exponent -126 of the subnormal values. -/
def expOf (a : ℚ) : ℤ := max (Int.log 2 a) (-126)

/-- Rounding of a positive magnitude to 24 significant bits in its binade (to a
multiple of `2^-149` below `2^-126`), ties to even. -/
def roundMag (a : ℚ) : ℚ := (rne (a / 2 ^ (expOf a - 23)) : ℚ) * 2 ^ (expOf a - 23)

/-- Rounding of an exact result `q` to binary32, round to nearest, ties to even:
a magnitude that rounds to `2^128` or more overflows to the infinity of the
sign of `q`, one that rounds to 0 gives the zero of the sign of `q`, and an
exact 0 gives the zero of sign `zneg`. -/
def round32 (q : ℚ) (zneg : Bool) : F32 :=
  if q = 0 then zero zneg
  else if 2 ^ (128 : ℤ) ≤ roundMag |q| then inf (decide (q < 0))
  else if roundMag |q| = 0 then zero (decide (q < 0))
  else finite (if q < 0 then -roundMag |q| else roundMag |q|)

/-- The number is a binary32 value: `m * 2^k` with `|m| < 2^24` and
`-149 <= k <= 104`. -/
def IsRepr (q : ℚ) : Prop :=
  ∃ m k : ℤ, |m| < 16777216 ∧ -149 ≤ k ∧ k ≤ 104 ∧ q = (m : ℚ) * 2 ^ k

/-- Unary minus. -/
def neg : F32 → F32
  | finite q => if q = 0 then negZero else finite (-q)
  | negZero => finite 0
  | inf s => inf (!s)
  | nan => nan

/-- Binary32 addition. -/
def add (a b : F32) : F32 :=
  if a.isNaN || b.isNaN then nan
  else if a.isInf then (if b.isInf && (a.isNeg != b.isNeg) then nan else a)
  else if b.isInf then b
  else round32 (a.toRat + b.toRat) (a.isNeg && b.isNeg)

/-- Binary32 subtraction. -/
def sub (a b : F32) : F32 := add a (neg b)

/-- Binary32 multiplication. -/
def mul (a b : F32) : F32 :=
  if a.isNaN || b.isNaN then nan
  else if a.isInf || b.isInf then
    (if a.isZero || b.isZero then nan else inf (xor a.isNeg b.isNeg))
  else round32 (a.toRat * b.toRat) (xor a.isNeg b.isNeg)

/-- Binary32 division. -/
def div (a b : F32) : F32 :=
  if a.isNaN || b.isNaN then nan
  else if a.isInf then (if b.isInf then nan else inf (xor a.isNeg b.isNeg))
  else if b.isInf then zero (xor a.isNeg b.isNeg)
  else if b.isZero then (if a.isZero then nan else inf (xor a.isNeg b.isNeg))
  else round32 (a.toRat / b.toRat) (xor a.isNeg b.isNeg)

/-- The comparison `a <= b`: false when an operand is NaN. -/
def le (a b : F32) : Bool :=
  if a.isNaN || b.isNaN then false
  else if a.isInf then (a.isNeg || (b.isInf && !b.isNeg))
  else if b.isInf then !b.isNeg
  else decide (a.toRat ≤ b.toRat)

/-- The comparison `a < b`: false when an operand is NaN. -/
def lt (a b : F32) : Bool :=
  if a.isNaN || b.isNaN then false
  else if a.isInf then (a.isNeg && !(b.isInf && b.isNeg))
  else if b.isInf then !b.isNeg
  else decide (a.toRat < b.toRat)

instance : Add F32 := ⟨add⟩
instance : Sub F32 := ⟨sub⟩
instance : Mul F32 := ⟨mul⟩
instance : Div F32 := ⟨div⟩
instance : LE F32 := ⟨fun a b => le a b = true⟩
instance : LT F32 := ⟨fun a b => lt a b = true⟩
instance (a b : F32) : Decidable (a ≤ b) := inferInstanceAs (Decidable (le a b = true))
instance (a b : F32) : Decidable (a < b) := inferInstanceAs (Decidable (lt a b = true))

/-- The conversion of an `int` (or of a `uint16_t` or `uchar` after integer
promotion) to `float`. -/
def ofInt (n : ℤ) : F32 := round32 (n : ℚ) false

/-- Rounding of a rational to the nearest integer, halfway cases away from
zero. -/
def roundHalfAway (q : ℚ) : ℤ :=
  if 0 ≤ q then ⌊q + 1 / 2⌋ else ⌈q - 1 / 2⌉

/-- Truncation of a rational towards zero. -/
def truncate (q : ℚ) : ℤ :=
  if 0 ≤ q then ⌊q⌋ else ⌈q⌉

end F32

/-- The C library `round` on `float`: nearest integral value, halfway cases
away from zero; a zero result keeps the sign of the argument, and infinities
and NaN are returned unchanged. -/
def roundf : F32 → F32
  | F32.finite q =>
    if F32.roundHalfAway q = 0 then F32.zero (decide (q < 0))
    else F32.finite (F32.roundHalfAway q)
  | f => f

/-- The conversion `(int)f`: truncation towards zero when the truncated value
is in the range of `int`.  Otherwise (value out of range, infinity, NaN) C++
leaves the result undefined; `oob f` stands for whatever the target produces
there. -/
def castInt (oob : F32 → ℤ) (f : F32) : ℤ :=
  match f with
  | F32.finite q =>
    if -2147483648 ≤ F32.truncate q ∧ F32.truncate q ≤ 2147483647 then F32.truncate q
    else oob f
  | F32.negZero => 0
  | _ => oob f

/-- Out-of-range result of the x86-64 conversion instruction `cvttss2si`: the
"integer indefinite" value `INT_MIN`, whatever the operand. -/
def oobX86 (_f : F32) : ℤ := -2147483648

/-! ## Data model -/

/-- Output record of the source: `struct Point3DRGB { float x, y, z; float r, g, b; }`. -/
structure Point3DRGB where
  x : F32
  y : F32
  z : F32
  r : F32
  g : F32
  b : F32
deriving DecidableEq

/-- Pinhole parameters of the source: `struct CameraIntrinsics { float fx, fy, cx, cy; }`. -/
structure CameraIntrinsics where
  fx : F32
  fy : F32
  cx : F32
  cy : F32

/-- A `cv::Mat` of `uint16_t` samples: its `rows`, its `cols`, and the sample
stored at each (row, column). -/
structure DepthMat where
  rows : ℕ
  cols : ℕ
  px : ℕ → ℕ → Fin 65536

/-- A `cv::Vec3b`: three `uchar` channels, indexed 0, 1, 2 (stored blue, green,
red). -/
structure Vec3b where
  c0 : Fin 256
  c1 : Fin 256
  c2 : Fin 256
deriving DecidableEq

/-- A `cv::Mat` of `Vec3b` samples: its `rows`, its `cols`, and the sample stored
at each (row, column). -/
structure ColorMat where
  rows : ℕ
  cols : ℕ
  px : ℕ → ℕ → Vec3b

/-- A 3x3 `CV_32F` matrix, entry `rIJ` in row `I`, column `J`. -/
structure Mat33 where
  r00 : F32
  r01 : F32
  r02 : F32
  r10 : F32
  r11 : F32
  r12 : F32
  r20 : F32
  r21 : F32
  r22 : F32

/-- A 3x1 `CV_32F` matrix. -/
structure Mat31 where
  t0 : F32
  t1 : F32
  t2 : F32

/-- The matrix `Mat::eye(3, 3, CV_32F)`. -/
def Mat33.eye : Mat33 :=
  ⟨F32.finite 1, F32.finite 0, F32.finite 0,
   F32.finite 0, F32.finite 1, F32.finite 0,
   F32.finite 0, F32.finite 0, F32.finite 1⟩

/-- The matrix `Mat::zeros(3, 1, CV_32F)`. -/
def Mat31.zeros : Mat31 := ⟨F32.finite 0, F32.finite 0, F32.finite 0⟩

/-- The read `rgb_image.at<Vec3b>(row, col)`, checked against the image's
dimensions. -/
def ColorMat.atVec3b (m : ColorMat) (row col : ℤ) : Option Vec3b :=
  if 0 ≤ row ∧ row < m.rows ∧ 0 ≤ col ∧ col < m.cols then
    some (m.px row.toNat col.toNat)
  else
    none

/-! ## The conversion -/

/-- Body of the inner loop of `depth2pcd` (source lines 50-90) at pixel
`(i, j)`, as a transformer of `point_cloud`: `continue` returns the vector
unchanged, `push_back` appends one point, an invalid read fails. -/
def loopBody (oob : F32 → ℤ) (depth_image : DepthMat) (rgb_image : ColorMat)
    (depth_intrinsics rgb_intrinsics : CameraIntrinsics) (R : Mat33) (T : Mat31)
    (i j : ℕ) (point_cloud : List Point3DRGB) : Option (List Point3DRGB) :=
  let h_rgb : ℤ := rgb_image.rows
  let w_rgb : ℤ := rgb_image.cols
  let depth : F32 := F32.ofInt (depth_image.px i j : ℕ) / F32.finite 1000
  if depth ≤ F32.ofInt 0 ∨ depth > F32.finite 10 then some point_cloud
  else
    let x : F32 := (F32.ofInt j - depth_intrinsics.cx) * depth / depth_intrinsics.fx
    let y : F32 := (F32.ofInt i - depth_intrinsics.cy) * depth / depth_intrinsics.fy
    let z : F32 := depth
    let x_rgb : F32 := R.r00 * x + R.r01 * y + R.r02 * z + T.t0
    let y_rgb : F32 := R.r10 * x + R.r11 * y + R.r12 * z + T.t1
    let z_rgb : F32 := R.r20 * x + R.r21 * y + R.r22 * z + T.t2
    if z_rgb ≤ F32.ofInt 0 then some point_cloud
    else
      let u : F32 := (x_rgb * rgb_intrinsics.fx) / z_rgb + rgb_intrinsics.cx
      let v : F32 := (y_rgb * rgb_intrinsics.fy) / z_rgb + rgb_intrinsics.cy
      let u_int : ℤ := max 0 (min (w_rgb - 1) (castInt oob (roundf u)))
      let v_int : ℤ := max 0 (min (h_rgb - 1) (castInt oob (roundf v)))
      match rgb_image.atVec3b v_int u_int with
      | none => none
      | some color =>
        some (point_cloud ++
          [⟨x_rgb, y_rgb, z_rgb,
            F32.ofInt (color.c2 : ℕ) / F32.finite 255,
            F32.ofInt (color.c1 : ℕ) / F32.finite 255,
            F32.ofInt (color.c0 : ℕ) / F32.finite 255⟩])

/-- The inner loop `for (int j = 0; j < w_d; j++)` of row `i`. -/
def rowLoop (oob : F32 → ℤ) (depth_image : DepthMat) (rgb_image : ColorMat)
    (depth_intrinsics rgb_intrinsics : CameraIntrinsics) (R : Mat33) (T : Mat31)
    (i : ℕ) (point_cloud : List Point3DRGB) : Option (List Point3DRGB) :=
  (List.range depth_image.cols).foldlM
    (fun pc j => loopBody oob depth_image rgb_image depth_intrinsics rgb_intrinsics R T i j pc)
    point_cloud

/-- The function `depth2pcd` of the source: the outer loop
`for (int i = 0; i < h_d; i++)` started on the empty vector. -/
def depth2pcd (oob : F32 → ℤ) (depth_image : DepthMat) (rgb_image : ColorMat)
    (depth_intrinsics rgb_intrinsics : CameraIntrinsics) (R : Mat33) (T : Mat31) :
    Option (List Point3DRGB) :=
  (List.range depth_image.rows).foldlM
    (fun pc i => rowLoop oob depth_image rgb_image depth_intrinsics rgb_intrinsics R T i pc)
    []

/-- The call `depth2pcd(depth_image, rgb_image, depth_intrinsics,
rgb_intrinsics)` with the default arguments of source lines 25-26:
`R = Mat::eye(3, 3, CV_32F)` and `T = Mat::zeros(3, 1, CV_32F)`. -/
def depth2pcdDefault (oob : F32 → ℤ) (depth_image : DepthMat) (rgb_image : ColorMat)
    (depth_intrinsics rgb_intrinsics : CameraIntrinsics) : Option (List Point3DRGB) :=
  depth2pcd oob depth_image rgb_image depth_intrinsics rgb_intrinsics Mat33.eye Mat31.zeros

/-! ## Named parts of the loop body

Each definition below is one expression of the loop body, taken from the source
line it quotes.  They are used to state the theorems; `loopBody` above does not
refer to them, and the lemmas of the next sections prove that it computes
them. -/

/-- A 3D point as a triple of coordinates `(x, y, z)`. -/
abbrev Vec3 := F32 × F32 × F32

/-- Source line 51, `depth = depth_image.at<uint16_t>(i, j) / 1000.0f`: the
scaled depth of pixel `(i, j)` in meters. -/
def depthAt (D : DepthMat) (i j : ℕ) : F32 := F32.ofInt (D.px i j : ℕ) / F32.finite 1000

/-- Source lines 57-59, the depth-frame point `(x, y, z)` of pixel `(i, j)`:
`x = (j - CX_DEPTH) * depth / FX_DEPTH`, `y = (i - CY_DEPTH) * depth / FY_DEPTH`,
`z = depth`. -/
def backProject (D : DepthMat) (K : CameraIntrinsics) (i j : ℕ) : Vec3 :=
  ((F32.ofInt j - K.cx) * depthAt D i j / K.fx, (F32.ofInt i - K.cy) * depthAt D i j / K.fy,
    depthAt D i j)

/-- Source line 63, `point_rgb = R * point_depth + T`: the matrix-vector
product `R * p` followed by the addition of `T`. -/
def extrinsic (R : Mat33) (T : Mat31) (p : Vec3) : Vec3 :=
  (R.r00 * p.1 + R.r01 * p.2.1 + R.r02 * p.2.2 + T.t0,
   R.r10 * p.1 + R.r11 * p.2.1 + R.r12 * p.2.2 + T.t1,
   R.r20 * p.1 + R.r21 * p.2.1 + R.r22 * p.2.2 + T.t2)

/-- Source lines 65-67, `(x_rgb, y_rgb, z_rgb)` of pixel `(i, j)`: `R * p + T`
for its depth-frame point `p`. -/
def colorFramePoint (D : DepthMat) (K : CameraIntrinsics) (R : Mat33) (T : Mat31) (i j : ℕ) : Vec3 :=
  extrinsic R T (backProject D K i j)

/-- Source lines 72-73, the projection `(u, v)`:
`u = (x_rgb * FX_RGB) / z_rgb + CX_RGB`, `v = (y_rgb * FY_RGB) / z_rgb + CY_RGB`. -/
def project (K : CameraIntrinsics) (q : Vec3) : F32 × F32 :=
  (q.1 * K.fx / q.2.2 + K.cx, q.2.1 * K.fy / q.2.2 + K.cy)

/-- The pixel is not skipped at source line 54: its scaled depth is strictly
positive and at most 10 meters. -/
def depthValid (D : DepthMat) (i j : ℕ) : Prop :=
  F32.finite 0 < depthAt D i j ∧ depthAt D i j ≤ F32.finite 10

/-- The pixel is skipped neither at source line 54 nor at source line 70: its
depth is valid and the test `z_rgb <= 0` is false (`z_rgb` is positive, or
NaN). -/
def passes (D : DepthMat) (K : CameraIntrinsics) (R : Mat33) (T : Mat31) (i j : ℕ) : Prop :=
  depthValid D i j ∧ ¬ (colorFramePoint D K R T i j).2.2 ≤ F32.finite 0

instance (D : DepthMat) (i j : ℕ) : Decidable (depthValid D i j) := by
  unfold depthValid; infer_instance

instance (D : DepthMat) (K : CameraIntrinsics) (R : Mat33) (T : Mat31) (i j : ℕ) :
    Decidable (passes D K R T i j) := by
  unfold passes; infer_instance

/-- Source lines 76-77, the rounded and clamped coordinate
`max(0, min(n - 1, (int)round(u)))` for an image extent `n`. -/
def clampIdx (oob : F32 → ℤ) (n : ℕ) (u : F32) : ℤ :=
  max 0 (min ((n : ℤ) - 1) (castInt oob (roundf u)))

/-- Source lines 76-80, the pair `(v_int, u_int)` of pixel `(i, j)`: the (row,
column) at which the colour image is read. -/
def sampleIndex (oob : F32 → ℤ) (D : DepthMat) (C : ColorMat) (Kd Kc : CameraIntrinsics)
    (R : Mat33) (T : Mat31) (i j : ℕ) : ℤ × ℤ :=
  (clampIdx oob C.rows (project Kc (colorFramePoint D Kd R T i j)).2,
   clampIdx oob C.cols (project Kc (colorFramePoint D Kd R T i j)).1)

/-- Source lines 86-88, the output colour `(color[2] / 255.0f, color[1] / 255.0f,
color[0] / 255.0f)` of a stored sample. -/
def colorOf (c : Vec3b) : Vec3 :=
  (F32.ofInt (c.c2 : ℕ) / F32.finite 255, F32.ofInt (c.c1 : ℕ) / F32.finite 255,
    F32.ofInt (c.c0 : ℕ) / F32.finite 255)

/-- Source lines 82-88, the point made of colour-frame coordinates `q` and the
output colour of the stored sample `c`. -/
def mkPoint (q : Vec3) (c : Vec3b) : Point3DRGB :=
  ⟨q.1, q.2.1, q.2.2, (colorOf c).1, (colorOf c).2.1, (colorOf c).2.2⟩

/-- The loop body as a function from the pixel to an optional point: absent
when the pixel is skipped, otherwise the colour-frame coordinates with the
colour stored at the sampled (row, column).  The read is unchecked here;
`loopBody_eq_some` and `loopBody_total` relate it to the checked `loopBody`. -/
def pixelPoint (oob : F32 → ℤ) (D : DepthMat) (C : ColorMat) (Kd Kc : CameraIntrinsics)
    (R : Mat33) (T : Mat31) (i j : ℕ) : Option Point3DRGB :=
  if passes D Kd R T i j then
    some (mkPoint (colorFramePoint D Kd R T i j)
      (C.px (sampleIndex oob D C Kd Kc R T i j).1.toNat (sampleIndex oob D C Kd Kc R T i j).2.toNat))
  else none

/-- Source lines 48-49, the pixels visited by the two nested loops over an
image with `h` rows and `w` columns, in order: rows outer, columns inner. -/
def rowMajor (h w : ℕ) : List (ℕ × ℕ) :=
  (List.range h).flatMap (fun i => (List.range w).map (fun j => (i, j)))

/-- Row-major precedence of pixels: an earlier row, or the same row and an
earlier column. -/
def scanBefore (p q : ℕ × ℕ) : Prop := p.1 < q.1 ∨ (p.1 = q.1 ∧ p.2 < q.2)

/-- The value `r` is finite and stands for the number `q`: an operation whose
exact result is `q` and whose binary32 result is `r` did not round. -/
def F32.Exactly (r : F32) (q : ℚ) : Prop := r.isFinite = true ∧ r.toRat = q

/-- The value `r` is finite and within the rounding error of the exact result
`q` of an operation: at most `|q| / 2^24` (half a unit in the last place), or
`2^-150` in the subnormal range. -/
def F32.Near (r : F32) (q : ℚ) : Prop :=
  r.isFinite = true ∧ |r.toRat - q| ≤ |q| / 16777216 + 1 / 2 ^ 150

/-- Intrinsics in a moderate range: finite values, focal lengths of magnitude
between `2^-40` and `2^40`, principal point coordinates of magnitude at most
`2^16`. -/
def moderate (K : CameraIntrinsics) : Prop :=
  K.fx.isFinite = true ∧ K.fy.isFinite = true ∧ K.cx.isFinite = true ∧ K.cy.isFinite = true ∧
  1 / 2 ^ 40 ≤ |K.fx.toRat| ∧ |K.fx.toRat| ≤ 2 ^ 40 ∧
  1 / 2 ^ 40 ≤ |K.fy.toRat| ∧ |K.fy.toRat| ≤ 2 ^ 40 ∧
  |K.cx.toRat| ≤ 65536 ∧ |K.cy.toRat| ≤ 65536

/-- No operation of source lines 57 and 72 rounds at pixel `(i, j)` under the
identity extrinsic with the intrinsics `K` on both sides: the conversion of
`j`, the subtraction, the product and the quotient of line 57, and the product,
the quotient and the sum of line 72, all give their exact results. -/
def exactColumn (D : DepthMat) (K : CameraIntrinsics) (i j : ℕ) : Prop :=
  (F32.ofInt j).Exactly j ∧
  (F32.ofInt j - K.cx).Exactly ((j : ℚ) - K.cx.toRat) ∧
  ((F32.ofInt j - K.cx) * depthAt D i j).Exactly
    (((j : ℚ) - K.cx.toRat) * (depthAt D i j).toRat) ∧
  ((F32.ofInt j - K.cx) * depthAt D i j / K.fx).Exactly
    (((j : ℚ) - K.cx.toRat) * (depthAt D i j).toRat / K.fx.toRat) ∧
  ((colorFramePoint D K Mat33.eye Mat31.zeros i j).1 * K.fx).Exactly
    ((colorFramePoint D K Mat33.eye Mat31.zeros i j).1.toRat * K.fx.toRat) ∧
  ((colorFramePoint D K Mat33.eye Mat31.zeros i j).1 * K.fx /
      (colorFramePoint D K Mat33.eye Mat31.zeros i j).2.2).Exactly
    ((colorFramePoint D K Mat33.eye Mat31.zeros i j).1.toRat * K.fx.toRat /
      (colorFramePoint D K Mat33.eye Mat31.zeros i j).2.2.toRat) ∧
  ((colorFramePoint D K Mat33.eye Mat31.zeros i j).1 * K.fx /
      (colorFramePoint D K Mat33.eye Mat31.zeros i j).2.2 + K.cx).Exactly
    ((colorFramePoint D K Mat33.eye Mat31.zeros i j).1.toRat * K.fx.toRat /
      (colorFramePoint D K Mat33.eye Mat31.zeros i j).2.2.toRat + K.cx.toRat)

/-- No operation of source lines 58 and 73 rounds at pixel `(i, j)` under the
identity extrinsic with the intrinsics `K` on both sides. -/
def exactRow (D : DepthMat) (K : CameraIntrinsics) (i j : ℕ) : Prop :=
  (F32.ofInt i).Exactly i ∧
  (F32.ofInt i - K.cy).Exactly ((i : ℚ) - K.cy.toRat) ∧
  ((F32.ofInt i - K.cy) * depthAt D i j).Exactly
    (((i : ℚ) - K.cy.toRat) * (depthAt D i j).toRat) ∧
  ((F32.ofInt i - K.cy) * depthAt D i j / K.fy).Exactly
    (((i : ℚ) - K.cy.toRat) * (depthAt D i j).toRat / K.fy.toRat) ∧
  ((colorFramePoint D K Mat33.eye Mat31.zeros i j).2.1 * K.fy).Exactly
    ((colorFramePoint D K Mat33.eye Mat31.zeros i j).2.1.toRat * K.fy.toRat) ∧
  ((colorFramePoint D K Mat33.eye Mat31.zeros i j).2.1 * K.fy /
      (colorFramePoint D K Mat33.eye Mat31.zeros i j).2.2).Exactly
    ((colorFramePoint D K Mat33.eye Mat31.zeros i j).2.1.toRat * K.fy.toRat /
      (colorFramePoint D K Mat33.eye Mat31.zeros i j).2.2.toRat) ∧
  ((colorFramePoint D K Mat33.eye Mat31.zeros i j).2.1 * K.fy /
      (colorFramePoint D K Mat33.eye Mat31.zeros i j).2.2 + K.cy).Exactly
    ((colorFramePoint D K Mat33.eye Mat31.zeros i j).2.1.toRat * K.fy.toRat /
      (colorFramePoint D K Mat33.eye Mat31.zeros i j).2.2.toRat + K.cy.toRat)

/-! ## Processing by row ranges

The definitions of this section follow section 5 of the specification: the
depth image is partitioned into contiguous row ranges, each range is processed
on its own into a local sequence of points, and the local sequences are
concatenated in row order.  They are compared with `depth2pcd`. -/

/-- Processing of the `n` consecutive depth rows `lo, ..., lo + n - 1` on their
own: the outer loop restricted to these rows, each with its true row index,
started on an empty vector. -/
def rowRange (oob : F32 → ℤ) (D : DepthMat) (C : ColorMat) (Kd Kc : CameraIntrinsics)
    (R : Mat33) (T : Mat31) (lo n : ℕ) : Option (List Point3DRGB) :=
  (List.range' lo n).foldlM (fun pc i => rowLoop oob D C Kd Kc R T i pc) []

/-- Concatenation, in order, of partial results; there is no result as soon as
one part has none. -/
def concatParts : List (Option (List Point3DRGB)) → Option (List Point3DRGB)
  | [] => some []
  | none :: _ => none
  | some x :: rest => (concatParts rest).map (fun y => x ++ y)

/-- The contiguous row ranges `(first row, number of rows)` of lengths `ns`,
laid out one after the other from row `lo`. -/
def rowRanges (lo : ℕ) : List ℕ → List (ℕ × ℕ)
  | [] => []
  | n :: ns => (lo, n) :: rowRanges (lo + n) ns

/-! ## Concrete inputs -/

/-- The `uint16_t` sample holding `n` (reduced modulo 2^16). -/
def u16 (n : ℕ) : Fin 65536 := ⟨n % 65536, Nat.mod_lt n (by decide)⟩

/-- The `uchar` channel holding `n` (reduced modulo 2^8). -/
def u8 (n : ℕ) : Fin 256 := ⟨n % 256, Nat.mod_lt n (by decide)⟩

/-- The 2x2 depth image of the scenario of section 8, raw values
`[[1000, 0], [11000, 500]]`. -/
def scenarioDepth : DepthMat :=
  ⟨2, 2, fun i j =>
    if i = 0 then (if j = 0 then u16 1000 else u16 0)
    else (if j = 0 then u16 11000 else u16 500)⟩

/-- The intrinsics of the scenario of section 8: `fx = fy = 500`,
`cx = cy = 0.5`. -/
def scenarioK : CameraIntrinsics :=
  ⟨F32.finite 500, F32.finite 500, F32.finite (1 / 2), F32.finite (1 / 2)⟩

/-- A 2x2 colour image with stored blue, green, red = 10, 20, 30 everywhere. -/
def scenarioColor : ColorMat := ⟨2, 2, fun _ _ => ⟨u8 10, u8 20, u8 30⟩⟩

/-- A depth image of one pixel with raw value 1000 (one meter). -/
def onePixelDepth : DepthMat := ⟨1, 1, fun _ _ => u16 1000⟩

/-- Intrinsics with unit focal lengths and the principal point at the origin. -/
def unitK : CameraIntrinsics := ⟨F32.finite 1, F32.finite 1, F32.finite 0, F32.finite 0⟩

/-- The empty colour image: no rows and no columns. -/
def emptyColor : ColorMat := ⟨0, 0, fun _ _ => ⟨u8 0, u8 0, u8 0⟩⟩

/-- A translation of one meter towards the colour camera along its optical
axis: it moves a point at depth one meter onto the plane `z = 0`. -/
def towardsCameraT : Mat31 := ⟨F32.finite 0, F32.finite 0, F32.finite (-1)⟩

/-- A depth image of one row and two columns, raw values `[0, 1000]`. -/
def overflowDepth : DepthMat := ⟨1, 2, fun _ j => if j = 0 then u16 0 else u16 1000⟩

/-- A colour image of one row and two columns: black in column 0, white in
column 1. -/
def overflowColor : ColorMat :=
  ⟨1, 2, fun _ c => if c = 0 then ⟨u8 0, u8 0, u8 0⟩ else ⟨u8 255, u8 255, u8 255⟩⟩

/-- Colour intrinsics with focal lengths 4096 and the principal point at the
origin. -/
def overflowK : CameraIntrinsics :=
  ⟨F32.finite 4096, F32.finite 4096, F32.finite 0, F32.finite 0⟩

/-- A translation that leaves a point at depth one meter just in front of the
colour camera, at `z = 2^-20`. -/
def nearPlaneT : Mat31 := ⟨F32.finite 0, F32.finite 0, F32.finite (-1048575 / 1048576)⟩

/-- Intrinsics with the smallest positive binary32 value `2^-149` as focal
length `fx`, unit `fy` and the principal point at the origin. -/
def tinyFocalK : CameraIntrinsics :=
  ⟨F32.finite (1 / 713623846352979940529142984724747568191373312), F32.finite 1, F32.finite 0,
    F32.finite 0⟩

/-- Intrinsics with unit focal lengths and the principal point at column
`2^25 = 33554432`, row 0. -/
def farPrincipalK : CameraIntrinsics :=
  ⟨F32.finite 1, F32.finite 1, F32.finite 33554432, F32.finite 0⟩

/-! ## Rounding lemmas -/

namespace F32

/-! ### Rounding to an integer -/

theorem le_rne (n : ℚ) (f : ℤ) (h : (f : ℚ) ≤ n) : f ≤ rne n := by
  have hf : f ≤ ⌊n⌋ := Int.le_floor.mpr h
  unfold rne
  split_ifs <;> omega

theorem rne_le (n : ℚ) (c : ℤ) (h : n ≤ (c : ℚ)) : rne n ≤ c := by
  have h1 : ⌊n⌋ ≤ c := by
    have := Int.floor_le n
    exact_mod_cast (Int.floor_le n).trans h |> fun h2 => (Int.cast_le (R := ℚ)).mp h2
  unfold rne
  by_cases hlt : n - ⌊n⌋ < 1 / 2
  · rw [if_pos hlt]; exact h1
  · have hne : (⌊n⌋ : ℚ) ≠ c := by
      intro heq
      have : n - ⌊n⌋ ≤ 0 := by rw [heq]; linarith
      linarith
    have h2 : ⌊n⌋ < c := lt_of_le_of_ne h1 (fun h => hne (by exact_mod_cast h))
    rw [if_neg hlt]
    split_ifs <;> omega

theorem rne_intCast (z : ℤ) : rne (z : ℚ) = z :=
  le_antisymm (rne_le _ z le_rfl) (le_rne _ z le_rfl)

theorem rne_of_lt_half (n : ℚ) (f : ℤ) (h1 : (f : ℚ) ≤ n) (h2 : n < (f : ℚ) + 1 / 2) :
    rne n = f := by
  have hf : ⌊n⌋ = f := by
    rw [Int.floor_eq_iff]; constructor <;> linarith
  unfold rne
  rw [hf, if_pos (by linarith)]

theorem rne_of_gt_half (n : ℚ) (f : ℤ) (h1 : (f : ℚ) + 1 / 2 < n) (h2 : n < (f : ℚ) + 1) :
    rne n = f + 1 := by
  have hf : ⌊n⌋ = f := by
    rw [Int.floor_eq_iff]; constructor <;> linarith
  unfold rne
  rw [hf, if_neg (by linarith), if_pos (by linarith)]

theorem rne_of_tie_odd (n : ℚ) (f : ℤ) (h1 : n = (f : ℚ) + 1 / 2) (h2 : f % 2 = 1) :
    rne n = f + 1 := by
  have hf : ⌊n⌋ = f := by
    rw [Int.floor_eq_iff]; constructor <;> linarith
  unfold rne
  rw [hf, if_neg (by linarith), if_neg (by linarith), if_neg (by omega)]

theorem rne_of_tie_even (n : ℚ) (f : ℤ) (h1 : n = (f : ℚ) + 1 / 2) (h2 : f % 2 = 0) :
    rne n = f := by
  have hf : ⌊n⌋ = f := by
    rw [Int.floor_eq_iff]; constructor <;> linarith
  unfold rne
  rw [hf, if_neg (by linarith), if_neg (by linarith), if_pos h2]

/-! ### The exponent -/

theorem expOf_spec (a : ℚ) (ha : 0 < a) :
    a < 2 ^ (expOf a + 1) ∧ -126 ≤ expOf a ∧ (expOf a = -126 ∨ (2 : ℚ) ^ expOf a ≤ a) := by
  have h1 : a < ((2 : ℕ) : ℚ) ^ (Int.log 2 a + 1) := Int.lt_zpow_succ_log_self (by norm_num) a
  have h2 : ((2 : ℕ) : ℚ) ^ Int.log 2 a ≤ a := Int.zpow_log_le_self (by norm_num) ha
  simp only [Nat.cast_ofNat] at h1 h2
  unfold expOf
  refine ⟨?_, le_max_right _ _, ?_⟩
  · refine lt_of_lt_of_le h1 ?_
    exact zpow_le_zpow_right₀ (by norm_num) (by omega)
  · by_cases h : Int.log 2 a ≤ -126
    · left; omega
    · right
      rw [max_eq_left (by omega)]
      exact h2

theorem expOf_eq (a : ℚ) (e : ℤ) (ha : 0 < a) (he : -126 ≤ e) (h1 : (2 : ℚ) ^ e ≤ a)
    (h2 : a < 2 ^ (e + 1)) : expOf a = e := by
  have hlog : Int.log 2 a = e := by
    apply le_antisymm
    · have := (Int.lt_zpow_iff_log_lt (R := ℚ) (b := 2) (by norm_num) (x := e + 1) ha).mp
        (by simpa using h2)
      omega
    · exact (Int.zpow_le_iff_le_log (R := ℚ) (b := 2) (by norm_num) ha).mp (by simpa using h1)
  unfold expOf
  rw [hlog]
  exact max_eq_left he

theorem expOf_eq_subnormal (a : ℚ) (ha : 0 < a) (h2 : a < 2 ^ (-126 : ℤ)) : expOf a = -126 := by
  have := (Int.lt_zpow_iff_log_lt (R := ℚ) (b := 2) (by norm_num) (x := -126) ha).mp
    (by simpa using h2)
  unfold expOf
  exact max_eq_right (by omega)

/-! ### Representable values -/

theorem two_zpow_pos (k : ℤ) : (0 : ℚ) < 2 ^ k := zpow_pos (by norm_num) k

theorem isRepr_zero : IsRepr 0 := ⟨0, 0, by norm_num, by norm_num, by norm_num, by norm_num⟩

theorem isRepr_neg (q : ℚ) (h : IsRepr q) : IsRepr (-q) := by
  obtain ⟨m, k, hm, hk1, hk2, rfl⟩ := h
  exact ⟨-m, k, by rwa [abs_neg], hk1, hk2, by push_cast; ring⟩

theorem isRepr_abs (q : ℚ) (h : IsRepr q) : IsRepr |q| := by
  by_cases hq : 0 ≤ q
  · rwa [abs_of_nonneg hq]
  · rw [abs_of_neg (not_le.mp hq)]
    exact isRepr_neg q h

theorem isRepr_lt (q : ℚ) (h : IsRepr q) : q < 2 ^ (128 : ℤ) := by
  obtain ⟨m, k, hm, hk1, hk2, rfl⟩ := h
  have hm1 : (m : ℚ) < 16777216 := by
    have : m < 16777216 := lt_of_le_of_lt (le_abs_self m) hm
    exact_mod_cast this
  have hp : (0 : ℚ) < 2 ^ k := two_zpow_pos k
  have hk : (2 : ℚ) ^ k ≤ 2 ^ (104 : ℤ) := zpow_le_zpow_right₀ (by norm_num) hk2
  calc (m : ℚ) * 2 ^ k < 16777216 * 2 ^ k := by
        exact mul_lt_mul_of_pos_right hm1 hp
    _ ≤ 16777216 * 2 ^ (104 : ℤ) := by
        exact mul_le_mul_of_nonneg_left hk (by norm_num)
    _ = 2 ^ (128 : ℤ) := by norm_num

/-- A positive representable value not below the binade of exponent `e` (or
any one when `e` is the subnormal exponent) is a multiple of the unit in the
last place of that binade. -/
theorem isRepr_multiple (q : ℚ) (hq : IsRepr q) (hq0 : 0 < q) (e : ℤ)
    (h : e = -126 ∨ (2 : ℚ) ^ e ≤ q) : ∃ z : ℤ, q = (z : ℚ) * 2 ^ (e - 23) := by
  obtain ⟨m, k, hm, hk1, hk2, rfl⟩ := hq
  have hp : (0 : ℚ) < 2 ^ k := two_zpow_pos k
  by_cases hke : e - 23 ≤ k
  · obtain ⟨d, hd⟩ : ∃ d : ℕ, k = e - 23 + d := ⟨(k - (e - 23)).toNat, by omega⟩
    refine ⟨m * 2 ^ d, ?_⟩
    rw [hd, zpow_add₀ (by norm_num : (2 : ℚ) ≠ 0), zpow_natCast]
    push_cast
    ring
  · exfalso
    have hne : e ≠ -126 := by omega
    have h2 : (2 : ℚ) ^ e ≤ (m : ℚ) * 2 ^ k := by
      rcases h with h | h
      · exact absurd h hne
      · exact h
    have hm1 : (m : ℚ) < 16777216 := by
      have : m < 16777216 := lt_of_le_of_lt (le_abs_self m) hm
      exact_mod_cast this
    have h3 : (m : ℚ) * 2 ^ k < 2 ^ (k + 24) := by
      rw [zpow_add₀ (by norm_num : (2 : ℚ) ≠ 0)]
      calc (m : ℚ) * 2 ^ k < 16777216 * 2 ^ k := mul_lt_mul_of_pos_right hm1 hp
        _ = 2 ^ k * 2 ^ (24 : ℤ) := by norm_num; ring
    have h4 : (2 : ℚ) ^ (k + 24) ≤ 2 ^ e := zpow_le_zpow_right₀ (by norm_num) (by omega)
    linarith

/-- The rounded magnitude of a positive value lies between any two
representable values that enclose the value. -/
theorem roundMag_sandwich (a lo hi : ℚ) (ha : 0 < a) (hlo : IsRepr lo) (hlo0 : 0 < lo)
    (hhi : IsRepr hi) (h1 : lo ≤ a) (h2 : a ≤ hi) : lo ≤ roundMag a ∧ roundMag a ≤ hi := by
  obtain ⟨hlt, he, hge⟩ := expOf_spec a ha
  have hu : (0 : ℚ) < 2 ^ (expOf a - 23) := two_zpow_pos _
  have hbin : (2 : ℚ) ^ expOf a = 8388608 * 2 ^ (expOf a - 23) := by
    rw [show expOf a = (expOf a - 23) + 23 by ring, zpow_add₀ (by norm_num : (2 : ℚ) ≠ 0)]
    norm_num
    ring
  have hbin1 : (2 : ℚ) ^ (expOf a + 1) = 16777216 * 2 ^ (expOf a - 23) := by
    rw [show expOf a + 1 = (expOf a - 23) + 24 by ring, zpow_add₀ (by norm_num : (2 : ℚ) ≠ 0)]
    norm_num
    ring
  unfold roundMag
  constructor
  · by_cases hc : expOf a = -126 ∨ (2 : ℚ) ^ expOf a ≤ lo
    · obtain ⟨z, hz⟩ := isRepr_multiple lo hlo hlo0 (expOf a) hc
      have hz1 : (z : ℚ) ≤ a / 2 ^ (expOf a - 23) := by
        rw [le_div_iff₀ hu, ← hz]; exact h1
      have := le_rne _ z hz1
      rw [hz]
      exact mul_le_mul_of_nonneg_right (by exact_mod_cast this) hu.le
    · push_neg at hc
      have hge2 : (2 : ℚ) ^ expOf a ≤ a := by
        rcases hge with h | h
        · exact absurd h hc.1
        · exact h
      have hz1 : ((8388608 : ℤ) : ℚ) ≤ a / 2 ^ (expOf a - 23) := by
        rw [le_div_iff₀ hu]
        push_cast
        rw [← hbin]; exact hge2
      have := le_rne _ 8388608 hz1
      have h3 : (2 : ℚ) ^ expOf a ≤ (rne (a / 2 ^ (expOf a - 23)) : ℚ) * 2 ^ (expOf a - 23) := by
        rw [hbin]
        exact mul_le_mul_of_nonneg_right (by exact_mod_cast this) hu.le
      linarith [hc.2]
  · by_cases hc : hi < 2 ^ (expOf a + 1)
    · have hhi0 : 0 < hi := lt_of_lt_of_le ha h2
      have hc2 : expOf a = -126 ∨ (2 : ℚ) ^ expOf a ≤ hi := by
        rcases hge with h | h
        · exact Or.inl h
        · exact Or.inr (h.trans h2)
      obtain ⟨z, hz⟩ := isRepr_multiple hi hhi hhi0 (expOf a) hc2
      have hz1 : a / 2 ^ (expOf a - 23) ≤ (z : ℚ) := by
        rw [div_le_iff₀ hu, ← hz]; exact h2
      have := rne_le _ z hz1
      rw [hz]
      exact mul_le_mul_of_nonneg_right (by exact_mod_cast this) hu.le
    · push_neg at hc
      have hz1 : a / 2 ^ (expOf a - 23) ≤ ((16777216 : ℤ) : ℚ) := by
        rw [div_le_iff₀ hu]
        push_cast
        rw [← hbin1]; exact hlt.le
      have := rne_le _ 16777216 hz1
      have h3 : (rne (a / 2 ^ (expOf a - 23)) : ℚ) * 2 ^ (expOf a - 23) ≤ 2 ^ (expOf a + 1) := by
        rw [hbin1]
        exact mul_le_mul_of_nonneg_right (by exact_mod_cast this) hu.le
      linarith

/-- Rounding leaves a positive representable magnitude unchanged. -/
theorem roundMag_exact (a : ℚ) (ha : 0 < a) (h : IsRepr a) : roundMag a = a := by
  have := roundMag_sandwich a a a ha h ha h le_rfl le_rfl
  exact le_antisymm this.2 this.1

theorem roundMag_nonneg (a : ℚ) (ha : 0 < a) : 0 ≤ roundMag a := by
  unfold roundMag
  have hu : (0 : ℚ) < 2 ^ (expOf a - 23) := two_zpow_pos _
  have h0 : ((0 : ℤ) : ℚ) ≤ a / 2 ^ (expOf a - 23) := by
    push_cast
    exact (div_pos ha hu).le
  have := le_rne _ 0 h0
  exact mul_nonneg (by exact_mod_cast this) hu.le

/-- A rounded magnitude below `2^128` is representable. -/
theorem roundMag_isRepr (a : ℚ) (ha : 0 < a) (h : roundMag a < 2 ^ (128 : ℤ)) :
    IsRepr (roundMag a) := by
  obtain ⟨hlt, he, hge⟩ := expOf_spec a ha
  have hu : (0 : ℚ) < 2 ^ (expOf a - 23) := two_zpow_pos _
  have hbin : (2 : ℚ) ^ expOf a = 8388608 * 2 ^ (expOf a - 23) := by
    rw [show expOf a = (expOf a - 23) + 23 by ring, zpow_add₀ (by norm_num : (2 : ℚ) ≠ 0)]
    norm_num
    ring
  have hbin1 : (2 : ℚ) ^ (expOf a + 1) = 16777216 * 2 ^ (expOf a - 23) := by
    rw [show expOf a + 1 = (expOf a - 23) + 24 by ring, zpow_add₀ (by norm_num : (2 : ℚ) ≠ 0)]
    norm_num
    ring
  have hm0 : 0 ≤ rne (a / 2 ^ (expOf a - 23)) :=
    le_rne _ 0 (by push_cast; exact (div_pos ha hu).le)
  have hm1 : rne (a / 2 ^ (expOf a - 23)) ≤ 16777216 := by
    apply rne_le
    rw [div_le_iff₀ hu]
    push_cast
    rw [← hbin1]
    exact hlt.le
  unfold roundMag at h ⊢
  by_cases hm : rne (a / 2 ^ (expOf a - 23)) = 16777216
  · rw [hm] at h ⊢
    have h2 : (2 : ℚ) ^ (expOf a + 1) < 2 ^ (128 : ℤ) := by
      rw [hbin1]; exact_mod_cast h
    have h3 : expOf a + 1 < 128 := by
      by_contra hcon
      have := zpow_le_zpow_right₀ (a := (2 : ℚ)) (by norm_num) (not_lt.mp hcon)
      linarith
    refine ⟨8388608, expOf a - 22, by norm_num, by omega, by omega, ?_⟩
    rw [show expOf a - 22 = (expOf a - 23) + 1 by ring, zpow_add₀ (by norm_num : (2 : ℚ) ≠ 0)]
    norm_num
    ring
  · have he2 : expOf a ≤ 127 := by
      by_contra hcon
      have hne : expOf a ≠ -126 := by omega
      have hge2 : (2 : ℚ) ^ expOf a ≤ a := by
        rcases hge with h' | h'
        · exact absurd h' hne
        · exact h'
      have hz1 : ((8388608 : ℤ) : ℚ) ≤ a / 2 ^ (expOf a - 23) := by
        rw [le_div_iff₀ hu]
        push_cast
        rw [← hbin]; exact hge2
      have h4 := le_rne _ 8388608 hz1
      have h5 : (2 : ℚ) ^ expOf a ≤ (rne (a / 2 ^ (expOf a - 23)) : ℚ) * 2 ^ (expOf a - 23) := by
        rw [hbin]
        exact mul_le_mul_of_nonneg_right (by exact_mod_cast h4) hu.le
      have h6 := zpow_le_zpow_right₀ (a := (2 : ℚ)) (by norm_num)
        (show (128 : ℤ) ≤ expOf a by omega)
      linarith
    refine ⟨rne (a / 2 ^ (expOf a - 23)), expOf a - 23, ?_, by omega, by omega, rfl⟩
    rw [abs_of_nonneg hm0]
    omega

/-- The rounded magnitude of a value with known binade and known rounded
significand. -/
theorem roundMag_eval (a : ℚ) (e m : ℤ) (ha : 0 < a) (he : -126 ≤ e) (h1 : (2 : ℚ) ^ e ≤ a)
    (h2 : a < 2 ^ (e + 1)) (hm : rne (a / 2 ^ (e - 23)) = m) :
    roundMag a = (m : ℚ) * 2 ^ (e - 23) := by
  unfold roundMag
  rw [expOf_eq a e ha he h1 h2, hm]

/-! ### Rounding to binary32 -/

theorem round32_zero (s : Bool) : round32 0 s = zero s := by
  unfold round32
  rw [if_pos rfl]

/-- Rounding a positive value enclosed by two positive representable values
gives a finite value between them. -/
theorem round32_sandwich (q lo hi : ℚ) (s : Bool) (hlo : IsRepr lo) (hlo0 : 0 < lo)
    (hhi : IsRepr hi) (h1 : lo ≤ q) (h2 : q ≤ hi) :
    ∃ r, round32 q s = finite r ∧ lo ≤ r ∧ r ≤ hi := by
  have hq : 0 < q := lt_of_lt_of_le hlo0 h1
  have hs := roundMag_sandwich q lo hi hq hlo hlo0 hhi h1 h2
  have hhi2 := isRepr_lt hi hhi
  refine ⟨roundMag q, ?_, hs.1, hs.2⟩
  unfold round32
  rw [if_neg hq.ne', abs_of_pos hq, if_neg (by linarith), if_neg (by linarith),
    if_neg (not_lt.mpr hq.le)]

/-- Rounding leaves a representable value unchanged. -/
theorem round32_exact (q : ℚ) (s : Bool) (h : IsRepr q) (hq : q ≠ 0) :
    round32 q s = finite q := by
  have ha : 0 < |q| := abs_pos.mpr hq
  have hr := roundMag_exact |q| ha (isRepr_abs q h)
  have hlt := isRepr_lt |q| (isRepr_abs q h)
  unfold round32
  rw [if_neg hq, hr, if_neg (by linarith), if_neg ha.ne']
  by_cases hneg : q < 0
  · rw [if_pos hneg, abs_of_neg hneg, neg_neg]
  · rw [if_neg hneg, abs_of_nonneg (not_lt.mp hneg)]

/-- A finite result of rounding is representable. -/
theorem round32_isRepr (q : ℚ) (s : Bool) (r : ℚ) (h : round32 q s = finite r) : IsRepr r := by
  unfold round32 at h
  by_cases hq : q = 0
  · rw [if_pos hq] at h
    unfold zero at h
    cases s
    · simp at h; rw [← h]; exact isRepr_zero
    · simp at h
  · rw [if_neg hq] at h
    have ha : 0 < |q| := abs_pos.mpr hq
    by_cases hov : (2 : ℚ) ^ (128 : ℤ) ≤ roundMag |q|
    · rw [if_pos hov] at h
      exact absurd h (by simp)
    · rw [if_neg hov] at h
      have hrep := roundMag_isRepr |q| ha (not_le.mp hov)
      by_cases hz : roundMag |q| = 0
      · rw [if_pos hz] at h
        unfold zero at h
        by_cases hneg : q < 0
        · simp [hneg] at h
        · simp [hneg] at h; rw [← h]; exact isRepr_zero
      · rw [if_neg hz] at h
        have h2 := finite.inj h
        rw [← h2]
        by_cases hneg : q < 0
        · rw [if_pos hneg]; exact isRepr_neg _ hrep
        · rw [if_neg hneg]; exact hrep

theorem round32_isNaN (q : ℚ) (s : Bool) : (round32 q s).isNaN = false := by
  unfold round32 zero
  split_ifs <;> rfl

/-- The rounding of a positive value with known binade and known rounded
significand. -/
theorem round32_eval_pos (q : ℚ) (s : Bool) (e m : ℤ) (hq : 0 < q) (he : -126 ≤ e)
    (h1 : (2 : ℚ) ^ e ≤ q) (h2 : q < 2 ^ (e + 1)) (hm : rne (q / 2 ^ (e - 23)) = m)
    (hm0 : 0 < m) (hov : (m : ℚ) * 2 ^ (e - 23) < 2 ^ (128 : ℤ)) :
    round32 q s = finite ((m : ℚ) * 2 ^ (e - 23)) := by
  have hr := roundMag_eval q e m hq he h1 h2 hm
  have hpos : 0 < (m : ℚ) * 2 ^ (e - 23) :=
    mul_pos (by exact_mod_cast hm0) (two_zpow_pos _)
  unfold round32
  rw [if_neg hq.ne', abs_of_pos hq, hr, if_neg (by linarith), if_neg hpos.ne',
    if_neg (not_lt.mpr hq.le)]

/-- The rounding of a negative value with known binade and known rounded
significand. -/
theorem round32_eval_neg (q : ℚ) (s : Bool) (e m : ℤ) (hq : q < 0) (he : -126 ≤ e)
    (h1 : (2 : ℚ) ^ e ≤ -q) (h2 : -q < 2 ^ (e + 1)) (hm : rne (-q / 2 ^ (e - 23)) = m)
    (hm0 : 0 < m) (hov : (m : ℚ) * 2 ^ (e - 23) < 2 ^ (128 : ℤ)) :
    round32 q s = finite (-((m : ℚ) * 2 ^ (e - 23))) := by
  have hr := roundMag_eval (-q) e m (by linarith) he h1 h2 hm
  have hpos : 0 < (m : ℚ) * 2 ^ (e - 23) :=
    mul_pos (by exact_mod_cast hm0) (two_zpow_pos _)
  unfold round32
  rw [if_neg hq.ne, abs_of_neg hq, hr, if_neg (by linarith), if_neg hpos.ne', if_pos hq]


end F32

/-! ## Operation lemmas -/

namespace F32

theorem isRepr_natCast (n : ℕ) (h : n < 16777216) : IsRepr (n : ℚ) := by
  refine ⟨n, 0, ?_, by norm_num, by norm_num, by simp⟩
  rw [abs_of_nonneg (by positivity)]
  exact_mod_cast h

/-- The conversion of a natural number below `2^24` is exact. -/
theorem ofInt_natCast (n : ℕ) (h : n < 16777216) : ofInt (n : ℤ) = finite (n : ℚ) := by
  unfold ofInt
  rw [Int.cast_natCast]
  by_cases h0 : n = 0
  · subst h0
    rw [Nat.cast_zero, round32_zero]
    rfl
  · exact round32_exact _ _ (isRepr_natCast n h) (by exact_mod_cast h0)

theorem ofInt_zero : ofInt 0 = finite 0 := ofInt_natCast 0 (by norm_num)

theorem finite_add (a b : ℚ) :
    finite a + finite b = round32 (a + b) (decide (a < 0) && decide (b < 0)) := rfl

theorem finite_mul (a b : ℚ) :
    finite a * finite b = round32 (a * b) (xor (decide (a < 0)) (decide (b < 0))) := rfl

theorem finite_div (a b : ℚ) (hb : b ≠ 0) :
    finite a / finite b = round32 (a / b) (xor (decide (a < 0)) (decide (b < 0))) := by
  show div (finite a) (finite b) = _
  simp [div, isNaN, isInf, isZero, isNeg, toRat, hb]

theorem finite_sub (a b : ℚ) :
    finite a - finite b = round32 (a - b) (decide (a < 0) && decide (0 ≤ b)) := by
  show add (finite a) (neg (finite b)) = _
  by_cases hb : b = 0
  · subst hb
    simp [add, neg, isNaN, isInf, isNeg, toRat]
  · have e : decide (0 < b) = decide (0 ≤ b) := by
      by_cases h : 0 ≤ b
      · have : 0 < b := lt_of_le_of_ne h (Ne.symm hb)
        simp [h, this]
      · have : ¬ 0 < b := fun h2 => h h2.le
        simp [h, this]
    simp [add, neg, isNaN, isInf, isNeg, toRat, hb, e, sub_eq_add_neg]

theorem finite_le_iff (a b : ℚ) : finite a ≤ finite b ↔ a ≤ b := by
  show le (finite a) (finite b) = true ↔ _
  simp [le, isNaN, isInf, toRat]

theorem finite_lt_iff (a b : ℚ) : finite a < finite b ↔ a < b := by
  show lt (finite a) (finite b) = true ↔ _
  simp [lt, isNaN, isInf, toRat]

/-- The test `a <= 0` is false exactly when `a` is positive or NaN. -/
theorem not_le_zero_iff (a : F32) : ¬ a ≤ finite 0 ↔ (finite 0 < a ∨ a = nan) := by
  show ¬ le a (finite 0) = true ↔ (lt (finite 0) a = true ∨ a = nan)
  cases a with
  | finite q => simp [le, lt, isNaN, isInf, toRat]
  | negZero => simp [le, lt, isNaN, isInf, toRat]
  | inf s => cases s <;> simp [le, lt, isNaN, isInf, isNeg]
  | nan => simp [le, lt, isNaN]

theorem finite_add_exact (a b c : ℚ) (h : a + b = c) (hc : IsRepr c) (h0 : c ≠ 0) :
    finite a + finite b = finite c := by
  rw [finite_add, h]
  exact round32_exact c _ hc h0

theorem finite_sub_exact (a b c : ℚ) (h : a - b = c) (hc : IsRepr c) (h0 : c ≠ 0) :
    finite a - finite b = finite c := by
  rw [finite_sub, h]
  exact round32_exact c _ hc h0

theorem finite_mul_exact (a b c : ℚ) (h : a * b = c) (hc : IsRepr c) (h0 : c ≠ 0) :
    finite a * finite b = finite c := by
  rw [finite_mul, h]
  exact round32_exact c _ hc h0

theorem finite_div_exact (a b c : ℚ) (hb : b ≠ 0) (h : a / b = c) (hc : IsRepr c) (h0 : c ≠ 0) :
    finite a / finite b = finite c := by
  rw [finite_div a b hb, h]
  exact round32_exact c _ hc h0

/-! ### Rounding error -/

theorem rne_abs_sub_le (n : ℚ) : |((rne n : ℤ) : ℚ) - n| ≤ 1 / 2 := by
  have h1 := Int.floor_le n
  have h2 := Int.lt_floor_add_one n
  unfold rne
  rw [abs_le]
  split_ifs with ha hb hc
  · constructor <;> linarith
  · push_cast; constructor <;> linarith
  · constructor <;> linarith
  · push_cast; constructor <;> linarith

/-- The rounded magnitude is within half a unit in the last place. -/
theorem roundMag_error (a : ℚ) : |roundMag a - a| ≤ 2 ^ (expOf a - 23) / 2 := by
  have hu : (0 : ℚ) < 2 ^ (expOf a - 23) := two_zpow_pos _
  unfold roundMag
  have e : (rne (a / 2 ^ (expOf a - 23)) : ℚ) * 2 ^ (expOf a - 23) - a =
      ((rne (a / 2 ^ (expOf a - 23)) : ℚ) - a / 2 ^ (expOf a - 23)) * 2 ^ (expOf a - 23) := by
    field_simp
  rw [e, abs_mul, abs_of_pos hu]
  have := rne_abs_sub_le (a / 2 ^ (expOf a - 23))
  calc |(rne (a / 2 ^ (expOf a - 23)) : ℚ) - a / 2 ^ (expOf a - 23)| * 2 ^ (expOf a - 23)
      ≤ 1 / 2 * 2 ^ (expOf a - 23) := mul_le_mul_of_nonneg_right this hu.le
    _ = 2 ^ (expOf a - 23) / 2 := by ring

/-- Rounding a value of `(0, 1)`: a finite result within `2^-25` of the value. -/
theorem round32_error_unit (q : ℚ) (s : Bool) (h0 : 0 < q) (h1 : q < 1) :
    ∃ r, round32 q s = finite r ∧ |r - q| ≤ 1 / 33554432 := by
  obtain ⟨hlt, he, hge⟩ := expOf_spec q h0
  have hexp : expOf q ≤ -1 := by
    by_contra hcon
    have hne : expOf q ≠ -126 := by omega
    have h2 : (2 : ℚ) ^ expOf q ≤ q := by
      rcases hge with h | h
      · exact absurd h hne
      · exact h
    have h3 : (2 : ℚ) ^ (0 : ℤ) ≤ 2 ^ expOf q := zpow_le_zpow_right₀ (by norm_num) (by omega)
    norm_num at h3
    linarith
  have herr := roundMag_error q
  have hu : (2 : ℚ) ^ (expOf q - 23) ≤ 1 / 16777216 := by
    calc (2 : ℚ) ^ (expOf q - 23) ≤ 2 ^ (-24 : ℤ) :=
          zpow_le_zpow_right₀ (by norm_num) (by omega)
      _ = 1 / 16777216 := by norm_num
  have hbound : |roundMag q - q| ≤ 1 / 33554432 := by
    linarith
  have hlt128 : roundMag q < 2 ^ (128 : ℤ) := by
    have := (abs_le.mp hbound).2
    have h128 : (2 : ℚ) ≤ 2 ^ (128 : ℤ) := by norm_num
    linarith
  refine ⟨roundMag q, ?_, hbound⟩
  unfold round32
  rw [if_neg h0.ne', abs_of_pos h0, if_neg (not_le.mpr hlt128)]
  by_cases hz : roundMag q = 0
  · rw [if_pos hz, hz]
    simp [zero, not_lt.mpr h0.le]
  · rw [if_neg hz, if_neg (not_lt.mpr h0.le)]

end F32

/-! ## Depth, colour channels and the identity extrinsic -/

namespace F32

/-- The scaled depth of a raw value `n`: a finite value, 0 for `n = 0`, at
least `2^-10` for `n >= 1`, at most 10 for `n <= 10000`, and at least
`10 + 2^-20` for `n > 10000`. -/
theorem depth_cases (n : ℕ) (hn : n < 65536) :
    ∃ r : ℚ, ofInt (n : ℤ) / finite 1000 = finite r ∧ IsRepr r ∧
      (n = 0 → r = 0) ∧ (1 ≤ n → 1 / 1024 ≤ r) ∧ (n ≤ 10000 → r ≤ 10) ∧
      (10000 < n → 10 + 1 / 1048576 ≤ r) := by
  rw [ofInt_natCast n (by omega), finite_div _ _ (by norm_num)]
  have hn2 : (n : ℚ) < 65536 := by exact_mod_cast hn
  by_cases h0 : n = 0
  · subst h0
    refine ⟨0, ?_, isRepr_zero, fun _ => rfl, fun h => absurd h (by norm_num), fun _ => by norm_num,
      fun h => absurd h (by norm_num)⟩
    rw [Nat.cast_zero, zero_div, round32_zero]
    simp [zero]
  · have h1 : (1 : ℚ) ≤ (n : ℚ) := by exact_mod_cast Nat.one_le_iff_ne_zero.mpr h0
    by_cases h2 : n ≤ 10000
    · have h2q : (n : ℚ) ≤ 10000 := by exact_mod_cast h2
      obtain ⟨r, hr, hlo, hhi⟩ := round32_sandwich ((n : ℚ) / 1000) (1 / 1024) 10
        (xor (decide ((n : ℚ) < 0)) (decide ((1000 : ℚ) < 0)))
        ⟨1, -10, by norm_num, by norm_num, by norm_num, by norm_num⟩ (by norm_num)
        ⟨10, 0, by norm_num, by norm_num, by norm_num, by norm_num⟩
        (by rw [le_div_iff₀ (by norm_num)]; linarith)
        (by rw [div_le_iff₀ (by norm_num)]; linarith)
      refine ⟨r, hr, round32_isRepr _ _ r hr, fun h => absurd h h0, fun _ => hlo, fun _ => hhi,
        fun h => absurd h (by omega)⟩
    · have h2q : (10001 : ℚ) ≤ (n : ℚ) := by exact_mod_cast (by omega : 10001 ≤ n)
      obtain ⟨r, hr, hlo, hhi⟩ := round32_sandwich ((n : ℚ) / 1000) (10 + 1 / 1048576) 66
        (xor (decide ((n : ℚ) < 0)) (decide ((1000 : ℚ) < 0)))
        ⟨10485761, -20, by norm_num, by norm_num, by norm_num, by norm_num⟩ (by norm_num)
        ⟨66, 0, by norm_num, by norm_num, by norm_num, by norm_num⟩
        (by rw [le_div_iff₀ (by norm_num)]; linarith)
        (by rw [div_le_iff₀ (by norm_num)]; linarith)
      refine ⟨r, hr, round32_isRepr _ _ r hr, fun h => absurd h h0,
        fun _ => le_trans (by norm_num) hlo, fun h => absurd h h2, fun _ => hlo⟩

/-- The normalised value of a channel `c`: a finite value of `[0, 1]`, the
rounding of `c / 255`, within `2^-25` of it. -/
theorem channel_cases (c : ℕ) (hc : c < 256) :
    ∃ r : ℚ, ofInt (c : ℤ) / finite 255 = finite r ∧ 0 ≤ r ∧ r ≤ 1 ∧
      |r - (c : ℚ) / 255| ≤ 1 / 33554432 ∧
      finite r = round32 ((c : ℚ) / 255) false := by
  rw [ofInt_natCast c (by omega), finite_div _ _ (by norm_num)]
  have hs : xor (decide ((c : ℚ) < 0)) (decide ((255 : ℚ) < 0)) = false := by
    have : ¬ (c : ℚ) < 0 := not_lt.mpr (by positivity)
    simp [this]
  rw [hs]
  by_cases h0 : c = 0
  · subst h0
    refine ⟨0, ?_, le_rfl, by norm_num, by norm_num, ?_⟩
    · rw [Nat.cast_zero, zero_div, round32_zero]
      rfl
    · rw [Nat.cast_zero, zero_div, round32_zero]
      rfl
  · have h1 : (1 : ℚ) ≤ (c : ℚ) := by exact_mod_cast Nat.one_le_iff_ne_zero.mpr h0
    by_cases h2 : c = 255
    · subst h2
      have e : ((255 : ℕ) : ℚ) / 255 = 1 := by norm_num
      rw [e]
      have hr := round32_exact 1 false ⟨1, 0, by norm_num, by norm_num, by norm_num, by norm_num⟩
        (by norm_num)
      exact ⟨1, hr, by norm_num, le_rfl, by norm_num, hr.symm⟩
    · have h3 : (c : ℚ) ≤ 254 := by exact_mod_cast (by omega : c ≤ 254)
      have hq0 : (0 : ℚ) < (c : ℚ) / 255 := by positivity
      have hq1 : (c : ℚ) / 255 < 1 := by rw [div_lt_iff₀ (by norm_num)]; linarith
      obtain ⟨r, hr, herr⟩ := round32_error_unit ((c : ℚ) / 255) false hq0 hq1
      obtain ⟨r2, hr2, hlo, hhi⟩ := round32_sandwich ((c : ℚ) / 255) (1 / 256) 1 false
        ⟨1, -8, by norm_num, by norm_num, by norm_num, by norm_num⟩ (by norm_num)
        ⟨1, 0, by norm_num, by norm_num, by norm_num, by norm_num⟩
        (by rw [le_div_iff₀ (by norm_num)]; linarith) hq1.le
      have e : r2 = r := finite.inj (hr2.symm.trans hr)
      subst e
      exact ⟨r2, hr, le_trans (by norm_num) hlo, hhi, herr, hr.symm⟩

theorem nan_add (x : F32) : nan + x = nan := rfl

theorem add_nan (x : F32) : x + nan = nan := by
  show add x nan = nan
  cases x <;> rfl

theorem nan_mul (x : F32) : nan * x = nan := rfl

theorem mul_nan (x : F32) : x * nan = nan := by
  show mul x nan = nan
  cases x <;> rfl

theorem nan_div (x : F32) : nan / x = nan := rfl

theorem div_nan (x : F32) : x / nan = nan := by
  show div x nan = nan
  cases x <;> rfl

/-- The product of `+0` and any value is a zero or NaN. -/
theorem zero_mul_cases (b : F32) :
    finite 0 * b = nan ∨ finite 0 * b = finite 0 ∨ finite 0 * b = negZero := by
  show mul (finite 0) b = nan ∨ mul (finite 0) b = finite 0 ∨ mul (finite 0) b = negZero
  cases b with
  | finite q =>
    by_cases h : q < 0
    · right; right
      simp [mul, isNaN, isInf, isNeg, toRat, round32_zero, zero, h]
    · right; left
      simp [mul, isNaN, isInf, isNeg, toRat, round32_zero, zero, h]
  | negZero =>
    right; right
    simp [mul, isNaN, isInf, isNeg, toRat, round32_zero, zero]
  | inf s => left; simp [mul, isNaN, isInf, isZero]
  | nan => left; rfl

/-- The product of 1 and a binary32 value is that value. -/
theorem one_mul_eq (a : F32) (ha : ∀ q, a = finite q → IsRepr q) : finite 1 * a = a := by
  show mul (finite 1) a = a
  cases a with
  | finite q =>
    by_cases h : q = 0
    · subst h
      simp [mul, isNaN, isInf, isNeg, toRat, round32_zero, zero]
    · simp only [mul, isNaN, isInf, toRat, Bool.or_self, Bool.false_eq_true, if_false, one_mul]
      exact round32_exact q _ (ha q rfl) h
  | negZero => simp [mul, isNaN, isInf, isNeg, toRat, round32_zero, zero]
  | inf s => cases s <;> simp [mul, isNaN, isInf, isZero, isNeg]
  | nan => rfl

theorem finite_add_pzero (q : ℚ) (hq : IsRepr q) : finite q + finite 0 = finite q := by
  rw [finite_add, add_zero]
  by_cases h : q = 0
  · subst h; rw [round32_zero]; simp [zero]
  · exact round32_exact q _ hq h

theorem finite_add_nzero (q : ℚ) (hq : IsRepr q) : finite q + negZero = finite q := by
  show add (finite q) negZero = finite q
  simp only [add, isNaN, isInf, toRat, isNeg, Bool.or_self, Bool.false_eq_true, if_false, add_zero]
  by_cases h : q = 0
  · subst h; rw [round32_zero]; simp [zero]
  · exact round32_exact q _ hq h

theorem pzero_add_finite (q : ℚ) (hq : IsRepr q) : finite 0 + finite q = finite q := by
  rw [finite_add, zero_add]
  by_cases h : q = 0
  · subst h; rw [round32_zero]; simp [zero]
  · exact round32_exact q _ hq h

theorem nzero_add_finite (q : ℚ) (hq : IsRepr q) : negZero + finite q = finite q := by
  show add negZero (finite q) = finite q
  simp only [add, isNaN, isInf, toRat, isNeg, Bool.or_self, Bool.false_eq_true, if_false, zero_add]
  by_cases h : q = 0
  · subst h; rw [round32_zero]; simp [zero]
  · exact round32_exact q _ hq h

theorem nzero_add_nzero : negZero + negZero = negZero := by
  show add negZero negZero = negZero
  simp [add, isNaN, isInf, toRat, isNeg, round32_zero, zero]

theorem nzero_add_pzero : negZero + finite 0 = finite 0 := nzero_add_finite 0 isRepr_zero

theorem inf_add_finite (s : Bool) (q : ℚ) : inf s + finite q = inf s := rfl

theorem inf_add_nzero (s : Bool) : inf s + negZero = inf s := rfl

theorem finite_add_inf (s : Bool) (q : ℚ) : finite q + inf s = inf s := rfl

theorem nzero_add_inf (s : Bool) : negZero + inf s = inf s := rfl

/-- First row of the identity extrinsic: the first coordinate, or `+0` for `-0`,
or NaN when a product of 0 and another coordinate is NaN. -/
theorem eye_row0 (a b c : F32) (ha : ∀ q, a = finite q → IsRepr q) :
    (finite 1 * a + finite 0 * b + finite 0 * c + finite 0 = nan ∧
      (finite 0 * b = nan ∨ finite 0 * c = nan)) ∨
    finite 1 * a + finite 0 * b + finite 0 * c + finite 0 = a ∨
    (a = negZero ∧ finite 1 * a + finite 0 * b + finite 0 * c + finite 0 = finite 0) := by
  rw [one_mul_eq a ha]
  rcases zero_mul_cases b with hb | hb | hb <;> rcases zero_mul_cases c with hc | hc | hc <;>
    rw [hb, hc] <;> cases a with
    | finite q =>
      have hq := ha q rfl
      simp [nan_add, add_nan, finite_add_pzero q hq, finite_add_nzero q hq]
    | negZero => simp [nan_add, add_nan, nzero_add_nzero, nzero_add_pzero, pzero_add_finite 0 isRepr_zero,
        finite_add_pzero 0 isRepr_zero, finite_add_nzero 0 isRepr_zero]
    | inf s => simp [nan_add, add_nan, inf_add_finite, inf_add_nzero]
    | nan => simp [nan_add, add_nan]

/-- Second row of the identity extrinsic. -/
theorem eye_row1 (a b c : F32) (hb : ∀ q, b = finite q → IsRepr q) :
    (finite 0 * a + finite 1 * b + finite 0 * c + finite 0 = nan ∧
      (finite 0 * a = nan ∨ finite 0 * c = nan)) ∨
    finite 0 * a + finite 1 * b + finite 0 * c + finite 0 = b ∨
    (b = negZero ∧ finite 0 * a + finite 1 * b + finite 0 * c + finite 0 = finite 0) := by
  rw [one_mul_eq b hb]
  rcases zero_mul_cases a with ha | ha | ha <;> rcases zero_mul_cases c with hc | hc | hc <;>
    rw [ha, hc] <;> cases b with
    | finite q =>
      have hq := hb q rfl
      simp [nan_add, add_nan, finite_add_pzero q hq, finite_add_nzero q hq, pzero_add_finite q hq,
        nzero_add_finite q hq]
    | negZero => simp [nan_add, add_nan, nzero_add_nzero, nzero_add_pzero, pzero_add_finite 0 isRepr_zero,
        finite_add_pzero 0 isRepr_zero, finite_add_nzero 0 isRepr_zero]
    | inf s => simp [nan_add, add_nan, inf_add_finite, inf_add_nzero, finite_add_inf, nzero_add_inf]
    | nan => simp [nan_add, add_nan]

/-- Third row of the identity extrinsic. -/
theorem eye_row2 (a b c : F32) (hc : ∀ q, c = finite q → IsRepr q) :
    (finite 0 * a + finite 0 * b + finite 1 * c + finite 0 = nan ∧
      (finite 0 * a = nan ∨ finite 0 * b = nan)) ∨
    finite 0 * a + finite 0 * b + finite 1 * c + finite 0 = c ∨
    (c = negZero ∧ finite 0 * a + finite 0 * b + finite 1 * c + finite 0 = finite 0) := by
  rw [one_mul_eq c hc]
  rcases zero_mul_cases a with ha | ha | ha <;> rcases zero_mul_cases b with hb | hb | hb <;>
    rw [ha, hb] <;> cases c with
    | finite q =>
      have hq := hc q rfl
      simp [nan_add, add_nan, finite_add_pzero q hq, finite_add_nzero q hq, pzero_add_finite q hq,
        nzero_add_finite q hq, pzero_add_finite 0 isRepr_zero, finite_add_nzero 0 isRepr_zero,
        nzero_add_nzero, nzero_add_pzero]
    | negZero => simp [nan_add, add_nan, nzero_add_nzero, nzero_add_pzero, pzero_add_finite 0 isRepr_zero,
        finite_add_pzero 0 isRepr_zero, finite_add_nzero 0 isRepr_zero]
    | inf s => simp [nan_add, add_nan, inf_add_finite, inf_add_nzero, finite_add_inf, nzero_add_inf,
        pzero_add_finite 0 isRepr_zero, finite_add_nzero 0 isRepr_zero, nzero_add_nzero,
        nzero_add_pzero]
    | nan => simp [nan_add, add_nan, pzero_add_finite 0 isRepr_zero, finite_add_nzero 0 isRepr_zero,
        nzero_add_nzero, nzero_add_pzero]

/-- A result of `round32` satisfies the representability side condition. -/
theorem round32_repr (q : ℚ) (s : Bool) : ∀ r, round32 q s = finite r → IsRepr r :=
  fun r h => round32_isRepr q s r h

end F32

namespace F32

/-- The product of `+0` and a finite value is a zero. -/
theorem zero_mul_ne_nan (b : F32) (hb : b.isFinite = true) : finite 0 * b ≠ nan := by
  show mul (finite 0) b ≠ nan
  cases b with
  | finite q =>
    simp only [mul, isNaN, isInf, toRat, Bool.or_self, Bool.false_eq_true, if_false, zero_mul,
      round32_zero]
    unfold zero
    split_ifs <;> simp
  | negZero => simp [mul, isNaN, isInf, isNeg, toRat, round32_zero, zero]
  | inf s => exact absurd hb (by simp [isFinite])
  | nan => exact absurd hb (by simp [isFinite])

end F32

namespace F32

theorem zero_repr (s : Bool) (q : ℚ) (h : zero s = finite q) : IsRepr q := by
  cases s
  · have e : q = 0 := (finite.inj h).symm
    rw [e]; exact isRepr_zero
  · exact absurd h (by simp [zero])

/-- A finite quotient is a binary32 value. -/
theorem div_repr (a b : F32) (q : ℚ) (h : a / b = finite q) : IsRepr q := by
  change div a b = finite q at h
  unfold div at h
  split_ifs at h <;>
    first
    | exact absurd h (by simp)
    | exact zero_repr _ _ h
    | exact round32_isRepr _ _ _ h

/-- A finite product is a binary32 value. -/
theorem mul_repr (a b : F32) (q : ℚ) (h : a * b = finite q) : IsRepr q := by
  change mul a b = finite q at h
  unfold mul at h
  split_ifs at h
  exact round32_isRepr _ _ _ h

theorem roundHalfAway_intCast (z : ℤ) : roundHalfAway (z : ℚ) = z := by
  unfold roundHalfAway
  split_ifs
  · rw [Int.floor_eq_iff]; constructor <;> linarith
  · rw [Int.ceil_eq_iff]; constructor <;> linarith

theorem truncate_intCast (z : ℤ) : truncate (z : ℚ) = z := by
  unfold truncate
  split_ifs
  · exact Int.floor_intCast z
  · exact Int.ceil_intCast z

end F32

/-! ## Rounding and conversion to `int` -/

/-- The C library `round` on a finite value. -/
theorem roundf_finite (q : ℚ) :
    roundf (F32.finite q) =
      if F32.roundHalfAway q = 0 then F32.zero (decide (q < 0))
      else F32.finite (F32.roundHalfAway q) := rfl

/-- Rounding leaves an integral value unchanged. -/
theorem roundf_finite_intCast (z : ℤ) : roundf (F32.finite (z : ℚ)) = F32.finite (z : ℚ) := by
  rw [roundf_finite, F32.roundHalfAway_intCast]
  by_cases h : z = 0
  · subst h
    simp [F32.zero]
  · rw [if_neg h]

/-- The conversion of an integral value in the range of `int` is that value. -/
theorem castInt_finite_intCast (oob : F32 → ℤ) (z : ℤ) (h1 : -2147483648 ≤ z)
    (h2 : z ≤ 2147483647) : castInt oob (F32.finite (z : ℚ)) = z := by
  unfold castInt
  simp only [F32.truncate_intCast]
  rw [if_pos ⟨h1, h2⟩]

/-- Rounding and conversion of a finite value that stands for the natural
number `n`. -/
theorem castInt_roundf_exactly (oob : F32 → ℤ) (u : F32) (n : ℕ) (hu : u.Exactly n)
    (hn : (n : ℤ) ≤ 2147483647) : castInt oob (roundf u) = n := by
  obtain ⟨hf, hq⟩ := hu
  cases u with
  | finite q =>
    have e : q = ((n : ℤ) : ℚ) := by
      rw [Int.cast_natCast]
      exact hq
    rw [e, roundf_finite_intCast]
    exact castInt_finite_intCast oob n (by omega) hn
  | negZero =>
    have e : (n : ℚ) = 0 := hq.symm
    have e2 : n = 0 := by exact_mod_cast e
    subst e2
    rfl
  | inf s => exact absurd hf (by simp [F32.isFinite])
  | nan => exact absurd hf (by simp [F32.isFinite])

/-- The clamped coordinate when the conversion yields `r`. -/
theorem clampIdx_eval (oob : F32 → ℤ) (n : ℕ) (u : F32) (r : ℤ)
    (hr : castInt oob (roundf u) = r) :
    clampIdx oob n u = max 0 (min ((n : ℤ) - 1) r) := by
  unfold clampIdx
  rw [hr]

/-- The clamped coordinate lies in `[0, n - 1]` for a positive extent `n`,
whatever the conversion produced. -/
theorem clampIdx_bounds (oob : F32 → ℤ) (n : ℕ) (u : F32) (hn : 0 < n) :
    0 ≤ clampIdx oob n u ∧ clampIdx oob n u ≤ (n : ℤ) - 1 := by
  unfold clampIdx
  have h1 : (0 : ℤ) ≤ (n : ℤ) - 1 := by omega
  constructor
  · exact le_max_left _ _
  · exact max_le h1 (min_le_left _ _)

/-- The rounded value is within one half of the value. -/
theorem roundHalfAway_abs_le (u : ℚ) : |((F32.roundHalfAway u : ℤ) : ℚ) - u| ≤ 1 / 2 := by
  unfold F32.roundHalfAway
  by_cases h0 : 0 ≤ u
  · rw [if_pos h0, abs_le]
    have h1 := Int.floor_le (u + 1 / 2)
    have h2 := Int.lt_floor_add_one (u + 1 / 2)
    constructor <;> linarith
  · rw [if_neg h0, abs_le]
    have h1 := Int.le_ceil (u - 1 / 2)
    have h2 := Int.ceil_lt_add_one (u - 1 / 2)
    constructor <;> linarith

/-- The conversion of a rounded finite value that fits in `int`. -/
theorem castInt_roundf_finite (oob : F32 → ℤ) (q : ℚ)
    (h1 : -2147483648 ≤ F32.roundHalfAway q) (h2 : F32.roundHalfAway q ≤ 2147483647) :
    castInt oob (roundf (F32.finite q)) = F32.roundHalfAway q := by
  rw [roundf_finite]
  by_cases h : F32.roundHalfAway q = 0
  · rw [if_pos h, h]
    unfold F32.zero
    split_ifs
    · rfl
    · exact castInt_finite_intCast oob 0 (by norm_num) (by norm_num)
  · rw [if_neg h]
    exact castInt_finite_intCast oob _ h1 h2

/-- When the rounded value fits in `int`, the clamped coordinate is a
coordinate of `[0, n - 1]` nearest to the value. -/
theorem clampIdx_nearest (oob : F32 → ℤ) (n : ℕ) (u : ℚ)
    (h1 : -2147483648 ≤ F32.roundHalfAway u) (h2 : F32.roundHalfAway u ≤ 2147483647)
    (c : ℤ) (hc0 : 0 ≤ c) (hc1 : c ≤ (n : ℤ) - 1) :
    |((clampIdx oob n (F32.finite u) : ℤ) : ℚ) - u| ≤ |((c : ℤ) : ℚ) - u| := by
  rw [clampIdx_eval oob n (F32.finite u) _ (castInt_roundf_finite oob u h1 h2)]
  have hr := abs_le.mp (roundHalfAway_abs_le u)
  have hc0q : (0 : ℚ) ≤ (c : ℚ) := by exact_mod_cast hc0
  have hc1q : (c : ℚ) ≤ (n : ℚ) - 1 := by exact_mod_cast hc1
  by_cases hlow : F32.roundHalfAway u < 0
  · have e : max 0 (min ((n : ℤ) - 1) (F32.roundHalfAway u)) = 0 := by omega
    rw [e]
    have hq : ((F32.roundHalfAway u : ℤ) : ℚ) ≤ -1 := by
      exact_mod_cast (by omega : F32.roundHalfAway u ≤ -1)
    have hu : u ≤ 0 := by linarith [hr.1]
    rw [Int.cast_zero, zero_sub, abs_neg, abs_of_nonpos hu, abs_of_nonneg (by linarith)]
    linarith
  · by_cases hhigh : (n : ℤ) - 1 < F32.roundHalfAway u
    · have e : max 0 (min ((n : ℤ) - 1) (F32.roundHalfAway u)) = (n : ℤ) - 1 := by omega
      rw [e]
      have hq : (n : ℚ) ≤ ((F32.roundHalfAway u : ℤ) : ℚ) := by
        exact_mod_cast (by omega : (n : ℤ) ≤ F32.roundHalfAway u)
      have hu : (n : ℚ) - 1 ≤ u := by linarith [hr.2]
      have e2 : (((n : ℤ) - 1 : ℤ) : ℚ) = (n : ℚ) - 1 := by push_cast; ring
      rw [e2, abs_of_nonpos (by linarith), abs_of_nonpos (by linarith)]
      linarith
    · have e : max 0 (min ((n : ℤ) - 1) (F32.roundHalfAway u)) = F32.roundHalfAway u := by omega
      rw [e]
      by_cases hcr : c = F32.roundHalfAway u
      · rw [hcr]
      · have hdist : (1 : ℚ) ≤ |((c : ℤ) : ℚ) - ((F32.roundHalfAway u : ℤ) : ℚ)| := by
          have hz : (1 : ℤ) ≤ |c - F32.roundHalfAway u| := Int.one_le_abs (sub_ne_zero.mpr hcr)
          have : ((1 : ℤ) : ℚ) ≤ ((|c - F32.roundHalfAway u| : ℤ) : ℚ) := by exact_mod_cast hz
          simpa using this
        have htri : |((c : ℤ) : ℚ) - ((F32.roundHalfAway u : ℤ) : ℚ)| ≤
            |((c : ℤ) : ℚ) - u| + |((F32.roundHalfAway u : ℤ) : ℚ) - u| := by
          have := abs_sub_le ((c : ℤ) : ℚ) u ((F32.roundHalfAway u : ℤ) : ℚ)
          rwa [abs_sub_comm u ((F32.roundHalfAway u : ℤ) : ℚ)] at this
        have := roundHalfAway_abs_le u
        linarith

/-! ## Loop lemmas -/

/-- A fold in `Option` whose step appends `g b` whenever it succeeds returns,
when it succeeds, the start value followed by the pieces in order. -/
theorem foldlM_append_of_some {α β : Type} (f : β → List α → Option (List α)) (g : β → List α)
    (hf : ∀ b pc pc1, f b pc = some pc1 → pc1 = pc ++ g b) (l : List β) :
    ∀ pc0 out, l.foldlM (fun pc b => f b pc) pc0 = some out → out = pc0 ++ l.flatMap g := by
  induction l with
  | nil => intro pc0 out h; simpa using h.symm
  | cons b l ih =>
    intro pc0 out h
    rw [List.foldlM_cons] at h
    cases hb : f b pc0 with
    | none => simp [hb] at h
    | some pc1 =>
      rw [hb] at h
      have h1 := ih pc1 out (by simpa using h)
      rw [h1, hf b pc0 pc1 hb]
      simp

/-- A fold in `Option` whose step always succeeds by appending `g b` succeeds
with the start value followed by the pieces in order. -/
theorem foldlM_append_total {α β : Type} (f : β → List α → Option (List α)) (g : β → List α)
    (l : List β) (hf : ∀ b ∈ l, ∀ pc, f b pc = some (pc ++ g b)) :
    ∀ pc0, l.foldlM (fun pc b => f b pc) pc0 = some (pc0 ++ l.flatMap g) := by
  induction l with
  | nil => intro pc0; simp
  | cons b l ih =>
    intro pc0
    rw [List.foldlM_cons, hf b (List.mem_cons_self b l) pc0]
    have h1 := ih (fun c hc => hf c (List.mem_cons_of_mem b hc)) (pc0 ++ g b)
    simpa using h1

/-- A one-or-zero element piece per item, concatenated, is a `filterMap`. -/
theorem flatMap_toList_eq_filterMap {α β : Type} (f : β → Option α) (l : List β) :
    l.flatMap (fun b => (f b).toList) = l.filterMap f := by
  induction l with
  | nil => rfl
  | cons b l ih =>
    rw [List.flatMap_cons, ih, List.filterMap_cons]
    cases f b <;> simp

/-- Filtering the row-major scan pixel by pixel is filtering each row in turn. -/
theorem filterMap_rowMajor {α : Type} (f : ℕ → ℕ → Option α) (h w : ℕ) :
    (rowMajor h w).filterMap (fun p => f p.1 p.2) =
      (List.range h).flatMap (fun i => (List.range w).filterMap (f i)) := by
  unfold rowMajor
  rw [List.filterMap_flatMap]
  congr 1
  funext i
  rw [List.filterMap_map]
  rfl

/-! ## The loop body against the per-pixel pipeline -/

/-- The scaled depth of a pixel: a finite value, 0 for a raw value 0, at least
`2^-10` for a raw value of 1 or more, at most 10 for a raw value up to 10000,
and at least `10 + 2^-20` above. -/
theorem depthAt_cases (D : DepthMat) (i j : ℕ) :
    ∃ r : ℚ, depthAt D i j = F32.finite r ∧ F32.IsRepr r ∧
      ((D.px i j : ℕ) = 0 → r = 0) ∧ (1 ≤ (D.px i j : ℕ) → 1 / 1024 ≤ r) ∧
      ((D.px i j : ℕ) ≤ 10000 → r ≤ 10) ∧ (10000 < (D.px i j : ℕ) → 10 + 1 / 1048576 ≤ r) :=
  F32.depth_cases (D.px i j : ℕ) (D.px i j).isLt

/-- The first validity predicate in terms of the raw value. -/
theorem depthValid_iff_raw (D : DepthMat) (i j : ℕ) :
    depthValid D i j ↔ 1 ≤ (D.px i j : ℕ) ∧ (D.px i j : ℕ) ≤ 10000 := by
  obtain ⟨r, hr, _, h0, h1, h2, h3⟩ := depthAt_cases D i j
  unfold depthValid
  rw [hr, F32.finite_lt_iff, F32.finite_le_iff]
  constructor
  · rintro ⟨ha, hb⟩
    constructor
    · by_contra hc
      have := h0 (by omega)
      linarith
    · by_contra hc
      have := h3 (by omega)
      linarith
  · rintro ⟨ha, hb⟩
    have := h1 ha
    exact ⟨by linarith, h2 hb⟩

/-- The check `depth <= 0 || depth > 10.0f` of the source is the negation of
the first validity predicate. -/
theorem depth_check_iff (D : DepthMat) (i j : ℕ) :
    (depthAt D i j ≤ F32.ofInt 0 ∨ depthAt D i j > F32.finite 10) ↔ ¬ depthValid D i j := by
  obtain ⟨r, hr, _⟩ := depthAt_cases D i j
  unfold depthValid
  rw [hr, F32.ofInt_zero, gt_iff_lt, F32.finite_lt_iff, F32.finite_le_iff, F32.finite_lt_iff,
    F32.finite_le_iff]
  constructor
  · rintro (h | h) ⟨h1, h2⟩
    · exact absurd h1 (not_lt.mpr h)
    · exact absurd h2 (not_le.mpr h)
  · intro h
    by_cases h1 : r ≤ 0
    · exact Or.inl h1
    · right
      by_contra h2
      exact h ⟨not_le.mp h1, not_lt.mp h2⟩

/-- The loop body in terms of the named parts. -/
theorem loopBody_eq (oob : F32 → ℤ) (D : DepthMat) (C : ColorMat)
    (Kd Kc : CameraIntrinsics) (R : Mat33) (T : Mat31) (i j : ℕ) (pc : List Point3DRGB) :
    loopBody oob D C Kd Kc R T i j pc =
      if depthAt D i j ≤ F32.ofInt 0 ∨ depthAt D i j > F32.finite 10 then some pc
      else if (colorFramePoint D Kd R T i j).2.2 ≤ F32.ofInt 0 then some pc
      else
        match C.atVec3b (sampleIndex oob D C Kd Kc R T i j).1
            (sampleIndex oob D C Kd Kc R T i j).2 with
        | none => none
        | some color => some (pc ++ [mkPoint (colorFramePoint D Kd R T i j) color]) := rfl

/-- A pixel failing a validity predicate leaves `point_cloud` unchanged. -/
theorem loopBody_of_not_passes (oob : F32 → ℤ) (D : DepthMat) (C : ColorMat)
    (Kd Kc : CameraIntrinsics) (R : Mat33) (T : Mat31) (i j : ℕ) (pc : List Point3DRGB)
    (h : ¬ passes D Kd R T i j) : loopBody oob D C Kd Kc R T i j pc = some pc := by
  rw [loopBody_eq]
  by_cases hd : depthValid D i j
  · have hz : (colorFramePoint D Kd R T i j).2.2 ≤ F32.ofInt 0 := by
      rw [F32.ofInt_zero]
      by_contra hz
      exact h ⟨hd, hz⟩
    rw [if_neg (by rw [depth_check_iff]; exact not_not.mpr hd), if_pos hz]
  · rw [if_pos ((depth_check_iff D i j).mpr hd)]

/-- A pixel passing both validity predicates reads the colour image at the
sampled (row, column) and appends the point built from that sample. -/
theorem loopBody_of_passes (oob : F32 → ℤ) (D : DepthMat) (C : ColorMat)
    (Kd Kc : CameraIntrinsics) (R : Mat33) (T : Mat31) (i j : ℕ) (pc : List Point3DRGB)
    (h : passes D Kd R T i j) :
    loopBody oob D C Kd Kc R T i j pc =
      (C.atVec3b (sampleIndex oob D C Kd Kc R T i j).1 (sampleIndex oob D C Kd Kc R T i j).2).map
        (fun c => pc ++ [mkPoint (colorFramePoint D Kd R T i j) c]) := by
  rw [loopBody_eq]
  have hz : ¬ (colorFramePoint D Kd R T i j).2.2 ≤ F32.ofInt 0 := by
    rw [F32.ofInt_zero]
    exact h.2
  rw [if_neg (by rw [depth_check_iff]; exact not_not.mpr h.1), if_neg hz]
  cases C.atVec3b (sampleIndex oob D C Kd Kc R T i j).1 (sampleIndex oob D C Kd Kc R T i j).2 <;> rfl

/-- A successful checked read returns the stored sample. -/
theorem atVec3b_eq_some (C : ColorMat) (row col : ℤ) (c : Vec3b) (h : C.atVec3b row col = some c) :
    c = C.px row.toNat col.toNat := by
  unfold ColorMat.atVec3b at h
  split at h
  · exact (Option.some.inj h).symm
  · exact absurd h (by simp)

/-- On a non-empty colour image the read at the sampled (row, column) succeeds. -/
theorem atVec3b_sampleIndex (oob : F32 → ℤ) (D : DepthMat) (C : ColorMat)
    (Kd Kc : CameraIntrinsics) (R : Mat33) (T : Mat31) (i j : ℕ)
    (hr : 0 < C.rows) (hc : 0 < C.cols) :
    C.atVec3b (sampleIndex oob D C Kd Kc R T i j).1 (sampleIndex oob D C Kd Kc R T i j).2 =
      some (C.px (sampleIndex oob D C Kd Kc R T i j).1.toNat
        (sampleIndex oob D C Kd Kc R T i j).2.toNat) := by
  have h1 := clampIdx_bounds oob C.rows (project Kc (colorFramePoint D Kd R T i j)).2 hr
  have h2 := clampIdx_bounds oob C.cols (project Kc (colorFramePoint D Kd R T i j)).1 hc
  unfold ColorMat.atVec3b sampleIndex
  rw [if_pos]
  refine ⟨h1.1, ?_, h2.1, ?_⟩ <;> omega

/-- Whenever the loop body succeeds, it has appended the optional point of the
per-pixel pipeline. -/
theorem loopBody_eq_some (oob : F32 → ℤ) (D : DepthMat) (C : ColorMat)
    (Kd Kc : CameraIntrinsics) (R : Mat33) (T : Mat31) (i j : ℕ) (pc pc1 : List Point3DRGB)
    (h : loopBody oob D C Kd Kc R T i j pc = some pc1) :
    pc1 = pc ++ (pixelPoint oob D C Kd Kc R T i j).toList := by
  unfold pixelPoint
  by_cases hp : passes D Kd R T i j
  · rw [loopBody_of_passes oob D C Kd Kc R T i j pc hp] at h
    rw [if_pos hp]
    cases hread : C.atVec3b (sampleIndex oob D C Kd Kc R T i j).1 (sampleIndex oob D C Kd Kc R T i j).2 with
    | none => rw [hread] at h; exact absurd h (by simp)
    | some c =>
      rw [hread] at h
      rw [← atVec3b_eq_some C _ _ c hread]
      simpa using h.symm
  · rw [loopBody_of_not_passes oob D C Kd Kc R T i j pc hp] at h
    rw [if_neg hp]
    simpa using h.symm

/-- On a non-empty colour image the loop body succeeds and appends the optional
point of the per-pixel pipeline. -/
theorem loopBody_total (oob : F32 → ℤ) (D : DepthMat) (C : ColorMat)
    (Kd Kc : CameraIntrinsics) (R : Mat33) (T : Mat31) (i j : ℕ) (pc : List Point3DRGB)
    (hr : 0 < C.rows) (hc : 0 < C.cols) :
    loopBody oob D C Kd Kc R T i j pc = some (pc ++ (pixelPoint oob D C Kd Kc R T i j).toList) := by
  unfold pixelPoint
  by_cases hp : passes D Kd R T i j
  · rw [loopBody_of_passes oob D C Kd Kc R T i j pc hp,
      atVec3b_sampleIndex oob D C Kd Kc R T i j hr hc, if_pos hp]
    rfl
  · rw [loopBody_of_not_passes oob D C Kd Kc R T i j pc hp, if_neg hp]
    simp

/-! ## The whole conversion against the per-pixel pipeline -/

/-- The points of row `i` in column order. -/
theorem rowLoop_eq_some (oob : F32 → ℤ) (D : DepthMat) (C : ColorMat)
    (Kd Kc : CameraIntrinsics) (R : Mat33) (T : Mat31) (i : ℕ) (pc pc1 : List Point3DRGB)
    (h : rowLoop oob D C Kd Kc R T i pc = some pc1) :
    pc1 = pc ++ (List.range D.cols).filterMap (pixelPoint oob D C Kd Kc R T i) := by
  rw [← flatMap_toList_eq_filterMap]
  exact foldlM_append_of_some (fun j pc => loopBody oob D C Kd Kc R T i j pc)
    (fun j => (pixelPoint oob D C Kd Kc R T i j).toList)
    (fun j pc pc1 h => loopBody_eq_some oob D C Kd Kc R T i j pc pc1 h) _ pc pc1 h

/-- On a non-empty colour image the inner loop succeeds with the points of row
`i` in column order. -/
theorem rowLoop_total (oob : F32 → ℤ) (D : DepthMat) (C : ColorMat)
    (Kd Kc : CameraIntrinsics) (R : Mat33) (T : Mat31) (i : ℕ) (pc : List Point3DRGB)
    (hr : 0 < C.rows) (hc : 0 < C.cols) :
    rowLoop oob D C Kd Kc R T i pc =
      some (pc ++ (List.range D.cols).filterMap (pixelPoint oob D C Kd Kc R T i)) := by
  rw [← flatMap_toList_eq_filterMap]
  exact foldlM_append_total (fun j pc => loopBody oob D C Kd Kc R T i j pc)
    (fun j => (pixelPoint oob D C Kd Kc R T i j).toList) _
    (fun j _ pc => loopBody_total oob D C Kd Kc R T i j pc hr hc) pc

/-- Whenever the conversion succeeds, its output is the row-major scan filtered
through the per-pixel pipeline. -/
theorem depth2pcd_eq_some (oob : F32 → ℤ) (D : DepthMat) (C : ColorMat)
    (Kd Kc : CameraIntrinsics) (R : Mat33) (T : Mat31) (out : List Point3DRGB)
    (h : depth2pcd oob D C Kd Kc R T = some out) :
    out = (rowMajor D.rows D.cols).filterMap (fun p => pixelPoint oob D C Kd Kc R T p.1 p.2) := by
  rw [filterMap_rowMajor (pixelPoint oob D C Kd Kc R T)]
  have h1 := foldlM_append_of_some (fun i pc => rowLoop oob D C Kd Kc R T i pc)
    (fun i => (List.range D.cols).filterMap (pixelPoint oob D C Kd Kc R T i))
    (fun i pc pc1 h => rowLoop_eq_some oob D C Kd Kc R T i pc pc1 h) _ [] out h
  simpa using h1

/-- On a non-empty colour image the conversion succeeds, and its output is the
row-major scan filtered through the per-pixel pipeline. -/
theorem depth2pcd_total (oob : F32 → ℤ) (D : DepthMat) (C : ColorMat)
    (Kd Kc : CameraIntrinsics) (R : Mat33) (T : Mat31) (hr : 0 < C.rows) (hc : 0 < C.cols) :
    depth2pcd oob D C Kd Kc R T =
      some ((rowMajor D.rows D.cols).filterMap (fun p => pixelPoint oob D C Kd Kc R T p.1 p.2)) := by
  rw [filterMap_rowMajor (pixelPoint oob D C Kd Kc R T)]
  have h1 := foldlM_append_total (fun i pc => rowLoop oob D C Kd Kc R T i pc)
    (fun i => (List.range D.cols).filterMap (pixelPoint oob D C Kd Kc R T i)) (List.range D.rows)
    (fun i _ pc => rowLoop_total oob D C Kd Kc R T i pc hr hc) []
  simpa using h1

/-- Membership in the row-major scan: both coordinates inside the image. -/
theorem mem_rowMajor (h w : ℕ) (p : ℕ × ℕ) : p ∈ rowMajor h w ↔ p.1 < h ∧ p.2 < w := by
  unfold rowMajor
  simp only [List.mem_flatMap, List.mem_map, List.mem_range]
  constructor
  · rintro ⟨i, hi, j, hj, rfl⟩; exact ⟨hi, hj⟩
  · rintro ⟨hi, hj⟩; exact ⟨p.1, hi, p.2, hj, rfl⟩

/-- The row-major scan lists its pixels in strictly increasing scan order. -/
theorem rowMajor_pairwise (h w : ℕ) : (rowMajor h w).Pairwise scanBefore := by
  unfold rowMajor
  rw [List.pairwise_flatMap]
  constructor
  · intro i _
    rw [List.pairwise_map]
    exact (List.pairwise_lt_range w).imp (fun hlt => Or.inr ⟨rfl, hlt⟩)
  · refine (List.pairwise_lt_range h).imp ?_
    intro a b hab p hp q hq
    simp only [List.mem_map, List.mem_range] at hp hq
    obtain ⟨_, _, rfl⟩ := hp
    obtain ⟨_, _, rfl⟩ := hq
    exact Or.inl hab

/-- No pixel precedes itself in scan order. -/
theorem scanBefore_irrefl (p : ℕ × ℕ) : ¬ scanBefore p p := by
  rintro (h | ⟨_, h⟩) <;> exact lt_irrefl _ h

/-- The row-major scan lists every pixel once. -/
theorem rowMajor_nodup (h w : ℕ) : (rowMajor h w).Nodup := by
  unfold List.Nodup
  refine (rowMajor_pairwise h w).imp ?_
  intro a b hab heq
  rw [heq] at hab
  exact scanBefore_irrefl b hab

/-- The row-major scan has one entry per pixel. -/
theorem length_rowMajor (h w : ℕ) : (rowMajor h w).length = h * w := by
  unfold rowMajor
  induction h with
  | zero => simp
  | succ n ih =>
    rw [List.range_succ, List.flatMap_append, List.length_append, ih]
    simp [Nat.succ_mul]

/-- Counting the pixels of the image that satisfy `P` is counting along the
row-major scan. -/
theorem card_filter_eq_length_rowMajor (P : ℕ × ℕ → Prop) [DecidablePred P] (h w : ℕ) :
    (Finset.filter P (Finset.range h ×ˢ Finset.range w)).card =
      ((rowMajor h w).filter (fun p => decide (P p))).length := by
  have hnd : ((rowMajor h w).filter (fun p => decide (P p))).Nodup := (rowMajor_nodup h w).filter _
  rw [← List.toFinset_card_of_nodup hnd]
  congr 1
  ext p
  simp only [Finset.mem_filter, Finset.mem_product, Finset.mem_range, List.mem_toFinset,
    List.mem_filter, mem_rowMajor, decide_eq_true_eq]

/-- The per-pixel pipeline yields a point exactly for the pixels passing both
validity predicates. -/
theorem pixelPoint_isSome (oob : F32 → ℤ) (D : DepthMat) (C : ColorMat)
    (Kd Kc : CameraIntrinsics) (R : Mat33) (T : Mat31) (i j : ℕ) :
    (pixelPoint oob D C Kd Kc R T i j).isSome = decide (passes D Kd R T i j) := by
  unfold pixelPoint
  by_cases h : passes D Kd R T i j <;> simp [h]

/-- The length of a `filterMap` is the number of items with a value. -/
theorem length_filterMap_eq {α β : Type} (f : α → Option β) (l : List α) :
    (l.filterMap f).length = (l.filter (fun a => (f a).isSome)).length := by
  induction l with
  | nil => rfl
  | cons a l ih =>
    rw [List.filterMap_cons, List.filter_cons]
    cases h : f a <;> simp [ih]

/-- Length of the filtered row-major scan: the number of pixels passing both
validity predicates. -/
theorem length_filterMap_pixelPoint (oob : F32 → ℤ) (D : DepthMat) (C : ColorMat)
    (Kd Kc : CameraIntrinsics) (R : Mat33) (T : Mat31) :
    ((rowMajor D.rows D.cols).filterMap (fun p => pixelPoint oob D C Kd Kc R T p.1 p.2)).length =
      (Finset.filter (fun p : ℕ × ℕ => passes D Kd R T p.1 p.2)
        (Finset.range D.rows ×ˢ Finset.range D.cols)).card := by
  rw [card_filter_eq_length_rowMajor, length_filterMap_eq]
  congr 2
  funext p
  exact pixelPoint_isSome oob D C Kd Kc R T p.1 p.2

/-! ## Evaluation lemmas -/

/-- Value of a `u16` sample. -/
theorem u16_val (n : ℕ) : ((u16 n : Fin 65536) : ℕ) = n % 65536 := rfl

/-- Value of a `u8` channel. -/
theorem u8_val (n : ℕ) : ((u8 n : Fin 256) : ℕ) = n % 256 := rfl

/-- The value of the per-pixel pipeline at a pixel whose colour-frame point,
validity and sampled (row, column) are known. -/
theorem pixelPoint_eval (oob : F32 → ℤ) (D : DepthMat) (C : ColorMat) (Kd Kc : CameraIntrinsics)
    (R : Mat33) (T : Mat31) (i j : ℕ) (q : Vec3) (row col : ℕ)
    (hq : colorFramePoint D Kd R T i j = q) (hd : depthValid D i j) (hz : ¬ q.2.2 ≤ F32.finite 0)
    (hrow : clampIdx oob C.rows (project Kc q).2 = (row : ℤ))
    (hcol : clampIdx oob C.cols (project Kc q).1 = (col : ℤ)) :
    pixelPoint oob D C Kd Kc R T i j = some (mkPoint q (C.px row col)) := by
  have hp : passes D Kd R T i j := ⟨hd, by rw [hq]; exact hz⟩
  unfold pixelPoint sampleIndex
  rw [if_pos hp, hq, hrow, hcol]
  rfl

/-- The per-pixel pipeline yields nothing at a pixel failing the depth check. -/
theorem pixelPoint_of_not_depthValid (oob : F32 → ℤ) (D : DepthMat) (C : ColorMat)
    (Kd Kc : CameraIntrinsics) (R : Mat33) (T : Mat31) (i j : ℕ) (h : ¬ depthValid D i j) :
    pixelPoint oob D C Kd Kc R T i j = none := by
  unfold pixelPoint
  rw [if_neg (fun hp => h hp.1)]

/-- The row-major scan of a 2x2 image. -/
theorem rowMajor_two_two : rowMajor 2 2 = [(0, 0), (0, 1), (1, 0), (1, 1)] := by
  decide

/-- The row-major scan of a 1x1 image. -/
theorem rowMajor_one_one : rowMajor 1 1 = [(0, 0)] := by
  decide

/-- Two items with a value, the first earlier in the list, keep their order
in the `filterMap`. -/
theorem filterMap_order {α β : Type} (f : α → Option β) (l1 l2 l3 : List α) (p q : α) (x y : β)
    (hp : f p = some x) (hq : f q = some y) :
    ∃ a b : ℕ, a < b ∧ (List.filterMap f (l1 ++ p :: (l2 ++ q :: l3)))[a]? = some x ∧
      (List.filterMap f (l1 ++ p :: (l2 ++ q :: l3)))[b]? = some y := by
  refine ⟨(l1.filterMap f).length, (l1.filterMap f).length + 1 + (l2.filterMap f).length,
    by omega, ?_, ?_⟩
  · rw [List.filterMap_append, List.filterMap_cons, hp]
    rw [List.getElem?_append_right (le_refl _)]
    simp
  · rw [List.filterMap_append, List.filterMap_cons, hp, List.filterMap_append,
      List.filterMap_cons, hq]
    rw [List.getElem?_append_right (by omega)]
    have e : (l1.filterMap f).length + 1 + (l2.filterMap f).length - (l1.filterMap f).length
        = (l2.filterMap f).length + 1 := by omega
    rw [e, List.getElem?_cons_succ, List.getElem?_append_right (le_refl _)]
    simp

/-- In a list sorted by a strict order, an item related to another one stands
before it. -/
theorem pairwise_split {α : Type} (r : α → α → Prop) (hirr : ∀ a, ¬ r a a)
    (hasym : ∀ a b, r a b → ¬ r b a) (l : List α) (hl : l.Pairwise r) (p q : α)
    (hp : p ∈ l) (hq : q ∈ l) (hpq : r p q) :
    ∃ l1 l2 l3, l = l1 ++ p :: (l2 ++ q :: l3) := by
  obtain ⟨s, t, rfl⟩ := List.append_of_mem hq
  rw [List.pairwise_append] at hl
  obtain ⟨_, hqt, hst⟩ := hl
  rw [List.pairwise_cons] at hqt
  rcases List.mem_append.mp hp with hps | hpt
  · obtain ⟨l1, l2, rfl⟩ := List.append_of_mem hps
    exact ⟨l1, l2, t, by simp⟩
  · rcases List.mem_cons.mp hpt with rfl | hpt2
    · exact absurd hpq (hirr _)
    · exact absurd (hqt.1 p hpt2) (hasym _ _ hpq)

/-- Scan order is asymmetric. -/
theorem scanBefore_asymm (p q : ℕ × ℕ) (h : scanBefore p q) : ¬ scanBefore q p := by
  unfold scanBefore at *
  omega

/-! ## Points of the output -/

/-- A point of the per-pixel pipeline belongs to a pixel passing both validity
predicates and is built from its colour-frame coordinates and the sample stored
at the sampled (row, column). -/
theorem pixelPoint_eq_some (oob : F32 → ℤ) (D : DepthMat) (C : ColorMat)
    (Kd Kc : CameraIntrinsics) (R : Mat33) (T : Mat31) (i j : ℕ) (pt : Point3DRGB)
    (h : pixelPoint oob D C Kd Kc R T i j = some pt) :
    passes D Kd R T i j ∧
      pt = mkPoint (colorFramePoint D Kd R T i j)
        (C.px (sampleIndex oob D C Kd Kc R T i j).1.toNat
          (sampleIndex oob D C Kd Kc R T i j).2.toNat) := by
  unfold pixelPoint at h
  by_cases hp : passes D Kd R T i j
  · rw [if_pos hp] at h
    exact ⟨hp, (Option.some.inj h).symm⟩
  · rw [if_neg hp] at h
    exact absurd h (by simp)

/-- Every point of the output is the point of some pixel of the depth image. -/
theorem mem_output (oob : F32 → ℤ) (D : DepthMat) (C : ColorMat)
    (Kd Kc : CameraIntrinsics) (R : Mat33) (T : Mat31) (out : List Point3DRGB)
    (h : depth2pcd oob D C Kd Kc R T = some out) (pt : Point3DRGB) (hpt : pt ∈ out) :
    ∃ i j, i < D.rows ∧ j < D.cols ∧ pixelPoint oob D C Kd Kc R T i j = some pt := by
  rw [depth2pcd_eq_some oob D C Kd Kc R T out h, List.mem_filterMap] at hpt
  obtain ⟨p, hp, hpp⟩ := hpt
  rw [mem_rowMajor] at hp
  exact ⟨p.1, p.2, hp.1, hp.2, hpp⟩

/-- A loop body that appended exactly one point appended the point of the
per-pixel pipeline. -/
theorem pixelPoint_of_loopBody (oob : F32 → ℤ) (D : DepthMat) (C : ColorMat)
    (Kd Kc : CameraIntrinsics) (R : Mat33) (T : Mat31) (i j : ℕ) (pc : List Point3DRGB)
    (pt : Point3DRGB) (h : loopBody oob D C Kd Kc R T i j pc = some (pc ++ [pt])) :
    pixelPoint oob D C Kd Kc R T i j = some pt := by
  have h1 := loopBody_eq_some oob D C Kd Kc R T i j pc _ h
  have h2 := List.append_cancel_left h1
  cases hpp : pixelPoint oob D C Kd Kc R T i j with
  | none => rw [hpp] at h2; exact absurd h2 (by simp)
  | some x =>
    rw [hpp] at h2
    have h3 : [pt] = [x] := h2
    rw [List.cons.inj h3 |>.1]

/-- A loop body that appended exactly one point read the colour image
successfully at the sampled (row, column), and the point is built from the
sample read. -/
theorem loopBody_read (oob : F32 → ℤ) (D : DepthMat) (C : ColorMat)
    (Kd Kc : CameraIntrinsics) (R : Mat33) (T : Mat31) (i j : ℕ) (pc : List Point3DRGB)
    (pt : Point3DRGB) (h : loopBody oob D C Kd Kc R T i j pc = some (pc ++ [pt])) :
    ∃ c, C.atVec3b (sampleIndex oob D C Kd Kc R T i j).1 (sampleIndex oob D C Kd Kc R T i j).2
        = some c ∧ pt = mkPoint (colorFramePoint D Kd R T i j) c := by
  have hpp := pixelPoint_of_loopBody oob D C Kd Kc R T i j pc pt h
  have hp := (pixelPoint_eq_some oob D C Kd Kc R T i j pt hpp).1
  rw [loopBody_of_passes oob D C Kd Kc R T i j pc hp] at h
  cases hread : C.atVec3b (sampleIndex oob D C Kd Kc R T i j).1
      (sampleIndex oob D C Kd Kc R T i j).2 with
  | none => rw [hread] at h; exact absurd h (by simp)
  | some c =>
    rw [hread] at h
    have h1 : pc ++ [mkPoint (colorFramePoint D Kd R T i j) c] = pc ++ [pt] :=
      Option.some.inj h
    have h2 := List.append_cancel_left h1
    exact ⟨c, rfl, (List.cons.inj h2).1.symm⟩


/-! ## Row ranges -/

/-- The loop body on a point cloud `pc` is the loop body on the empty vector
with `pc` put in front, failure included. -/
theorem loopBody_append (oob : F32 → ℤ) (D : DepthMat) (C : ColorMat)
    (Kd Kc : CameraIntrinsics) (R : Mat33) (T : Mat31) (i j : ℕ) (pc : List Point3DRGB) :
    loopBody oob D C Kd Kc R T i j pc =
      (loopBody oob D C Kd Kc R T i j []).map (fun x => pc ++ x) := by
  by_cases hp : passes D Kd R T i j
  · rw [loopBody_of_passes oob D C Kd Kc R T i j pc hp,
      loopBody_of_passes oob D C Kd Kc R T i j [] hp]
    cases C.atVec3b (sampleIndex oob D C Kd Kc R T i j).1 (sampleIndex oob D C Kd Kc R T i j).2 with
    | none => rfl
    | some c => rfl
  · rw [loopBody_of_not_passes oob D C Kd Kc R T i j pc hp,
      loopBody_of_not_passes oob D C Kd Kc R T i j [] hp]
    simp

/-- A fold whose step puts its start value in front of what it computes from
the empty list does the same as a whole. -/
theorem foldlM_start {β : Type} (f : β → List Point3DRGB → Option (List Point3DRGB))
    (hf : ∀ b pc, f b pc = (f b []).map (fun x => pc ++ x)) (l : List β) :
    ∀ pc0, l.foldlM (fun pc b => f b pc) pc0 =
      (l.foldlM (fun pc b => f b pc) []).map (fun x => pc0 ++ x) := by
  induction l with
  | nil => intro pc0; simp
  | cons b l ih =>
    intro pc0
    rw [List.foldlM_cons, List.foldlM_cons, hf b pc0]
    cases hb : f b [] with
    | none => rfl
    | some x =>
      show l.foldlM (fun pc b => f b pc) (pc0 ++ x) =
        (l.foldlM (fun pc b => f b pc) x).map (fun y => pc0 ++ y)
      rw [ih (pc0 ++ x), ih x]
      cases l.foldlM (fun pc b => f b pc) [] with
      | none => rfl
      | some y => simp

/-- The inner loop on a point cloud `pc` is the inner loop on the empty vector
with `pc` put in front, failure included. -/
theorem rowLoop_append (oob : F32 → ℤ) (D : DepthMat) (C : ColorMat)
    (Kd Kc : CameraIntrinsics) (R : Mat33) (T : Mat31) (i : ℕ) (pc : List Point3DRGB) :
    rowLoop oob D C Kd Kc R T i pc =
      (rowLoop oob D C Kd Kc R T i []).map (fun x => pc ++ x) :=
  foldlM_start (fun j pc => loopBody oob D C Kd Kc R T i j pc)
    (fun j pc => loopBody_append oob D C Kd Kc R T i j pc) (List.range D.cols) pc

/-- A fold over a list of items is the concatenation of the results of the
items processed one by one from the empty list. -/
theorem foldlM_eq_concatParts {β : Type} (f : β → List Point3DRGB → Option (List Point3DRGB))
    (hf : ∀ b pc, f b pc = (f b []).map (fun x => pc ++ x)) (l : List β) :
    l.foldlM (fun pc b => f b pc) [] = concatParts (l.map (fun b => f b [])) := by
  induction l with
  | nil => rfl
  | cons b l ih =>
    rw [List.foldlM_cons, List.map_cons]
    cases hb : f b [] with
    | none => rfl
    | some x =>
      show l.foldlM (fun pc b => f b pc) x = _
      rw [foldlM_start f hf l x, concatParts, ← ih]

/-- A fold over two lists one after the other is the concatenation of the two
folds from the empty list. -/
theorem foldlM_append_concatParts {β : Type}
    (f : β → List Point3DRGB → Option (List Point3DRGB))
    (hf : ∀ b pc, f b pc = (f b []).map (fun x => pc ++ x)) (l1 l2 : List β) :
    (l1 ++ l2).foldlM (fun pc b => f b pc) [] =
      concatParts [l1.foldlM (fun pc b => f b pc) [], l2.foldlM (fun pc b => f b pc) []] := by
  rw [List.foldlM_append]
  cases h1 : l1.foldlM (fun pc b => f b pc) [] with
  | none => rfl
  | some x =>
    show l2.foldlM (fun pc b => f b pc) x = _
    rw [foldlM_start f hf l2 x]
    cases l2.foldlM (fun pc b => f b pc) [] with
    | none => rfl
    | some y => simp [concatParts]

/-- The conversion is the row range made of all the rows. -/
theorem depth2pcd_eq_rowRange (oob : F32 → ℤ) (D : DepthMat) (C : ColorMat)
    (Kd Kc : CameraIntrinsics) (R : Mat33) (T : Mat31) :
    depth2pcd oob D C Kd Kc R T = rowRange oob D C Kd Kc R T 0 D.rows := by
  unfold depth2pcd rowRange
  rw [List.range_eq_range']

/-- A row range cut in two is the concatenation of its two parts. -/
theorem rowRange_split (oob : F32 → ℤ) (D : DepthMat) (C : ColorMat)
    (Kd Kc : CameraIntrinsics) (R : Mat33) (T : Mat31) (lo n m : ℕ) :
    rowRange oob D C Kd Kc R T lo (n + m) =
      concatParts [rowRange oob D C Kd Kc R T lo n, rowRange oob D C Kd Kc R T (lo + n) m] := by
  unfold rowRange
  have h := List.range'_append lo n m 1
  rw [Nat.one_mul] at h
  rw [Nat.add_comm n m, ← h]
  exact foldlM_append_concatParts (fun i pc => rowLoop oob D C Kd Kc R T i pc)
    (fun i pc => rowLoop_append oob D C Kd Kc R T i pc) _ _

/-- The concatenation of the results of consecutive row ranges is the result
of the row range they make up. -/
theorem concatParts_rowRanges (oob : F32 → ℤ) (D : DepthMat) (C : ColorMat)
    (Kd Kc : CameraIntrinsics) (R : Mat33) (T : Mat31) (ns : List ℕ) :
    ∀ lo, concatParts ((rowRanges lo ns).map (fun r => rowRange oob D C Kd Kc R T r.1 r.2)) =
      rowRange oob D C Kd Kc R T lo ns.sum := by
  induction ns with
  | nil => intro lo; rfl
  | cons n ns ih =>
    intro lo
    rw [rowRanges, List.map_cons, List.sum_cons, rowRange_split]
    cases rowRange oob D C Kd Kc R T lo n with
    | none => rfl
    | some x =>
      rw [concatParts, ih (lo + n)]
      cases rowRange oob D C Kd Kc R T (lo + n) ns.sum with
      | none => rfl
      | some y => simp [concatParts]

/-! ## Geometry of the output -/

/-- Coordinates of the optional point of a pixel: the colour-frame point when
the pixel passes both validity predicates; the colour image and the colour
intrinsics play no part. -/
theorem pixelPoint_map_xyz (oob : F32 → ℤ) (D : DepthMat) (C : ColorMat)
    (Kd Kc : CameraIntrinsics) (R : Mat33) (T : Mat31) (i j : ℕ) :
    (pixelPoint oob D C Kd Kc R T i j).map (fun p => (p.x, p.y, p.z)) =
      if passes D Kd R T i j then some (colorFramePoint D Kd R T i j) else none := by
  unfold pixelPoint
  by_cases hp : passes D Kd R T i j
  · rw [if_pos hp, if_pos hp]
    rfl
  · rw [if_neg hp, if_neg hp]
    rfl

/-- Coordinates of the filtered scan: the colour image and the colour
intrinsics play no part. -/
theorem map_xyz_filterMap (oob : F32 → ℤ) (D : DepthMat) (C : ColorMat)
    (Kd Kc : CameraIntrinsics) (R : Mat33) (T : Mat31) (l : List (ℕ × ℕ)) :
    (l.filterMap (fun p => pixelPoint oob D C Kd Kc R T p.1 p.2)).map (fun p => (p.x, p.y, p.z)) =
      l.filterMap (fun p =>
        if passes D Kd R T p.1 p.2 then some (colorFramePoint D Kd R T p.1 p.2) else none) := by
  rw [List.map_filterMap]
  congr 1
  funext p
  exact pixelPoint_map_xyz oob D C Kd Kc R T p.1 p.2


/-! ## Identity extrinsic -/

/-- Each back-projected coordinate that is finite is a binary32 value. -/
theorem backProject_repr (D : DepthMat) (K : CameraIntrinsics) (i j : ℕ) :
    (∀ q, (backProject D K i j).1 = F32.finite q → F32.IsRepr q) ∧
    (∀ q, (backProject D K i j).2.1 = F32.finite q → F32.IsRepr q) ∧
    (∀ q, (backProject D K i j).2.2 = F32.finite q → F32.IsRepr q) :=
  ⟨fun q h => F32.div_repr _ _ q h, fun q h => F32.div_repr _ _ q h,
    fun q h => F32.div_repr _ _ q h⟩

/-- Under the identity extrinsic the first colour-frame coordinate is the
back-projected one (`+0` for `-0`), or NaN when another back-projected
coordinate is not finite. -/
theorem colorFramePoint_eye_zeros_x (D : DepthMat) (K : CameraIntrinsics) (i j : ℕ) :
    ((colorFramePoint D K Mat33.eye Mat31.zeros i j).1 = F32.nan ∧
      (F32.finite 0 * (backProject D K i j).2.1 = F32.nan ∨
        F32.finite 0 * (backProject D K i j).2.2 = F32.nan)) ∨
    (colorFramePoint D K Mat33.eye Mat31.zeros i j).1 = (backProject D K i j).1 ∨
    ((backProject D K i j).1 = F32.negZero ∧
      (colorFramePoint D K Mat33.eye Mat31.zeros i j).1 = F32.finite 0) :=
  F32.eye_row0 _ _ _ (backProject_repr D K i j).1

/-- Under the identity extrinsic the second colour-frame coordinate is the
back-projected one (`+0` for `-0`), or NaN when another back-projected
coordinate is not finite. -/
theorem colorFramePoint_eye_zeros_y (D : DepthMat) (K : CameraIntrinsics) (i j : ℕ) :
    ((colorFramePoint D K Mat33.eye Mat31.zeros i j).2.1 = F32.nan ∧
      (F32.finite 0 * (backProject D K i j).1 = F32.nan ∨
        F32.finite 0 * (backProject D K i j).2.2 = F32.nan)) ∨
    (colorFramePoint D K Mat33.eye Mat31.zeros i j).2.1 = (backProject D K i j).2.1 ∨
    ((backProject D K i j).2.1 = F32.negZero ∧
      (colorFramePoint D K Mat33.eye Mat31.zeros i j).2.1 = F32.finite 0) :=
  F32.eye_row1 _ _ _ (backProject_repr D K i j).2.1

/-- Under the identity extrinsic the third colour-frame coordinate is the scaled
depth, or NaN when a back-projected `x` or `y` is not finite. -/
theorem colorFramePoint_eye_zeros_z (D : DepthMat) (K : CameraIntrinsics) (i j : ℕ) :
    ((colorFramePoint D K Mat33.eye Mat31.zeros i j).2.2 = F32.nan ∧
      (F32.finite 0 * (backProject D K i j).1 = F32.nan ∨
        F32.finite 0 * (backProject D K i j).2.1 = F32.nan)) ∨
    (colorFramePoint D K Mat33.eye Mat31.zeros i j).2.2 = depthAt D i j := by
  rcases F32.eye_row2 (backProject D K i j).1 (backProject D K i j).2.1 (backProject D K i j).2.2
    (backProject_repr D K i j).2.2 with h | h | h
  · exact Or.inl h
  · exact Or.inr h
  · obtain ⟨r, hr, _⟩ := depthAt_cases D i j
    have h1 : depthAt D i j = F32.negZero := h.1
    rw [hr] at h1
    exact absurd h1 (by simp)

/-- Under the identity extrinsic the test `z_rgb <= 0` is false at every pixel
with valid depth. -/
theorem passes_eye_zeros (D : DepthMat) (K : CameraIntrinsics) (i j : ℕ) :
    passes D K Mat33.eye Mat31.zeros i j ↔ depthValid D i j := by
  constructor
  · exact fun h => h.1
  · intro hd
    refine ⟨hd, ?_⟩
    rcases colorFramePoint_eye_zeros_z D K i j with h | h
    · rw [h.1]
      exact fun hle => absurd hle (by decide)
    · rw [h]
      obtain ⟨r, hr, _⟩ := depthAt_cases D i j
      have h0 := hd.1
      rw [hr] at h0 ⊢
      rw [F32.finite_lt_iff] at h0
      rw [F32.finite_le_iff]
      exact not_le.mpr h0

/-- The identity extrinsic leaves a point with finite binary32 coordinates
unchanged. -/
theorem extrinsic_eye_zeros_finite (x y z : ℚ) (hx : F32.IsRepr x) (hy : F32.IsRepr y)
    (hz : F32.IsRepr z) :
    extrinsic Mat33.eye Mat31.zeros (F32.finite x, F32.finite y, F32.finite z) =
      (F32.finite x, F32.finite y, F32.finite z) := by
  have nx := F32.zero_mul_ne_nan (F32.finite x) rfl
  have ny := F32.zero_mul_ne_nan (F32.finite y) rfl
  have nz := F32.zero_mul_ne_nan (F32.finite z) rfl
  have e0 : F32.finite 1 * F32.finite x + F32.finite 0 * F32.finite y + F32.finite 0 * F32.finite z
      + F32.finite 0 = F32.finite x := by
    rcases F32.eye_row0 (F32.finite x) (F32.finite y) (F32.finite z)
      (fun q h => by rw [← F32.finite.inj h]; exact hx) with h | h | h
    · rcases h.2 with h2 | h2
      · exact absurd h2 ny
      · exact absurd h2 nz
    · exact h
    · exact absurd h.1 (by simp)
  have e1 : F32.finite 0 * F32.finite x + F32.finite 1 * F32.finite y + F32.finite 0 * F32.finite z
      + F32.finite 0 = F32.finite y := by
    rcases F32.eye_row1 (F32.finite x) (F32.finite y) (F32.finite z)
      (fun q h => by rw [← F32.finite.inj h]; exact hy) with h | h | h
    · rcases h.2 with h2 | h2
      · exact absurd h2 nx
      · exact absurd h2 nz
    · exact h
    · exact absurd h.1 (by simp)
  have e2 : F32.finite 0 * F32.finite x + F32.finite 0 * F32.finite y + F32.finite 1 * F32.finite z
      + F32.finite 0 = F32.finite z := by
    rcases F32.eye_row2 (F32.finite x) (F32.finite y) (F32.finite z)
      (fun q h => by rw [← F32.finite.inj h]; exact hz) with h | h | h
    · rcases h.2 with h2 | h2
      · exact absurd h2 nx
      · exact absurd h2 ny
    · exact h
    · exact absurd h.1 (by simp)
  show ((F32.finite 1 * F32.finite x + F32.finite 0 * F32.finite y + F32.finite 0 * F32.finite z
      + F32.finite 0,
    F32.finite 0 * F32.finite x + F32.finite 1 * F32.finite y + F32.finite 0 * F32.finite z
      + F32.finite 0,
    F32.finite 0 * F32.finite x + F32.finite 0 * F32.finite y + F32.finite 1 * F32.finite z
      + F32.finite 0) : Vec3) = _
  rw [e0, e1, e2]

/-! ## Roundings that occur on the concrete inputs -/

/-- The binary32 value nearest to `-1/1000`. -/
theorem round32_neg_thousandth (s : Bool) :
    F32.round32 (-1 / 1000) s = F32.finite (-8589935 / 8589934592) := by
  have hm : F32.rne (-(-1 / 1000 : ℚ) / 2 ^ ((-10 : ℤ) - 23)) = 8589935 :=
    (F32.rne_of_gt_half _ 8589934 (by norm_num) (by norm_num)).trans (by norm_num)
  rw [F32.round32_eval_neg (-1 / 1000) s (-10) 8589935 (by norm_num) (by norm_num) (by norm_num)
    (by norm_num) hm (by norm_num) (by norm_num)]
  norm_num

/-- The binary32 value nearest to `1/2000`. -/
theorem round32_two_thousandth (s : Bool) :
    F32.round32 (1 / 2000) s = F32.finite (8589935 / 17179869184) := by
  have hm : F32.rne ((1 / 2000 : ℚ) / 2 ^ ((-11 : ℤ) - 23)) = 8589935 :=
    (F32.rne_of_gt_half _ 8589934 (by norm_num) (by norm_num)).trans (by norm_num)
  rw [F32.round32_eval_pos (1 / 2000) s (-11) 8589935 (by norm_num) (by norm_num) (by norm_num)
    (by norm_num) hm (by norm_num) (by norm_num)]
  norm_num

/-- The product of the binary32 value nearest to `-1/1000` and 500 rounds to
`-1/2`. -/
theorem round32_neg_half (s : Bool) :
    F32.round32 (-1073741875 / 2147483648) s = F32.finite (-1 / 2) := by
  have hm : F32.rne (-(-1073741875 / 2147483648 : ℚ) / 2 ^ ((-1 : ℤ) - 23)) = 8388608 :=
    F32.rne_of_lt_half _ 8388608 (by norm_num) (by norm_num)
  rw [F32.round32_eval_neg (-1073741875 / 2147483648) s (-1) 8388608 (by norm_num) (by norm_num)
    (by norm_num) (by norm_num) hm (by norm_num) (by norm_num)]
  norm_num

/-- The product of the binary32 value nearest to `1/2000` and 500 rounds to
`1/4`. -/
theorem round32_quarter (s : Bool) :
    F32.round32 (1073741875 / 4294967296) s = F32.finite (1 / 4) := by
  have hm : F32.rne ((1073741875 / 4294967296 : ℚ) / 2 ^ ((-2 : ℤ) - 23)) = 8388608 :=
    F32.rne_of_lt_half _ 8388608 (by norm_num) (by norm_num)
  rw [F32.round32_eval_pos (1073741875 / 4294967296) s (-2) 8388608 (by norm_num) (by norm_num)
    (by norm_num) (by norm_num) hm (by norm_num) (by norm_num)]
  norm_num

/-- The difference `1 - 2^25` is halfway between two binary32 values and rounds
to the even one, `-2^25`. -/
theorem round32_tie (s : Bool) :
    F32.round32 (-33554431) s = F32.finite (-33554432) := by
  have hm : F32.rne (-(-33554431 : ℚ) / 2 ^ ((24 : ℤ) - 23)) = 16777216 :=
    (F32.rne_of_tie_odd _ 16777215 (by norm_num) (by norm_num)).trans (by norm_num)
  rw [F32.round32_eval_neg (-33554431) s 24 16777216 (by norm_num) (by norm_num) (by norm_num)
    (by norm_num) hm (by norm_num) (by norm_num)]
  norm_num

/-- The binary32 value nearest to `30/255`. -/
theorem round32_channel_30 (s : Bool) :
    F32.round32 (30 / 255) s = F32.finite (15790321 / 134217728) := by
  have hm : F32.rne ((30 / 255 : ℚ) / 2 ^ ((-4 : ℤ) - 23)) = 15790321 :=
    (F32.rne_of_gt_half _ 15790320 (by norm_num) (by norm_num)).trans (by norm_num)
  rw [F32.round32_eval_pos (30 / 255) s (-4) 15790321 (by norm_num) (by norm_num) (by norm_num)
    (by norm_num) hm (by norm_num) (by norm_num)]
  norm_num

/-- The binary32 value nearest to `20/255`. -/
theorem round32_channel_20 (s : Bool) :
    F32.round32 (20 / 255) s = F32.finite (10526881 / 134217728) := by
  have hm : F32.rne ((20 / 255 : ℚ) / 2 ^ ((-4 : ℤ) - 23)) = 10526881 :=
    (F32.rne_of_gt_half _ 10526880 (by norm_num) (by norm_num)).trans (by norm_num)
  rw [F32.round32_eval_pos (20 / 255) s (-4) 10526881 (by norm_num) (by norm_num) (by norm_num)
    (by norm_num) hm (by norm_num) (by norm_num)]
  norm_num

/-- The binary32 value nearest to `10/255`. -/
theorem round32_channel_10 (s : Bool) :
    F32.round32 (10 / 255) s = F32.finite (10526881 / 268435456) := by
  have hm : F32.rne ((10 / 255 : ℚ) / 2 ^ ((-5 : ℤ) - 23)) = 10526881 :=
    (F32.rne_of_gt_half _ 10526880 (by norm_num) (by norm_num)).trans (by norm_num)
  rw [F32.round32_eval_pos (10 / 255) s (-5) 10526881 (by norm_num) (by norm_num) (by norm_num)
    (by norm_num) hm (by norm_num) (by norm_num)]
  norm_num

/-- The value `2^149` overflows to `+inf`. -/
theorem round32_overflow (s : Bool) :
    F32.round32 713623846352979940529142984724747568191373312 s = F32.inf false := by
  have e : (713623846352979940529142984724747568191373312 : ℚ) / 2 ^ ((149 : ℤ) - 23)
      = ((8388608 : ℤ) : ℚ) := by norm_num
  have hm : F32.rne ((713623846352979940529142984724747568191373312 : ℚ) / 2 ^ ((149 : ℤ) - 23))
      = 8388608 := by
    rw [e, F32.rne_intCast]
  have hr := F32.roundMag_eval 713623846352979940529142984724747568191373312 149 8388608
    (by norm_num) (by norm_num) (by norm_num) (by norm_num) hm
  unfold F32.round32
  rw [if_neg (by norm_num), abs_of_pos (by norm_num), hr, if_pos (by norm_num)]
  norm_num

/-- The conversion of the `int` 0. -/
theorem ofInt_nat_zero : F32.ofInt ((0 : ℕ) : ℤ) = F32.finite 0 := by
  rw [F32.ofInt_natCast 0 (by norm_num)]
  norm_num

/-- The conversion of the `int` 1. -/
theorem ofInt_nat_one : F32.ofInt ((1 : ℕ) : ℤ) = F32.finite 1 := by
  rw [F32.ofInt_natCast 1 (by norm_num)]
  norm_num

/-- The scaled depth of a pixel whose raw value is known, when the quotient by
1000 is a binary32 value. -/
theorem depthAt_of_raw (D : DepthMat) (i j n : ℕ) (r : ℚ) (hraw : (D.px i j : ℕ) = n)
    (hn : n < 16777216) (h : (n : ℚ) / 1000 = r) (hr : F32.IsRepr r) (h0 : r ≠ 0) :
    depthAt D i j = F32.finite r := by
  unfold depthAt
  rw [hraw, F32.ofInt_natCast n hn]
  exact F32.finite_div_exact _ _ _ (by norm_num) h hr h0

/-- The difference `+0 - +0` is `+0`. -/
theorem pzero_sub_pzero : F32.finite 0 - F32.finite 0 = F32.finite 0 := by
  rw [F32.finite_sub, sub_zero, F32.round32_zero]
  simp [F32.zero]

/-- The product of `+0` and a non-negative finite value is `+0`. -/
theorem pzero_mul_finite (q : ℚ) (hq : 0 ≤ q) : F32.finite 0 * F32.finite q = F32.finite 0 := by
  rw [F32.finite_mul, zero_mul, F32.round32_zero]
  simp [F32.zero, not_lt.mpr hq]

/-- The quotient of `+0` by a positive finite value is `+0`. -/
theorem pzero_div_finite (q : ℚ) (hq : 0 < q) : F32.finite 0 / F32.finite q = F32.finite 0 := by
  rw [F32.finite_div _ _ hq.ne', zero_div, F32.round32_zero]
  simp [F32.zero, not_lt.mpr hq.le]

/-- Rounding and conversion of the value `+0`. -/
theorem castInt_roundf_zero (oob : F32 → ℤ) : castInt oob (roundf (F32.finite 0)) = 0 := by
  have h := castInt_roundf_exactly oob (F32.finite 0) 0 ⟨rfl, by simp [F32.toRat]⟩ (by norm_num)
  simpa using h

/-- Rounding and conversion of the value 1. -/
theorem castInt_roundf_one (oob : F32 → ℤ) : castInt oob (roundf (F32.finite 1)) = 1 := by
  have h := castInt_roundf_exactly oob (F32.finite 1) 1 ⟨rfl, by simp [F32.toRat]⟩ (by norm_num)
  simpa using h

/-- Filtering a scan whose first pixel has a point. -/
theorem filterMap_pixels_cons_some {α : Type} (f : ℕ → ℕ → Option α) (i j : ℕ)
    (l : List (ℕ × ℕ)) (b : α) (h : f i j = some b) :
    ((i, j) :: l).filterMap (fun p => f p.1 p.2) = b :: l.filterMap (fun p => f p.1 p.2) := by
  rw [List.filterMap_cons]
  simp only [h]

/-- Filtering a scan whose first pixel has no point. -/
theorem filterMap_pixels_cons_none {α : Type} (f : ℕ → ℕ → Option α) (i j : ℕ)
    (l : List (ℕ × ℕ)) (h : f i j = none) :
    ((i, j) :: l).filterMap (fun p => f p.1 p.2) = l.filterMap (fun p => f p.1 p.2) := by
  rw [List.filterMap_cons]
  simp only [h]

/-! ## The scenario of section 8 -/

/-- Pixel (0, 0) of the scenario: raw 1000, one meter. -/
theorem scenario_depth00 : depthAt scenarioDepth 0 0 = F32.finite 1 :=
  depthAt_of_raw scenarioDepth 0 0 1000 1 rfl (by norm_num) (by norm_num)
    ⟨1, 0, by norm_num, by norm_num, by norm_num, by norm_num⟩ (by norm_num)

/-- Pixel (1, 1) of the scenario: raw 500, half a meter. -/
theorem scenario_depth11 : depthAt scenarioDepth 1 1 = F32.finite (1 / 2) :=
  depthAt_of_raw scenarioDepth 1 1 500 (1 / 2) rfl (by norm_num) (by norm_num)
    ⟨1, -1, by norm_num, by norm_num, by norm_num, by norm_num⟩ (by norm_num)

/-- Pixel (0, 0) of the scenario: the back-projected point, whose `x` and `y`
are the binary32 value nearest to `-0.001`. -/
theorem scenario_backProject00 :
    backProject scenarioDepth scenarioK 0 0 =
      (F32.finite (-8589935 / 8589934592), F32.finite (-8589935 / 8589934592), F32.finite 1) := by
  have s1 : F32.finite 0 - F32.finite (1 / 2) = F32.finite (-1 / 2) :=
    F32.finite_sub_exact _ _ _ (by norm_num)
      ⟨-1, -1, by norm_num, by norm_num, by norm_num, by norm_num⟩ (by norm_num)
  have s2 : F32.finite (-1 / 2) * F32.finite 1 = F32.finite (-1 / 2) :=
    F32.finite_mul_exact _ _ _ (by norm_num)
      ⟨-1, -1, by norm_num, by norm_num, by norm_num, by norm_num⟩ (by norm_num)
  have s3 : F32.finite (-1 / 2) / F32.finite 500 = F32.finite (-8589935 / 8589934592) := by
    rw [F32.finite_div _ _ (by norm_num)]
    have e : (-1 / 2 : ℚ) / 500 = -1 / 1000 := by norm_num
    rw [e]
    exact round32_neg_thousandth _
  show ((F32.ofInt ((0 : ℕ) : ℤ) - F32.finite (1 / 2)) * depthAt scenarioDepth 0 0 / F32.finite 500,
    (F32.ofInt ((0 : ℕ) : ℤ) - F32.finite (1 / 2)) * depthAt scenarioDepth 0 0 / F32.finite 500,
    depthAt scenarioDepth 0 0) = _
  rw [scenario_depth00, ofInt_nat_zero, s1, s2, s3]

/-- Pixel (1, 1) of the scenario: the back-projected point, whose `x` and `y`
are the binary32 value nearest to `0.0005`. -/
theorem scenario_backProject11 :
    backProject scenarioDepth scenarioK 1 1 =
      (F32.finite (8589935 / 17179869184), F32.finite (8589935 / 17179869184),
        F32.finite (1 / 2)) := by
  have s1 : F32.finite 1 - F32.finite (1 / 2) = F32.finite (1 / 2) :=
    F32.finite_sub_exact _ _ _ (by norm_num)
      ⟨1, -1, by norm_num, by norm_num, by norm_num, by norm_num⟩ (by norm_num)
  have s2 : F32.finite (1 / 2) * F32.finite (1 / 2) = F32.finite (1 / 4) :=
    F32.finite_mul_exact _ _ _ (by norm_num)
      ⟨1, -2, by norm_num, by norm_num, by norm_num, by norm_num⟩ (by norm_num)
  have s3 : F32.finite (1 / 4) / F32.finite 500 = F32.finite (8589935 / 17179869184) := by
    rw [F32.finite_div _ _ (by norm_num)]
    have e : (1 / 4 : ℚ) / 500 = 1 / 2000 := by norm_num
    rw [e]
    exact round32_two_thousandth _
  show ((F32.ofInt ((1 : ℕ) : ℤ) - F32.finite (1 / 2)) * depthAt scenarioDepth 1 1 / F32.finite 500,
    (F32.ofInt ((1 : ℕ) : ℤ) - F32.finite (1 / 2)) * depthAt scenarioDepth 1 1 / F32.finite 500,
    depthAt scenarioDepth 1 1) = _
  rw [scenario_depth11, ofInt_nat_one, s1, s2, s3]

/-- Pixel (0, 0) of the scenario: the colour-frame point. -/
theorem scenario_point00 :
    colorFramePoint scenarioDepth scenarioK Mat33.eye Mat31.zeros 0 0 =
      (F32.finite (-8589935 / 8589934592), F32.finite (-8589935 / 8589934592), F32.finite 1) := by
  unfold colorFramePoint
  rw [scenario_backProject00]
  exact extrinsic_eye_zeros_finite _ _ _
    ⟨-8589935, -33, by norm_num, by norm_num, by norm_num, by norm_num⟩
    ⟨-8589935, -33, by norm_num, by norm_num, by norm_num, by norm_num⟩
    ⟨1, 0, by norm_num, by norm_num, by norm_num, by norm_num⟩

/-- Pixel (1, 1) of the scenario: the colour-frame point. -/
theorem scenario_point11 :
    colorFramePoint scenarioDepth scenarioK Mat33.eye Mat31.zeros 1 1 =
      (F32.finite (8589935 / 17179869184), F32.finite (8589935 / 17179869184),
        F32.finite (1 / 2)) := by
  unfold colorFramePoint
  rw [scenario_backProject11]
  exact extrinsic_eye_zeros_finite _ _ _
    ⟨8589935, -34, by norm_num, by norm_num, by norm_num, by norm_num⟩
    ⟨8589935, -34, by norm_num, by norm_num, by norm_num, by norm_num⟩
    ⟨1, -1, by norm_num, by norm_num, by norm_num, by norm_num⟩

/-- Pixel (0, 0) of the scenario projects to `(u, v) = (0, 0)`. -/
theorem scenario_project00 :
    project scenarioK
      (F32.finite (-8589935 / 8589934592), F32.finite (-8589935 / 8589934592), F32.finite 1) =
      (F32.finite 0, F32.finite 0) := by
  have m1 : F32.finite (-8589935 / 8589934592) * F32.finite 500 = F32.finite (-1 / 2) := by
    rw [F32.finite_mul]
    have e : (-8589935 / 8589934592 : ℚ) * 500 = -1073741875 / 2147483648 := by norm_num
    rw [e]
    exact round32_neg_half _
  have m2 : F32.finite (-1 / 2) / F32.finite 1 = F32.finite (-1 / 2) :=
    F32.finite_div_exact _ _ _ (by norm_num) (by norm_num)
      ⟨-1, -1, by norm_num, by norm_num, by norm_num, by norm_num⟩ (by norm_num)
  have m3 : F32.finite (-1 / 2) + F32.finite (1 / 2) = F32.finite 0 := by
    rw [F32.finite_add]
    norm_num [F32.round32_zero, F32.zero]
  show (F32.finite (-8589935 / 8589934592) * F32.finite 500 / F32.finite 1 + F32.finite (1 / 2),
    F32.finite (-8589935 / 8589934592) * F32.finite 500 / F32.finite 1 + F32.finite (1 / 2)) = _
  rw [m1, m2, m3]

/-- Pixel (1, 1) of the scenario projects to `(u, v) = (1, 1)`. -/
theorem scenario_project11 :
    project scenarioK
      (F32.finite (8589935 / 17179869184), F32.finite (8589935 / 17179869184),
        F32.finite (1 / 2)) =
      (F32.finite 1, F32.finite 1) := by
  have m1 : F32.finite (8589935 / 17179869184) * F32.finite 500 = F32.finite (1 / 4) := by
    rw [F32.finite_mul]
    have e : (8589935 / 17179869184 : ℚ) * 500 = 1073741875 / 4294967296 := by norm_num
    rw [e]
    exact round32_quarter _
  have m2 : F32.finite (1 / 4) / F32.finite (1 / 2) = F32.finite (1 / 2) :=
    F32.finite_div_exact _ _ _ (by norm_num) (by norm_num)
      ⟨1, -1, by norm_num, by norm_num, by norm_num, by norm_num⟩ (by norm_num)
  have m3 : F32.finite (1 / 2) + F32.finite (1 / 2) = F32.finite 1 :=
    F32.finite_add_exact _ _ _ (by norm_num)
      ⟨1, 0, by norm_num, by norm_num, by norm_num, by norm_num⟩ (by norm_num)
  show (F32.finite (8589935 / 17179869184) * F32.finite 500 / F32.finite (1 / 2)
      + F32.finite (1 / 2),
    F32.finite (8589935 / 17179869184) * F32.finite 500 / F32.finite (1 / 2)
      + F32.finite (1 / 2)) = _
  rw [m1, m2, m3]

/-- Pixel (0, 0) of the scenario: its point, sampled at (0, 0). -/
theorem scenario_pixel00 (oob : F32 → ℤ) (px : ℕ → ℕ → Vec3b) :
    pixelPoint oob scenarioDepth ⟨2, 2, px⟩ scenarioK scenarioK Mat33.eye Mat31.zeros 0 0 =
      some (mkPoint (F32.finite (-8589935 / 8589934592), F32.finite (-8589935 / 8589934592),
        F32.finite 1) (px 0 0)) := by
  have hd : depthValid scenarioDepth 0 0 := by
    rw [depthValid_iff_raw]
    decide
  refine pixelPoint_eval oob scenarioDepth ⟨2, 2, px⟩ scenarioK scenarioK Mat33.eye Mat31.zeros
    0 0 _ 0 0 scenario_point00 hd ?_ ?_ ?_
  · show ¬ F32.finite 1 ≤ F32.finite 0
    rw [F32.finite_le_iff]
    norm_num
  · rw [scenario_project00, clampIdx_eval oob _ _ 0 (castInt_roundf_zero oob)]
    norm_num
  · rw [scenario_project00, clampIdx_eval oob _ _ 0 (castInt_roundf_zero oob)]
    norm_num

/-- Pixel (0, 1) of the scenario: raw 0, rejected by the depth check. -/
theorem scenario_pixel01 (oob : F32 → ℤ) (C : ColorMat) :
    pixelPoint oob scenarioDepth C scenarioK scenarioK Mat33.eye Mat31.zeros 0 1 = none := by
  apply pixelPoint_of_not_depthValid
  rw [depthValid_iff_raw]
  decide

/-- Pixel (1, 0) of the scenario: raw 11000, rejected by the depth check. -/
theorem scenario_pixel10 (oob : F32 → ℤ) (C : ColorMat) :
    pixelPoint oob scenarioDepth C scenarioK scenarioK Mat33.eye Mat31.zeros 1 0 = none := by
  apply pixelPoint_of_not_depthValid
  rw [depthValid_iff_raw]
  decide

/-- Pixel (1, 1) of the scenario: its point, sampled at (1, 1). -/
theorem scenario_pixel11 (oob : F32 → ℤ) (px : ℕ → ℕ → Vec3b) :
    pixelPoint oob scenarioDepth ⟨2, 2, px⟩ scenarioK scenarioK Mat33.eye Mat31.zeros 1 1 =
      some (mkPoint (F32.finite (8589935 / 17179869184), F32.finite (8589935 / 17179869184),
        F32.finite (1 / 2)) (px 1 1)) := by
  have hd : depthValid scenarioDepth 1 1 := by
    rw [depthValid_iff_raw]
    decide
  refine pixelPoint_eval oob scenarioDepth ⟨2, 2, px⟩ scenarioK scenarioK Mat33.eye Mat31.zeros
    1 1 _ 1 1 scenario_point11 hd ?_ ?_ ?_
  · show ¬ F32.finite (1 / 2) ≤ F32.finite 0
    rw [F32.finite_le_iff]
    norm_num
  · rw [scenario_project11, clampIdx_eval oob _ _ 1 (castInt_roundf_one oob)]
    norm_num
  · rw [scenario_project11, clampIdx_eval oob _ _ 1 (castInt_roundf_one oob)]
    norm_num

/-- The output of the scenario, for any 2x2 colour image: the point of pixel
(0, 0) followed by the point of pixel (1, 1). -/
theorem scenario_output (oob : F32 → ℤ) (px : ℕ → ℕ → Vec3b) :
    depth2pcd oob scenarioDepth ⟨2, 2, px⟩ scenarioK scenarioK Mat33.eye Mat31.zeros =
      some [mkPoint (F32.finite (-8589935 / 8589934592), F32.finite (-8589935 / 8589934592),
          F32.finite 1) (px 0 0),
        mkPoint (F32.finite (8589935 / 17179869184), F32.finite (8589935 / 17179869184),
          F32.finite (1 / 2)) (px 1 1)] := by
  rw [depth2pcd_total oob scenarioDepth ⟨2, 2, px⟩ scenarioK scenarioK Mat33.eye Mat31.zeros
    (Nat.succ_pos 1) (Nat.succ_pos 1)]
  have e1 : scenarioDepth.rows = 2 := rfl
  have e2 : scenarioDepth.cols = 2 := rfl
  rw [e1, e2, rowMajor_two_two]
  rw [filterMap_pixels_cons_some _ 0 0 _ _ (scenario_pixel00 oob px),
    filterMap_pixels_cons_none _ 0 1 _ (scenario_pixel01 oob _),
    filterMap_pixels_cons_none _ 1 0 _ (scenario_pixel10 oob _),
    filterMap_pixels_cons_some _ 1 1 _ _ (scenario_pixel11 oob px), List.filterMap_nil]

/-! ## The one-row inputs -/

/-- The conversion of an integral value above `INT_MAX` is left to the target. -/
theorem castInt_above (oob : F32 → ℤ) (z : ℤ) (h : 2147483647 < z) :
    castInt oob (F32.finite (z : ℚ)) = oob (F32.finite (z : ℚ)) := by
  unfold castInt
  simp only [F32.truncate_intCast]
  rw [if_neg (by omega)]

/-- Pixel (0, 1) of the one-row depth image: raw 1000, one meter. -/
theorem overflow_depth01 : depthAt overflowDepth 0 1 = F32.finite 1 :=
  depthAt_of_raw overflowDepth 0 1 1000 1 rfl (by norm_num) (by norm_num)
    ⟨1, 0, by norm_num, by norm_num, by norm_num, by norm_num⟩ (by norm_num)

/-- Pixel (0, 1) of the one-row depth image has valid depth. -/
theorem overflow_depthValid01 : depthValid overflowDepth 0 1 := by
  rw [depthValid_iff_raw]
  decide

/-- The output for the one-row depth image: pixel (0, 0) is rejected by the
depth check, so the output is the point of pixel (0, 1). -/
theorem overflowDepth_output (oob : F32 → ℤ) (C : ColorMat) (Kd Kc : CameraIntrinsics)
    (R : Mat33) (T : Mat31) (pt : Point3DRGB) (hr : 0 < C.rows) (hc : 0 < C.cols)
    (h : pixelPoint oob overflowDepth C Kd Kc R T 0 1 = some pt) :
    depth2pcd oob overflowDepth C Kd Kc R T = some [pt] := by
  rw [depth2pcd_total oob overflowDepth C Kd Kc R T hr hc]
  have e1 : overflowDepth.rows = 1 := rfl
  have e2 : overflowDepth.cols = 2 := rfl
  have hrm : rowMajor 1 2 = [(0, 0), (0, 1)] := by decide
  have h0 : pixelPoint oob overflowDepth C Kd Kc R T 0 0 = none := by
    apply pixelPoint_of_not_depthValid
    rw [depthValid_iff_raw]
    decide
  rw [e1, e2, hrm, filterMap_pixels_cons_none _ 0 0 _ h0, filterMap_pixels_cons_some _ 0 1 _ _ h,
    List.filterMap_nil]

/-- The product `1 * 1`. -/
theorem one_mul_one : F32.finite 1 * F32.finite 1 = F32.finite 1 :=
  F32.finite_mul_exact _ _ _ (by norm_num)
    ⟨1, 0, by norm_num, by norm_num, by norm_num, by norm_num⟩ (by norm_num)

/-- The quotient `1 / 1`. -/
theorem one_div_one : F32.finite 1 / F32.finite 1 = F32.finite 1 :=
  F32.finite_div_exact _ _ _ (by norm_num) (by norm_num)
    ⟨1, 0, by norm_num, by norm_num, by norm_num, by norm_num⟩ (by norm_num)

/-- The difference `1 - 0`. -/
theorem one_sub_pzero : F32.finite 1 - F32.finite 0 = F32.finite 1 :=
  F32.finite_sub_exact _ _ _ (by norm_num)
    ⟨1, 0, by norm_num, by norm_num, by norm_num, by norm_num⟩ (by norm_num)

/-- The product `1 * +0`. -/
theorem one_mul_pzero : F32.finite 1 * F32.finite 0 = F32.finite 0 := by
  rw [F32.finite_mul, mul_zero, F32.round32_zero]
  simp [F32.zero]

/-- The representable value 1. -/
theorem isRepr_one : F32.IsRepr 1 := ⟨1, 0, by norm_num, by norm_num, by norm_num, by norm_num⟩

/-- Pixel (0, 1) of the one-row depth image under unit intrinsics: the
back-projected point `(1, 0, 1)`. -/
theorem overflow_backProject :
    backProject overflowDepth unitK 0 1 = (F32.finite 1, F32.finite 0, F32.finite 1) := by
  show ((F32.ofInt ((1 : ℕ) : ℤ) - F32.finite 0) * depthAt overflowDepth 0 1 / F32.finite 1,
    (F32.ofInt ((0 : ℕ) : ℤ) - F32.finite 0) * depthAt overflowDepth 0 1 / F32.finite 1,
    depthAt overflowDepth 0 1) = _
  rw [overflow_depth01, ofInt_nat_zero, ofInt_nat_one, one_sub_pzero, one_mul_one, one_div_one,
    pzero_sub_pzero, pzero_mul_finite 1 (by norm_num), pzero_div_finite 1 (by norm_num)]

/-- The near-plane input: the colour-frame point of pixel (0, 1). -/
theorem overflow_point :
    colorFramePoint overflowDepth unitK Mat33.eye nearPlaneT 0 1 =
      (F32.finite 1, F32.finite 0, F32.finite (1 / 1048576)) := by
  have b8 : F32.finite 1 + F32.finite (-1048575 / 1048576) = F32.finite (1 / 1048576) :=
    F32.finite_add_exact _ _ _ (by norm_num)
      ⟨1, -20, by norm_num, by norm_num, by norm_num, by norm_num⟩ (by norm_num)
  unfold colorFramePoint
  rw [overflow_backProject]
  show ((F32.finite 1 * F32.finite 1 + F32.finite 0 * F32.finite 0 + F32.finite 0 * F32.finite 1
      + F32.finite 0,
    F32.finite 0 * F32.finite 1 + F32.finite 1 * F32.finite 0 + F32.finite 0 * F32.finite 1
      + F32.finite 0,
    F32.finite 0 * F32.finite 1 + F32.finite 0 * F32.finite 0 + F32.finite 1 * F32.finite 1
      + F32.finite (-1048575 / 1048576)) : Vec3) = _
  simp only [one_mul_one, one_mul_pzero, pzero_mul_finite 0 le_rfl,
    pzero_mul_finite 1 zero_le_one, F32.finite_add_pzero 1 isRepr_one,
    F32.finite_add_pzero 0 F32.isRepr_zero, F32.pzero_add_finite 1 isRepr_one, b8]

/-- The near-plane input: pixel (0, 1) passes both validity predicates. -/
theorem overflow_passes : passes overflowDepth unitK Mat33.eye nearPlaneT 0 1 := by
  refine ⟨overflow_depthValid01, ?_⟩
  rw [overflow_point]
  show ¬ F32.finite (1 / 1048576) ≤ F32.finite 0
  rw [F32.finite_le_iff]
  norm_num

/-- The near-plane input: the projection of pixel (0, 1) is
`(u, v) = (2^32, 0)`. -/
theorem overflow_project :
    project overflowK (colorFramePoint overflowDepth unitK Mat33.eye nearPlaneT 0 1)
      = (F32.finite 4294967296, F32.finite 0) := by
  have c1 : F32.finite 1 * F32.finite 4096 = F32.finite 4096 :=
    F32.finite_mul_exact _ _ _ (by norm_num)
      ⟨1, 12, by norm_num, by norm_num, by norm_num, by norm_num⟩ (by norm_num)
  have c2 : F32.finite 4096 / F32.finite (1 / 1048576) = F32.finite 4294967296 :=
    F32.finite_div_exact _ _ _ (by norm_num) (by norm_num)
      ⟨1, 32, by norm_num, by norm_num, by norm_num, by norm_num⟩ (by norm_num)
  have c3 : F32.finite 4294967296 + F32.finite 0 = F32.finite 4294967296 :=
    F32.finite_add_pzero _ ⟨1, 32, by norm_num, by norm_num, by norm_num, by norm_num⟩
  rw [overflow_point]
  show (F32.finite 1 * F32.finite 4096 / F32.finite (1 / 1048576) + F32.finite 0,
    F32.finite 0 * F32.finite 4096 / F32.finite (1 / 1048576) + F32.finite 0) = _
  rw [c1, c2, c3, pzero_mul_finite 4096 (by norm_num), pzero_div_finite _ (by norm_num),
    F32.finite_add_pzero 0 F32.isRepr_zero]

/-- Rounding leaves `2^32` unchanged. -/
theorem roundf_two_pow_32 : roundf (F32.finite 4294967296) = F32.finite 4294967296 := by
  have h := roundf_finite_intCast 4294967296
  rw [show ((4294967296 : ℤ) : ℚ) = 4294967296 by norm_num] at h
  exact h

/-- The x86-64 conversion of `2^32` is `INT_MIN`. -/
theorem castInt_two_pow_32 : castInt oobX86 (F32.finite 4294967296) = -2147483648 := by
  have h := castInt_above oobX86 4294967296 (by norm_num)
  rw [show ((4294967296 : ℤ) : ℚ) = 4294967296 by norm_num] at h
  rw [h]
  rfl

/-- The near-plane input under the x86-64 conversion: the sampled (row, column)
of pixel (0, 1) is (0, 0). -/
theorem overflow_sampleIndex :
    sampleIndex oobX86 overflowDepth overflowColor unitK overflowK Mat33.eye nearPlaneT 0 1
      = (0, 0) := by
  unfold sampleIndex
  rw [overflow_project]
  show (clampIdx oobX86 1 (F32.finite 0), clampIdx oobX86 2 (F32.finite 4294967296)) = _
  rw [clampIdx_eval oobX86 _ _ 0 (castInt_roundf_zero oobX86),
    clampIdx_eval oobX86 _ _ (-2147483648) (by rw [roundf_two_pow_32, castInt_two_pow_32])]
  norm_num

/-- The near-plane input under the x86-64 conversion: the whole output. -/
theorem overflow_output :
    depth2pcd oobX86 overflowDepth overflowColor unitK overflowK Mat33.eye nearPlaneT
      = some [mkPoint (F32.finite 1, F32.finite 0, F32.finite (1 / 1048576))
          (overflowColor.px 0 0)] := by
  apply overflowDepth_output _ _ _ _ _ _ _ (by decide) (by decide)
  unfold pixelPoint
  rw [if_pos overflow_passes, overflow_sampleIndex, overflow_point]
  rfl

/-! ## An infinite back-projected coordinate -/

/-- The tiny-focal input: the back-projected `x` of pixel (0, 1) overflows to
`+inf`. -/
theorem tiny_backProject :
    backProject overflowDepth tinyFocalK 0 1 = (F32.inf false, F32.finite 0, F32.finite 1) := by
  have a3 : F32.finite 1 / F32.finite (1 / 713623846352979940529142984724747568191373312)
      = F32.inf false := by
    rw [F32.finite_div _ _ (by norm_num)]
    have e : (1 : ℚ) / (1 / 713623846352979940529142984724747568191373312)
        = 713623846352979940529142984724747568191373312 := by norm_num
    rw [e]
    exact round32_overflow _
  show ((F32.ofInt ((1 : ℕ) : ℤ) - F32.finite 0) * depthAt overflowDepth 0 1 /
      F32.finite (1 / 713623846352979940529142984724747568191373312),
    (F32.ofInt ((0 : ℕ) : ℤ) - F32.finite 0) * depthAt overflowDepth 0 1 / F32.finite 1,
    depthAt overflowDepth 0 1) = _
  rw [overflow_depth01, ofInt_nat_zero, ofInt_nat_one, one_sub_pzero, one_mul_one, a3,
    pzero_sub_pzero, pzero_mul_finite 1 (by norm_num), pzero_div_finite 1 (by norm_num)]

/-- The product `+0 * +inf` is NaN. -/
theorem pzero_mul_inf : F32.finite 0 * F32.inf false = F32.nan := by
  show F32.mul (F32.finite 0) (F32.inf false) = F32.nan
  simp [F32.mul, F32.isNaN, F32.isInf, F32.isZero]

/-- The product `1 * +inf` is `+inf`. -/
theorem one_mul_inf : F32.finite 1 * F32.inf false = F32.inf false :=
  F32.one_mul_eq (F32.inf false) (fun q h => absurd h (by simp))

/-- The tiny-focal input: the colour-frame point of pixel (0, 1) is
`(+inf, NaN, NaN)`. -/
theorem tiny_point :
    colorFramePoint overflowDepth tinyFocalK Mat33.eye Mat31.zeros 0 1 =
      (F32.inf false, F32.nan, F32.nan) := by
  unfold colorFramePoint
  rw [tiny_backProject]
  show ((F32.finite 1 * F32.inf false + F32.finite 0 * F32.finite 0 + F32.finite 0 * F32.finite 1
      + F32.finite 0,
    F32.finite 0 * F32.inf false + F32.finite 1 * F32.finite 0 + F32.finite 0 * F32.finite 1
      + F32.finite 0,
    F32.finite 0 * F32.inf false + F32.finite 0 * F32.finite 0 + F32.finite 1 * F32.finite 1
      + F32.finite 0) : Vec3) = _
  simp only [one_mul_inf, pzero_mul_inf, F32.nan_add, F32.inf_add_finite,
    pzero_mul_finite 0 le_rfl, pzero_mul_finite 1 zero_le_one]

/-- The tiny-focal input: pixel (0, 1) passes both checks of the source, its
`z_rgb` being NaN. -/
theorem tiny_passes : passes overflowDepth tinyFocalK Mat33.eye Mat31.zeros 0 1 := by
  refine ⟨overflow_depthValid01, ?_⟩
  rw [tiny_point]
  exact fun h => absurd h (by decide)

/-- The tiny-focal input: the projection of pixel (0, 1) is `(NaN, NaN)`. -/
theorem tiny_project :
    project unitK (colorFramePoint overflowDepth tinyFocalK Mat33.eye Mat31.zeros 0 1)
      = (F32.nan, F32.nan) := by
  rw [tiny_point]
  show (F32.inf false * F32.finite 1 / F32.nan + F32.finite 0,
    F32.nan * F32.finite 1 / F32.nan + F32.finite 0) = _
  simp only [F32.div_nan, F32.nan_add]

/-- The tiny-focal input under the x86-64 conversion: the sampled (row, column)
of pixel (0, 1) is (0, 0). -/
theorem tiny_sampleIndex :
    sampleIndex oobX86 overflowDepth overflowColor tinyFocalK unitK Mat33.eye Mat31.zeros 0 1
      = (0, 0) := by
  unfold sampleIndex
  rw [tiny_project]
  show (clampIdx oobX86 1 F32.nan, clampIdx oobX86 2 F32.nan) = _
  rw [clampIdx_eval oobX86 1 F32.nan (-2147483648) rfl,
    clampIdx_eval oobX86 2 F32.nan (-2147483648) rfl]
  norm_num

/-- The tiny-focal input under the x86-64 conversion: the whole output, one
point with coordinates `(+inf, NaN, NaN)`. -/
theorem tiny_output :
    depth2pcd oobX86 overflowDepth overflowColor tinyFocalK unitK Mat33.eye Mat31.zeros
      = some [mkPoint (F32.inf false, F32.nan, F32.nan) (overflowColor.px 0 0)] := by
  apply overflowDepth_output _ _ _ _ _ _ _ (by decide) (by decide)
  unfold pixelPoint
  rw [if_pos tiny_passes, tiny_sampleIndex, tiny_point]
  rfl

/-! ## A principal point at `2^25` -/

/-- The representable value `-2^25`. -/
theorem isRepr_neg_two_pow_25 : F32.IsRepr (-33554432) :=
  ⟨-1, 25, by norm_num, by norm_num, by norm_num, by norm_num⟩

/-- The far-principal input: the back-projected `x` of pixel (0, 1) is `-2^25`,
the difference `1 - 2^25` having been rounded. -/
theorem far_backProject :
    backProject overflowDepth farPrincipalK 0 1 =
      (F32.finite (-33554432), F32.finite 0, F32.finite 1) := by
  have a1 : F32.finite 1 - F32.finite 33554432 = F32.finite (-33554432) := by
    rw [F32.finite_sub]
    have e : (1 : ℚ) - 33554432 = -33554431 := by norm_num
    rw [e]
    exact round32_tie _
  have a2 : F32.finite (-33554432) * F32.finite 1 = F32.finite (-33554432) :=
    F32.finite_mul_exact _ _ _ (by norm_num) isRepr_neg_two_pow_25 (by norm_num)
  have a3 : F32.finite (-33554432) / F32.finite 1 = F32.finite (-33554432) :=
    F32.finite_div_exact _ _ _ (by norm_num) (by norm_num) isRepr_neg_two_pow_25 (by norm_num)
  show ((F32.ofInt ((1 : ℕ) : ℤ) - F32.finite 33554432) * depthAt overflowDepth 0 1 / F32.finite 1,
    (F32.ofInt ((0 : ℕ) : ℤ) - F32.finite 0) * depthAt overflowDepth 0 1 / F32.finite 1,
    depthAt overflowDepth 0 1) = _
  rw [overflow_depth01, ofInt_nat_zero, ofInt_nat_one, a1, a2, a3,
    pzero_sub_pzero, pzero_mul_finite 1 (by norm_num), pzero_div_finite 1 (by norm_num)]

/-- The far-principal input: the colour-frame point of pixel (0, 1). -/
theorem far_point :
    colorFramePoint overflowDepth farPrincipalK Mat33.eye Mat31.zeros 0 1 =
      (F32.finite (-33554432), F32.finite 0, F32.finite 1) := by
  unfold colorFramePoint
  rw [far_backProject]
  exact extrinsic_eye_zeros_finite _ _ _ isRepr_neg_two_pow_25 F32.isRepr_zero isRepr_one

/-- The far-principal input: pixel (0, 1) passes both validity predicates. -/
theorem far_passes : passes overflowDepth farPrincipalK Mat33.eye Mat31.zeros 0 1 :=
  (passes_eye_zeros overflowDepth farPrincipalK 0 1).mpr overflow_depthValid01

/-- The far-principal input: pixel (0, 1) projects to `(u, v) = (0, 0)`. -/
theorem far_project :
    project farPrincipalK (colorFramePoint overflowDepth farPrincipalK Mat33.eye Mat31.zeros 0 1)
      = (F32.finite 0, F32.finite 0) := by
  have c1 : F32.finite (-33554432) * F32.finite 1 = F32.finite (-33554432) :=
    F32.finite_mul_exact _ _ _ (by norm_num) isRepr_neg_two_pow_25 (by norm_num)
  have c2 : F32.finite (-33554432) / F32.finite 1 = F32.finite (-33554432) :=
    F32.finite_div_exact _ _ _ (by norm_num) (by norm_num) isRepr_neg_two_pow_25 (by norm_num)
  have c3 : F32.finite (-33554432) + F32.finite 33554432 = F32.finite 0 := by
    rw [F32.finite_add]
    norm_num [F32.round32_zero, F32.zero]
  rw [far_point]
  show (F32.finite (-33554432) * F32.finite 1 / F32.finite 1 + F32.finite 33554432,
    F32.finite 0 * F32.finite 1 / F32.finite 1 + F32.finite 0) = _
  rw [c1, c2, c3, pzero_mul_finite 1 (by norm_num), pzero_div_finite 1 (by norm_num),
    F32.finite_add_pzero 0 F32.isRepr_zero]

/-- The far-principal input: the sampled (row, column) of pixel (0, 1) is
(0, 0), whatever the conversion does out of range. -/
theorem far_sampleIndex (oob : F32 → ℤ) :
    sampleIndex oob overflowDepth overflowColor farPrincipalK farPrincipalK
      Mat33.eye Mat31.zeros 0 1 = (0, 0) := by
  unfold sampleIndex
  rw [far_project]
  show (clampIdx oob 1 (F32.finite 0), clampIdx oob 2 (F32.finite 0)) = _
  rw [clampIdx_eval oob 1 _ 0 (castInt_roundf_zero oob),
    clampIdx_eval oob 2 _ 0 (castInt_roundf_zero oob)]
  norm_num

/-- The far-principal input: the whole output, one point with the colour of
column 0. -/
theorem far_output (oob : F32 → ℤ) :
    depth2pcd oob overflowDepth overflowColor farPrincipalK farPrincipalK Mat33.eye Mat31.zeros
      = some [mkPoint (F32.finite (-33554432), F32.finite 0, F32.finite 1)
          (overflowColor.px 0 0)] := by
  apply overflowDepth_output _ _ _ _ _ _ _ (by decide) (by decide)
  unfold pixelPoint
  rw [if_pos far_passes, far_sampleIndex, far_point]
  rfl

/-! ## The one-pixel input -/

/-- The one-pixel image: raw 1000, one meter. -/
theorem onePixel_depth : depthAt onePixelDepth 0 0 = F32.finite 1 :=
  depthAt_of_raw onePixelDepth 0 0 1000 1 rfl (by norm_num) (by norm_num)
    isRepr_one (by norm_num)

/-- The one-pixel image has valid depth. -/
theorem onePixel_depthValid : depthValid onePixelDepth 0 0 := by
  rw [depthValid_iff_raw]
  decide

/-- The one-pixel image at one meter under the identity extrinsic: the pixel
passes both validity predicates. -/
theorem onePixel_passes : passes onePixelDepth unitK Mat33.eye Mat31.zeros 0 0 :=
  (passes_eye_zeros onePixelDepth unitK 0 0).mpr onePixel_depthValid

/-- The conversion of the one-pixel image against the empty colour image fails:
the colour read at (0, 0) is outside the image. -/
theorem onePixel_emptyColor_fails :
    depth2pcd oobX86 onePixelDepth emptyColor unitK unitK Mat33.eye Mat31.zeros = none := by
  have h := loopBody_of_passes oobX86 onePixelDepth emptyColor unitK unitK Mat33.eye Mat31.zeros
    0 0 [] onePixel_passes
  have hread : ∀ row col : ℤ, emptyColor.atVec3b row col = none := by
    intro row col
    unfold ColorMat.atVec3b
    rw [if_neg]
    rintro ⟨h0, h1, _⟩
    have : (emptyColor.rows : ℤ) = 0 := rfl
    omega
  rw [hread] at h
  unfold depth2pcd rowLoop
  have e1 : onePixelDepth.rows = 1 := rfl
  have e2 : onePixelDepth.cols = 1 := rfl
  rw [e1, e2]
  simp only [List.range_succ, List.range_zero, List.nil_append, List.foldlM_cons, List.foldlM_nil]
  rw [h]
  rfl

/-- The one-pixel image under unit intrinsics: the back-projected point
`(0, 0, 1)`. -/
theorem onePixel_backProject :
    backProject onePixelDepth unitK 0 0 = (F32.finite 0, F32.finite 0, F32.finite 1) := by
  show ((F32.ofInt ((0 : ℕ) : ℤ) - F32.finite 0) * depthAt onePixelDepth 0 0 / F32.finite 1,
    (F32.ofInt ((0 : ℕ) : ℤ) - F32.finite 0) * depthAt onePixelDepth 0 0 / F32.finite 1,
    depthAt onePixelDepth 0 0) = _
  rw [onePixel_depth, ofInt_nat_zero, pzero_sub_pzero, pzero_mul_finite 1 (by norm_num),
    pzero_div_finite 1 (by norm_num)]

/-- The one-pixel image moved by one meter towards the camera: the colour-frame
`z` is 0. -/
theorem onePixel_towards_z :
    (colorFramePoint onePixelDepth unitK Mat33.eye towardsCameraT 0 0).2.2 = F32.finite 0 := by
  have b8 : F32.finite 1 + F32.finite (-1) = F32.finite 0 := by
    rw [F32.finite_add]
    norm_num [F32.round32_zero, F32.zero]
  unfold colorFramePoint
  rw [onePixel_backProject]
  show F32.finite 0 * F32.finite 0 + F32.finite 0 * F32.finite 0 + F32.finite 1 * F32.finite 1
      + F32.finite (-1) = _
  simp only [one_mul_one, pzero_mul_finite 0 le_rfl, F32.finite_add_pzero 0 F32.isRepr_zero,
    F32.pzero_add_finite 1 isRepr_one, b8]

/-! ## Rounding error of the operations -/

namespace F32

/-- The rounded magnitude of a positive value up to `2^127` is within the
rounding error and below `2^128`. -/
theorem roundMag_near (a : ℚ) (ha : 0 < a) (hq : a ≤ 2 ^ 127) :
    |roundMag a - a| ≤ a / 16777216 + 1 / 2 ^ 150 ∧ roundMag a < 2 ^ (128 : ℤ) := by
  obtain ⟨hlt, he, hge⟩ := expOf_spec a ha
  have herr := roundMag_error a
  have hu : (2 : ℚ) ^ (expOf a - 23) / 2 ≤ a / 16777216 + 1 / 2 ^ 150 := by
    rcases hge with h | h
    · rw [h]
      have e1 : ((-126 : ℤ) - 23) = -149 := by norm_num
      have e : (2 : ℚ) ^ (-149 : ℤ) / 2 = 1 / 2 ^ 150 := by norm_num
      rw [e1, e]
      have : 0 ≤ a / 16777216 := by positivity
      linarith
    · have e : (2 : ℚ) ^ (expOf a - 23) = 2 ^ expOf a / 8388608 := by
        rw [zpow_sub₀ (by norm_num : (2 : ℚ) ≠ 0)]
        norm_num
      have hη : (0 : ℚ) ≤ 1 / 2 ^ 150 := by positivity
      rw [e]
      linarith
  have hb : |roundMag a - a| ≤ a / 16777216 + 1 / 2 ^ 150 := le_trans herr hu
  refine ⟨hb, ?_⟩
  have h1 := (abs_le.mp hb).2
  have h2 : (2 : ℚ) ^ (128 : ℤ) = 2 * 2 ^ 127 := by norm_num
  have h3 : (1 : ℚ) / 2 ^ 150 ≤ 1 := by norm_num
  have h4 : (2 : ℚ) ^ 127 ≥ 2 := by norm_num
  rw [h2]
  linarith

/-- Rounding a value of magnitude at most `2^127` gives a finite value within
the rounding error. -/
theorem round32_near (q : ℚ) (s : Bool) (hq : |q| ≤ 2 ^ 127) : (round32 q s).Near q := by
  unfold Near
  by_cases h0 : q = 0
  · subst h0
    rw [round32_zero]
    cases s
    · refine ⟨rfl, ?_⟩
      show |(0 : ℚ) - 0| ≤ _
      simp
    · refine ⟨rfl, ?_⟩
      show |(0 : ℚ) - 0| ≤ _
      simp
  · have ha : 0 < abs q := abs_pos.mpr h0
    obtain ⟨hb, hlt128⟩ := roundMag_near (abs q) ha hq
    unfold round32
    rw [if_neg h0, if_neg (not_le.mpr hlt128)]
    by_cases hz : roundMag (abs q) = 0
    · rw [if_pos hz]
      have e1 : (zero (decide (q < 0))).isFinite = true := by
        unfold zero
        split_ifs <;> rfl
      have e2 : (zero (decide (q < 0))).toRat = 0 := by
        unfold zero
        split_ifs <;> rfl
      refine ⟨e1, ?_⟩
      rw [e2, zero_sub, abs_neg]
      rw [hz, zero_sub, abs_neg, abs_abs] at hb
      exact hb
    · rw [if_neg hz]
      refine ⟨rfl, ?_⟩
      show abs ((if q < 0 then -roundMag (abs q) else roundMag (abs q)) - q) ≤ _
      by_cases hn : q < 0
      · rw [if_pos hn]
        have e : -roundMag (abs q) - q = -(roundMag (abs q) - abs q) := by
          rw [abs_of_neg hn]
          ring
        rw [e, abs_neg]
        exact hb
      · rw [if_neg hn]
        have e : roundMag (abs q) - q = roundMag (abs q) - abs q := by
          rw [abs_of_nonneg (not_lt.mp hn)]
        rw [e]
        exact hb

/-- A sum of finite values is the rounding of the exact sum. -/
theorem add_eq_round32 (a b : F32) (ha : a.isFinite = true) (hb : b.isFinite = true) :
    ∃ s, a + b = round32 (a.toRat + b.toRat) s := by
  refine ⟨a.isNeg && b.isNeg, ?_⟩
  show add a b = _
  cases a <;> cases b <;> simp_all [add, isFinite, isNaN, isInf]

/-- A product of finite values is the rounding of the exact product. -/
theorem mul_eq_round32 (a b : F32) (ha : a.isFinite = true) (hb : b.isFinite = true) :
    ∃ s, a * b = round32 (a.toRat * b.toRat) s := by
  refine ⟨xor a.isNeg b.isNeg, ?_⟩
  show mul a b = _
  cases a <;> cases b <;> simp_all [mul, isFinite, isNaN, isInf]

/-- A quotient of finite values with a nonzero divisor is the rounding of the
exact quotient. -/
theorem div_eq_round32 (a b : F32) (ha : a.isFinite = true) (hb : b.isFinite = true)
    (hb0 : b.toRat ≠ 0) : ∃ s, a / b = round32 (a.toRat / b.toRat) s := by
  refine ⟨xor a.isNeg b.isNeg, ?_⟩
  show div a b = _
  cases a <;> cases b <;> simp_all [div, isFinite, isNaN, isInf, isZero, toRat]

/-- A difference of finite values is the rounding of the exact difference. -/
theorem sub_eq_round32 (a b : F32) (ha : a.isFinite = true) (hb : b.isFinite = true) :
    ∃ s, a - b = round32 (a.toRat - b.toRat) s := by
  have hn : (neg b).isFinite = true ∧ (neg b).toRat = -b.toRat := by
    cases b with
    | finite q =>
      by_cases h : q = 0
      · subst h
        simp [neg, isFinite, toRat]
      · simp [neg, isFinite, toRat, h]
    | negZero => simp [neg, isFinite, toRat]
    | inf s => exact absurd hb (by simp [isFinite])
    | nan => exact absurd hb (by simp [isFinite])
  obtain ⟨s, hs⟩ := add_eq_round32 a (neg b) ha hn.1
  refine ⟨s, ?_⟩
  show add a (neg b) = _
  rw [sub_eq_add_neg, ← hn.2]
  exact hs

theorem add_near (a b : F32) (ha : a.isFinite = true) (hb : b.isFinite = true)
    (h : |a.toRat + b.toRat| ≤ 2 ^ 127) : (a + b).Near (a.toRat + b.toRat) := by
  obtain ⟨s, hs⟩ := add_eq_round32 a b ha hb
  rw [hs]
  exact round32_near _ s h

theorem sub_near (a b : F32) (ha : a.isFinite = true) (hb : b.isFinite = true)
    (h : |a.toRat - b.toRat| ≤ 2 ^ 127) : (a - b).Near (a.toRat - b.toRat) := by
  obtain ⟨s, hs⟩ := sub_eq_round32 a b ha hb
  rw [hs]
  exact round32_near _ s h

theorem mul_near (a b : F32) (ha : a.isFinite = true) (hb : b.isFinite = true)
    (h : |a.toRat * b.toRat| ≤ 2 ^ 127) : (a * b).Near (a.toRat * b.toRat) := by
  obtain ⟨s, hs⟩ := mul_eq_round32 a b ha hb
  rw [hs]
  exact round32_near _ s h

theorem div_near (a b : F32) (ha : a.isFinite = true) (hb : b.isFinite = true)
    (hb0 : b.toRat ≠ 0) (h : |a.toRat / b.toRat| ≤ 2 ^ 127) :
    (a / b).Near (a.toRat / b.toRat) := by
  obtain ⟨s, hs⟩ := div_eq_round32 a b ha hb hb0
  rw [hs]
  exact round32_near _ s h

end F32

/-! ## Error of back-projection followed by projection -/

/-- Dividing by a value of at least `2^-10` multiplies by at most `2^10`. -/
theorem div_small (t r : ℚ) (ht : 0 ≤ t) (hr : 1 / 1024 ≤ r) : t / r ≤ t * 1024 := by
  have hr0 : 0 < r := by linarith
  rw [div_le_iff₀ hr0]
  nlinarith [mul_nonneg ht (by linarith : (0 : ℚ) ≤ 1024 * r - 1)]

/-- An error bound on a quotient by `f`, multiplied by `f` and divided by a
positive value. -/
theorem scale_mul_div (x P f r : ℚ) (hf : f ≠ 0) (hr : 0 < r)
    (h : |x - P / f| ≤ |P / f| / 16777216 + 1 / 2 ^ 150) :
    |x * f / r - P / r| ≤ |P / r| / 16777216 + |f| * (1 / 2 ^ 150) / r := by
  have hfa : 0 < |f| := abs_pos.mpr hf
  have e : x * f / r - P / r = (x - P / f) * f / r := by
    field_simp
  rw [e, abs_div, abs_mul, abs_div, abs_of_pos hr, div_le_iff₀ hr]
  have e2 : (|P| / r / 16777216 + |f| * (1 / 2 ^ 150) / r) * r
      = (|P / f| / 16777216 + 1 / 2 ^ 150) * |f| := by
    rw [abs_div]
    field_simp
    ring
  rw [e2]
  exact mul_le_mul_of_nonneg_right h hfa.le

/-- The chain of six rounded operations `a = n - c`, `P = a * r`, `x = P / f`,
`Q = x * f`, `W = Q / r`, `u = W + c`, with rounding error unit `e` and overflow
threshold `B`. -/
theorem round_trip_chain (n c f r a e B : ℚ)
    (hn0 : 0 ≤ n) (hn : n ≤ 65536) (hc : |c| ≤ 65536) (hfa : 0 < |f|)
    (hfB : 1310740 ≤ B * |f|) (hB : 1310750 ≤ B)
    (hr0 : 0 < r) (hr2 : r ≤ 10) (he : e ≤ 1 / 1000000)
    (her : e / r ≤ 1 / 1000000) (hef : |f| * e / r ≤ 1 / 1000000)
    (ha : |a - (n - c)| ≤ |n - c| / 16777216 + e) :
    |n - c| ≤ B ∧ |a * r| ≤ B ∧
    ∀ P : ℚ, |P - a * r| ≤ |a * r| / 16777216 + e →
      |P / f| ≤ B ∧
      ∀ x : ℚ, |x * f / r - P / r| ≤ |P / r| / 16777216 + |f| * e / r →
        |x * f| ≤ B ∧
        ∀ Q : ℚ, |Q - x * f| ≤ |x * f| / 16777216 + e →
          |Q / r| ≤ B ∧
          ∀ W : ℚ, |W - Q / r| ≤ |Q / r| / 16777216 + e →
            |W + c| ≤ B ∧
            ∀ u : ℚ, |u - (W + c)| ≤ |W + c| / 16777216 + e →
              |u - n| ≤ 1 / 16 := by
  have hf0 : f ≠ 0 := abs_pos.mp hfa
  have hnc : |n - c| ≤ 131072 := by
    have := abs_sub n c
    rw [abs_of_nonneg hn0] at this
    linarith
  have ha1 : |a| ≤ 131073 := by
    have := abs_sub_abs_le_abs_sub a (n - c)
    linarith
  have har : |a * r| ≤ 1310730 := by
    rw [abs_mul, abs_of_pos hr0]
    nlinarith [abs_nonneg a]
  refine ⟨by linarith, by linarith, ?_⟩
  intro P hP
  have hp : |P / r - a| ≤ |a| / 16777216 + e / r := by
    have e0 : P / r - a = (P - a * r) / r := by
      field_simp
      ring
    rw [e0, abs_div, abs_of_pos hr0, div_le_iff₀ hr0]
    have e2 : (|a| / 16777216 + e / r) * r = |a| * r / 16777216 + e := by
      field_simp
      ring
    rw [e2]
    rw [abs_mul, abs_of_pos hr0] at hP
    exact hP
  have hp1 : |P / r| ≤ 131074 := by
    have := abs_sub_abs_le_abs_sub (P / r) a
    linarith
  have hPabs : |P| ≤ 1310740 := by
    have e0 : P = P / r * r := by field_simp
    rw [e0, abs_mul, abs_of_pos hr0]
    nlinarith [abs_nonneg (P / r)]
  have hPf : |P / f| ≤ B := by
    rw [abs_div, div_le_iff₀ hfa]
    linarith
  refine ⟨hPf, ?_⟩
  intro x hm
  have hm1 : |x * f / r| ≤ 131075 := by
    have := abs_sub_abs_le_abs_sub (x * f / r) (P / r)
    linarith
  have hxf : |x * f| ≤ 1310750 := by
    have e0 : x * f = x * f / r * r := by field_simp
    rw [e0, abs_mul, abs_of_pos hr0]
    nlinarith [abs_nonneg (x * f / r)]
  refine ⟨by linarith, ?_⟩
  intro Q hQ
  have hq : |Q / r - x * f / r| ≤ |x * f / r| / 16777216 + e / r := by
    have e0 : Q / r - x * f / r = (Q - x * f) / r := by ring
    rw [e0, abs_div, abs_div, abs_of_pos hr0, div_le_iff₀ hr0]
    have e2 : (|x * f| / r / 16777216 + e / r) * r = |x * f| / 16777216 + e := by
      field_simp
      ring
    rw [e2]
    exact hQ
  have hq1 : |Q / r| ≤ 131076 := by
    have := abs_sub_abs_le_abs_sub (Q / r) (x * f / r)
    linarith
  refine ⟨by linarith, ?_⟩
  intro W hW
  have hWa : |W - a| ≤ 1 / 30 := by
    have t1 := abs_sub_le W (Q / r) a
    have t2 := abs_sub_le (Q / r) (x * f / r) a
    have t3 := abs_sub_le (x * f / r) (P / r) a
    linarith
  have hWn : |W + c - n| ≤ 1 / 24 := by
    have e0 : W + c - n = (W - a) + (a - (n - c)) := by ring
    rw [e0]
    have := abs_add (W - a) (a - (n - c))
    linarith
  have hWc : |W + c| ≤ 65537 := by
    have := abs_sub_abs_le_abs_sub (W + c) n
    rw [abs_of_nonneg hn0] at this
    linarith
  refine ⟨by linarith, ?_⟩
  intro u hu
  have := abs_sub_le u (W + c) n
  linarith

/-- One coordinate of back-projection followed by projection, for a pixel index
`n < 2^16`, a principal point coordinate `c` with `|c| <= 2^16`, a focal length
`f` with `2^-40 <= |f| <= 2^40` and a depth `d` with `2^-10 <= d <= 10`: the
back-projected coordinate `(n - c) * d / f` is finite, and for any finite value
`x` standing for the same number, `x * f / d + c` is finite and within `1/16`
of `n`. -/
theorem coord_round_trip (n : ℕ) (c f d : F32) (r : ℚ)
    (hn : n < 65536) (hc : c.isFinite = true) (hf : f.isFinite = true)
    (hc2 : |c.toRat| ≤ 65536) (hf1 : 1 / 2 ^ 40 ≤ |f.toRat|) (hf2 : |f.toRat| ≤ 2 ^ 40)
    (hd : d = F32.finite r) (hr1 : 1 / 1024 ≤ r) (hr2 : r ≤ 10) :
    ((F32.ofInt n - c) * d / f).isFinite = true ∧
    ∀ x : F32, x.isFinite = true → x.toRat = ((F32.ofInt n - c) * d / f).toRat →
      (x * f / d + c).isFinite = true ∧ |(x * f / d + c).toRat - n| ≤ 1 / 16 := by
  subst hd
  have hr0 : 0 < r := by linarith
  have hfa : 0 < |f.toRat| := lt_of_lt_of_le (by positivity) hf1
  have hf0 : f.toRat ≠ 0 := abs_pos.mp hfa
  have hn0 : (0 : ℚ) ≤ (n : ℚ) := by positivity
  have hnq : (n : ℚ) ≤ 65536 := by exact_mod_cast hn.le
  have hη0 : (0 : ℚ) ≤ 1 / 2 ^ 150 := by positivity
  have hη : (1 : ℚ) / 2 ^ 150 ≤ 1 / 1000000 := by norm_num
  have hηr : (1 : ℚ) / 2 ^ 150 / r ≤ 1 / 1000000 := by
    have := div_small (1 / 2 ^ 150) r hη0 hr1
    have h2 : (1 : ℚ) / 2 ^ 150 * 1024 ≤ 1 / 1000000 := by norm_num
    linarith
  have hηf : |f.toRat| * (1 / 2 ^ 150) / r ≤ 1 / 1000000 := by
    have h1 : |f.toRat| * (1 / 2 ^ 150) ≤ 2 ^ 40 * (1 / 2 ^ 150) :=
      mul_le_mul_of_nonneg_right hf2 hη0
    have h0 : 0 ≤ |f.toRat| * (1 / 2 ^ 150) := mul_nonneg hfa.le hη0
    have := div_small (|f.toRat| * (1 / 2 ^ 150)) r h0 hr1
    have h2 : (2 : ℚ) ^ 40 * (1 / 2 ^ 150) * 1024 ≤ 1 / 1000000 := by norm_num
    linarith
  have hB : (1310750 : ℚ) ≤ 2 ^ 127 := by norm_num
  have hfB : (1310740 : ℚ) ≤ 2 ^ 127 * |f.toRat| := by
    have h1 : (2 : ℚ) ^ 127 * (1 / 2 ^ 40) ≤ 2 ^ 127 * |f.toRat| :=
      mul_le_mul_of_nonneg_left hf1 (by positivity)
    have h2 : (1310740 : ℚ) ≤ 2 ^ 127 * (1 / 2 ^ 40) := by norm_num
    linarith
  have h0 : |(n : ℚ) - c.toRat| ≤ 2 ^ 127 := by
    have := abs_sub (n : ℚ) c.toRat
    rw [abs_of_nonneg hn0] at this
    linarith
  rw [F32.ofInt_natCast n (by omega)]
  have na : (F32.finite (n : ℚ) - c).Near ((n : ℚ) - c.toRat) :=
    F32.sub_near (F32.finite (n : ℚ)) c rfl hc h0
  obtain ⟨_, hB1, chain1⟩ := round_trip_chain (n : ℚ) c.toRat f.toRat r
    (F32.finite (n : ℚ) - c).toRat (1 / 2 ^ 150) (2 ^ 127) hn0 hnq hc2 hfa hfB hB hr0 hr2 hη
    hηr hηf na.2
  have nP : ((F32.finite (n : ℚ) - c) * F32.finite r).Near
      ((F32.finite (n : ℚ) - c).toRat * r) :=
    F32.mul_near (F32.finite (n : ℚ) - c) (F32.finite r) na.1 rfl hB1
  obtain ⟨hB2, chain2⟩ := chain1 _ nP.2
  have nx : ((F32.finite (n : ℚ) - c) * F32.finite r / f).Near
      (((F32.finite (n : ℚ) - c) * F32.finite r).toRat / f.toRat) :=
    F32.div_near _ f nP.1 hf hf0 hB2
  refine ⟨nx.1, ?_⟩
  intro x hxf hxeq
  obtain ⟨hB3, chain3⟩ := chain2 _ (scale_mul_div _ _ f.toRat r hf0 hr0 nx.2)
  rw [← hxeq] at hB3 chain3
  have nQ : (x * f).Near (x.toRat * f.toRat) := F32.mul_near x f hxf hf hB3
  obtain ⟨hB4, chain4⟩ := chain3 _ nQ.2
  have nW : (x * f / F32.finite r).Near ((x * f).toRat / r) :=
    F32.div_near (x * f) (F32.finite r) nQ.1 rfl hr0.ne' hB4
  obtain ⟨hB5, chain5⟩ := chain4 _ nW.2
  have nu : (x * f / F32.finite r + c).Near ((x * f / F32.finite r).toRat + c.toRat) :=
    F32.add_near _ c nW.1 hc hB5
  exact ⟨nu.1, chain5 _ nu.2⟩

/-- Rounding and conversion of a finite value within `1/16` of the natural
number `n`. -/
theorem castInt_roundf_near (oob : F32 → ℤ) (u : F32) (n : ℕ) (hu : u.isFinite = true)
    (h : |u.toRat - n| ≤ 1 / 16) (hn : (n : ℤ) ≤ 2147483647) :
    castInt oob (roundf u) = n := by
  cases u with
  | finite q =>
    have h2 := abs_le.mp h
    have hq1 : (n : ℚ) - 1 / 16 ≤ q := by
      have := h2.1
      show (n : ℚ) - 1 / 16 ≤ (F32.finite q).toRat
      linarith
    have hq2 : q ≤ (n : ℚ) + 1 / 16 := by
      have := h2.2
      show (F32.finite q).toRat ≤ (n : ℚ) + 1 / 16
      linarith
    have hr : F32.roundHalfAway q = (n : ℤ) := by
      unfold F32.roundHalfAway
      by_cases h0 : 0 ≤ q
      · rw [if_pos h0, Int.floor_eq_iff]
        constructor
        · push_cast; linarith
        · push_cast; linarith
      · rw [if_neg h0, Int.ceil_eq_iff]
        have hn0 : n = 0 := by
          by_contra hne
          have : (1 : ℚ) ≤ (n : ℚ) := by exact_mod_cast Nat.one_le_iff_ne_zero.mpr hne
          linarith [not_le.mp h0]
        subst hn0
        constructor
        · push_cast; push_cast at hq1; linarith
        · push_cast; linarith [not_le.mp h0]
    rw [castInt_roundf_finite oob q (by rw [hr]; omega) (by rw [hr]; exact hn), hr]
  | negZero =>
    have h2 := abs_le.mp h
    have hn0 : n = 0 := by
      by_contra hne
      have h1 : (1 : ℚ) ≤ (n : ℚ) := by exact_mod_cast Nat.one_le_iff_ne_zero.mpr hne
      have h3 : (0 : ℚ) - (n : ℚ) ≥ -(1 / 16) := h2.1
      linarith
    subst hn0
    rfl
  | inf s => exact absurd hu (by simp [F32.isFinite])
  | nan => exact absurd hu (by simp [F32.isFinite])

/-! ## Registered cameras -/

/-- Under the identity extrinsic, when the back-projected `x` and `y` are
finite, the colour-frame coordinates are finite, stand for the same numbers as
the back-projected ones, and the colour-frame `z` is the scaled depth. -/
theorem colorFramePoint_eye_zeros_finite (D : DepthMat) (K : CameraIntrinsics) (i j : ℕ)
    (hx : (backProject D K i j).1.isFinite = true)
    (hy : (backProject D K i j).2.1.isFinite = true) :
    ((colorFramePoint D K Mat33.eye Mat31.zeros i j).1.isFinite = true ∧
      (colorFramePoint D K Mat33.eye Mat31.zeros i j).1.toRat = (backProject D K i j).1.toRat) ∧
    ((colorFramePoint D K Mat33.eye Mat31.zeros i j).2.1.isFinite = true ∧
      (colorFramePoint D K Mat33.eye Mat31.zeros i j).2.1.toRat
        = (backProject D K i j).2.1.toRat) ∧
    (colorFramePoint D K Mat33.eye Mat31.zeros i j).2.2 = depthAt D i j := by
  obtain ⟨r, hr, _⟩ := depthAt_cases D i j
  have hz : (backProject D K i j).2.2.isFinite = true := by
    show (depthAt D i j).isFinite = true
    rw [hr]
    rfl
  have nx := F32.zero_mul_ne_nan _ hx
  have ny := F32.zero_mul_ne_nan _ hy
  have nz := F32.zero_mul_ne_nan _ hz
  refine ⟨?_, ?_, ?_⟩
  · rcases colorFramePoint_eye_zeros_x D K i j with h | h | h
    · rcases h.2 with h2 | h2
      · exact absurd h2 ny
      · exact absurd h2 nz
    · rw [h]
      exact ⟨hx, rfl⟩
    · rw [h.1, h.2]
      exact ⟨rfl, rfl⟩
  · rcases colorFramePoint_eye_zeros_y D K i j with h | h | h
    · rcases h.2 with h2 | h2
      · exact absurd h2 nx
      · exact absurd h2 nz
    · rw [h]
      exact ⟨hy, rfl⟩
    · rw [h.1, h.2]
      exact ⟨rfl, rfl⟩
  · rcases colorFramePoint_eye_zeros_z D K i j with h | h
    · rcases h.2 with h2 | h2
      · exact absurd h2 nx
      · exact absurd h2 ny
    · exact h

/-- With identity rotation, zero translation, the same intrinsics `K` of
moderate range on both sides and pixel indices below `2^16`, the projection of
the back-projected point of a pixel `(i, j)` with valid depth is finite and
within `1/16` of `(j, i)`. -/
theorem project_near (D : DepthMat) (K : CameraIntrinsics) (i j : ℕ) (hK : moderate K)
    (hd : depthValid D i j) (hi : i < 65536) (hj : j < 65536) :
    ((project K (colorFramePoint D K Mat33.eye Mat31.zeros i j)).1.isFinite = true ∧
      |(project K (colorFramePoint D K Mat33.eye Mat31.zeros i j)).1.toRat - j| ≤ 1 / 16) ∧
    ((project K (colorFramePoint D K Mat33.eye Mat31.zeros i j)).2.isFinite = true ∧
      |(project K (colorFramePoint D K Mat33.eye Mat31.zeros i j)).2.toRat - i| ≤ 1 / 16) := by
  obtain ⟨hfx, hfy, hcx, hcy, hfx1, hfx2, hfy1, hfy2, hcx2, hcy2⟩ := hK
  obtain ⟨r, hr, _, _, h1, h2, _⟩ := depthAt_cases D i j
  have hraw := (depthValid_iff_raw D i j).mp hd
  have hr1 := h1 hraw.1
  have hr2 := h2 hraw.2
  obtain ⟨xfin, xrt⟩ := coord_round_trip j K.cx K.fx (depthAt D i j) r hj hcx hfx hcx2 hfx1 hfx2
    hr hr1 hr2
  obtain ⟨yfin, yrt⟩ := coord_round_trip i K.cy K.fy (depthAt D i j) r hi hcy hfy hcy2 hfy1 hfy2
    hr hr1 hr2
  obtain ⟨hx, hy, hz⟩ := colorFramePoint_eye_zeros_finite D K i j xfin yfin
  constructor
  · show ((colorFramePoint D K Mat33.eye Mat31.zeros i j).1 * K.fx /
        (colorFramePoint D K Mat33.eye Mat31.zeros i j).2.2 + K.cx).isFinite = true ∧
      |((colorFramePoint D K Mat33.eye Mat31.zeros i j).1 * K.fx /
        (colorFramePoint D K Mat33.eye Mat31.zeros i j).2.2 + K.cx).toRat - j| ≤ 1 / 16
    rw [hz]
    exact xrt _ hx.1 hx.2
  · show ((colorFramePoint D K Mat33.eye Mat31.zeros i j).2.1 * K.fy /
        (colorFramePoint D K Mat33.eye Mat31.zeros i j).2.2 + K.cy).isFinite = true ∧
      |((colorFramePoint D K Mat33.eye Mat31.zeros i j).2.1 * K.fy /
        (colorFramePoint D K Mat33.eye Mat31.zeros i j).2.2 + K.cy).toRat - i| ≤ 1 / 16
    rw [hz]
    exact yrt _ hy.1 hy.2

/-- A product with a NaN factor on the left is not finite. -/
theorem not_isFinite_of_nan_mul (a b : F32) (h : (a * b).isFinite = true) : a ≠ F32.nan := by
  intro ha
  rw [ha, F32.nan_mul] at h
  exact absurd h (by simp [F32.isFinite])

/-- A quotient with a NaN divisor is not finite. -/
theorem not_isFinite_of_div_nan (a b : F32) (h : (a / b).isFinite = true) : b ≠ F32.nan := by
  intro hb
  rw [hb, F32.div_nan] at h
  exact absurd h (by simp [F32.isFinite])

/-- The exact round trip of one column: when no operation of lines 57 and 72
rounds, `u` stands for `j`. -/
theorem exactColumn_project (D : DepthMat) (K : CameraIntrinsics) (i j : ℕ)
    (hd : depthValid D i j) (hfx : K.fx.toRat ≠ 0) (h : exactColumn D K i j) :
    (project K (colorFramePoint D K Mat33.eye Mat31.zeros i j)).1.Exactly j := by
  obtain ⟨_, _, h3, h4, h5, h6, h7⟩ := h
  obtain ⟨r, hr, _, _, h1, _⟩ := depthAt_cases D i j
  have hraw := (depthValid_iff_raw D i j).mp hd
  have hr0 : 0 < r := lt_of_lt_of_le (by norm_num) (h1 hraw.1)
  have hxne := not_isFinite_of_nan_mul _ _ h5.1
  have hzne := not_isFinite_of_div_nan _ _ h6.1
  have hx : (colorFramePoint D K Mat33.eye Mat31.zeros i j).1.toRat
      = (backProject D K i j).1.toRat := by
    rcases colorFramePoint_eye_zeros_x D K i j with e | e | e
    · exact absurd e.1 hxne
    · rw [e]
    · rw [e.1, e.2]
      rfl
  have hz : (colorFramePoint D K Mat33.eye Mat31.zeros i j).2.2 = depthAt D i j := by
    rcases colorFramePoint_eye_zeros_z D K i j with e | e
    · exact absurd e.1 hzne
    · exact e
  have hx4 : (backProject D K i j).1.toRat
      = ((j : ℚ) - K.cx.toRat) * (depthAt D i j).toRat / K.fx.toRat := h4.2
  refine ⟨h7.1, ?_⟩
  have e7 : (project K (colorFramePoint D K Mat33.eye Mat31.zeros i j)).1.toRat
      = (colorFramePoint D K Mat33.eye Mat31.zeros i j).1.toRat * K.fx.toRat /
        (colorFramePoint D K Mat33.eye Mat31.zeros i j).2.2.toRat + K.cx.toRat := h7.2
  rw [e7, hx, hx4, hz, hr]
  show ((j : ℚ) - K.cx.toRat) * r / K.fx.toRat * K.fx.toRat / r + K.cx.toRat = (j : ℚ)
  field_simp

/-- The exact round trip of one row: when no operation of lines 58 and 73
rounds, `v` stands for `i`. -/
theorem exactRow_project (D : DepthMat) (K : CameraIntrinsics) (i j : ℕ)
    (hd : depthValid D i j) (hfy : K.fy.toRat ≠ 0) (h : exactRow D K i j) :
    (project K (colorFramePoint D K Mat33.eye Mat31.zeros i j)).2.Exactly i := by
  obtain ⟨_, _, h3, h4, h5, h6, h7⟩ := h
  obtain ⟨r, hr, _, _, h1, _⟩ := depthAt_cases D i j
  have hraw := (depthValid_iff_raw D i j).mp hd
  have hr0 : 0 < r := lt_of_lt_of_le (by norm_num) (h1 hraw.1)
  have hyne := not_isFinite_of_nan_mul _ _ h5.1
  have hzne := not_isFinite_of_div_nan _ _ h6.1
  have hy : (colorFramePoint D K Mat33.eye Mat31.zeros i j).2.1.toRat
      = (backProject D K i j).2.1.toRat := by
    rcases colorFramePoint_eye_zeros_y D K i j with e | e | e
    · exact absurd e.1 hyne
    · rw [e]
    · rw [e.1, e.2]
      rfl
  have hz : (colorFramePoint D K Mat33.eye Mat31.zeros i j).2.2 = depthAt D i j := by
    rcases colorFramePoint_eye_zeros_z D K i j with e | e
    · exact absurd e.1 hzne
    · exact e
  have hy4 : (backProject D K i j).2.1.toRat
      = ((i : ℚ) - K.cy.toRat) * (depthAt D i j).toRat / K.fy.toRat := h4.2
  refine ⟨h7.1, ?_⟩
  have e7 : (project K (colorFramePoint D K Mat33.eye Mat31.zeros i j)).2.toRat
      = (colorFramePoint D K Mat33.eye Mat31.zeros i j).2.1.toRat * K.fy.toRat /
        (colorFramePoint D K Mat33.eye Mat31.zeros i j).2.2.toRat + K.cy.toRat := h7.2
  rw [e7, hy, hy4, hz, hr]
  show ((i : ℚ) - K.cy.toRat) * r / K.fy.toRat * K.fy.toRat / r + K.cy.toRat = (i : ℚ)
  field_simp

/-- The clamp of an index inside the extent. -/
theorem clamp_index (n k : ℕ) (hk : k < n) : max 0 (min ((n : ℤ) - 1) (k : ℤ)) = (k : ℤ) := by
  omega

/-! ## A pixel without rounding -/

/-- The representable value `1/2`. -/
theorem isRepr_half : F32.IsRepr (1 / 2) :=
  ⟨1, -1, by norm_num, by norm_num, by norm_num, by norm_num⟩

/-- The product `1 * 1/2`. -/
theorem one_mul_half : F32.finite 1 * F32.finite (1 / 2) = F32.finite (1 / 2) :=
  F32.finite_mul_exact _ _ _ (by norm_num) isRepr_half (by norm_num)

/-- The product `1/2 * 1`. -/
theorem half_mul_one : F32.finite (1 / 2) * F32.finite 1 = F32.finite (1 / 2) :=
  F32.finite_mul_exact _ _ _ (by norm_num) isRepr_half (by norm_num)

/-- The quotient `1/2 / 1`. -/
theorem half_div_one : F32.finite (1 / 2) / F32.finite 1 = F32.finite (1 / 2) :=
  F32.finite_div_exact _ _ _ (by norm_num) (by norm_num) isRepr_half (by norm_num)

/-- The quotient `1/2 / 1/2`. -/
theorem half_div_half : F32.finite (1 / 2) / F32.finite (1 / 2) = F32.finite 1 :=
  F32.finite_div_exact _ _ _ (by norm_num) (by norm_num) isRepr_one (by norm_num)

/-- Pixel (1, 1) of the scenario under unit intrinsics: the back-projected
point `(1/2, 1/2, 1/2)`. -/
theorem unit_backProject11 :
    backProject scenarioDepth unitK 1 1 =
      (F32.finite (1 / 2), F32.finite (1 / 2), F32.finite (1 / 2)) := by
  show ((F32.ofInt ((1 : ℕ) : ℤ) - F32.finite 0) * depthAt scenarioDepth 1 1 / F32.finite 1,
    (F32.ofInt ((1 : ℕ) : ℤ) - F32.finite 0) * depthAt scenarioDepth 1 1 / F32.finite 1,
    depthAt scenarioDepth 1 1) = _
  rw [scenario_depth11, ofInt_nat_one, one_sub_pzero, one_mul_half, half_div_one]

/-- Pixel (1, 1) of the scenario under unit intrinsics: the colour-frame
point. -/
theorem unit_point11 :
    colorFramePoint scenarioDepth unitK Mat33.eye Mat31.zeros 1 1 =
      (F32.finite (1 / 2), F32.finite (1 / 2), F32.finite (1 / 2)) := by
  unfold colorFramePoint
  rw [unit_backProject11]
  exact extrinsic_eye_zeros_finite _ _ _ isRepr_half isRepr_half isRepr_half

/-- Pixel (1, 1) of the scenario under unit intrinsics: no operation of lines 57
and 72 rounds. -/
theorem unit_exactColumn : exactColumn scenarioDepth unitK 1 1 := by
  unfold exactColumn
  rw [unit_point11, scenario_depth11]
  refine ⟨?_, ?_, ?_, ?_, ?_, ?_, ?_⟩
  · rw [ofInt_nat_one]
    exact ⟨rfl, by norm_num [F32.toRat]⟩
  · show (F32.ofInt ((1 : ℕ) : ℤ) - F32.finite 0).Exactly (((1 : ℕ) : ℚ) - (F32.finite 0).toRat)
    rw [ofInt_nat_one, one_sub_pzero]
    exact ⟨rfl, by norm_num [F32.toRat]⟩
  · show ((F32.ofInt ((1 : ℕ) : ℤ) - F32.finite 0) * F32.finite (1 / 2)).Exactly
      ((((1 : ℕ) : ℚ) - (F32.finite 0).toRat) * (F32.finite (1 / 2)).toRat)
    rw [ofInt_nat_one, one_sub_pzero, one_mul_half]
    exact ⟨rfl, by norm_num [F32.toRat]⟩
  · show ((F32.ofInt ((1 : ℕ) : ℤ) - F32.finite 0) * F32.finite (1 / 2) / F32.finite 1).Exactly
      ((((1 : ℕ) : ℚ) - (F32.finite 0).toRat) * (F32.finite (1 / 2)).toRat
        / (F32.finite 1).toRat)
    rw [ofInt_nat_one, one_sub_pzero, one_mul_half, half_div_one]
    exact ⟨rfl, by norm_num [F32.toRat]⟩
  · show (F32.finite (1 / 2) * F32.finite 1).Exactly
      ((F32.finite (1 / 2)).toRat * (F32.finite 1).toRat)
    rw [half_mul_one]
    exact ⟨rfl, by norm_num [F32.toRat]⟩
  · show (F32.finite (1 / 2) * F32.finite 1 / F32.finite (1 / 2)).Exactly
      ((F32.finite (1 / 2)).toRat * (F32.finite 1).toRat / (F32.finite (1 / 2)).toRat)
    rw [half_mul_one, half_div_half]
    exact ⟨rfl, by norm_num [F32.toRat]⟩
  · show (F32.finite (1 / 2) * F32.finite 1 / F32.finite (1 / 2) + F32.finite 0).Exactly
      ((F32.finite (1 / 2)).toRat * (F32.finite 1).toRat / (F32.finite (1 / 2)).toRat
        + (F32.finite 0).toRat)
    rw [half_mul_one, half_div_half, F32.finite_add_pzero 1 isRepr_one]
    exact ⟨rfl, by norm_num [F32.toRat]⟩

/-- Pixel (1, 1) of the scenario under unit intrinsics: no operation of lines 58
and 73 rounds. -/
theorem unit_exactRow : exactRow scenarioDepth unitK 1 1 := by
  unfold exactRow
  rw [unit_point11, scenario_depth11]
  refine ⟨?_, ?_, ?_, ?_, ?_, ?_, ?_⟩
  · rw [ofInt_nat_one]
    exact ⟨rfl, by norm_num [F32.toRat]⟩
  · show (F32.ofInt ((1 : ℕ) : ℤ) - F32.finite 0).Exactly (((1 : ℕ) : ℚ) - (F32.finite 0).toRat)
    rw [ofInt_nat_one, one_sub_pzero]
    exact ⟨rfl, by norm_num [F32.toRat]⟩
  · show ((F32.ofInt ((1 : ℕ) : ℤ) - F32.finite 0) * F32.finite (1 / 2)).Exactly
      ((((1 : ℕ) : ℚ) - (F32.finite 0).toRat) * (F32.finite (1 / 2)).toRat)
    rw [ofInt_nat_one, one_sub_pzero, one_mul_half]
    exact ⟨rfl, by norm_num [F32.toRat]⟩
  · show ((F32.ofInt ((1 : ℕ) : ℤ) - F32.finite 0) * F32.finite (1 / 2) / F32.finite 1).Exactly
      ((((1 : ℕ) : ℚ) - (F32.finite 0).toRat) * (F32.finite (1 / 2)).toRat
        / (F32.finite 1).toRat)
    rw [ofInt_nat_one, one_sub_pzero, one_mul_half, half_div_one]
    exact ⟨rfl, by norm_num [F32.toRat]⟩
  · show (F32.finite (1 / 2) * F32.finite 1).Exactly
      ((F32.finite (1 / 2)).toRat * (F32.finite 1).toRat)
    rw [half_mul_one]
    exact ⟨rfl, by norm_num [F32.toRat]⟩
  · show (F32.finite (1 / 2) * F32.finite 1 / F32.finite (1 / 2)).Exactly
      ((F32.finite (1 / 2)).toRat * (F32.finite 1).toRat / (F32.finite (1 / 2)).toRat)
    rw [half_mul_one, half_div_half]
    exact ⟨rfl, by norm_num [F32.toRat]⟩
  · show (F32.finite (1 / 2) * F32.finite 1 / F32.finite (1 / 2) + F32.finite 0).Exactly
      ((F32.finite (1 / 2)).toRat * (F32.finite 1).toRat / (F32.finite (1 / 2)).toRat
        + (F32.finite 0).toRat)
    rw [half_mul_one, half_div_half, F32.finite_add_pzero 1 isRepr_one]
    exact ⟨rfl, by norm_num [F32.toRat]⟩

/-- The scenario intrinsics are of moderate range. -/
theorem scenarioK_moderate : moderate scenarioK := by
  refine ⟨rfl, rfl, rfl, rfl, ?_, ?_, ?_, ?_, ?_, ?_⟩
  · show (1 : ℚ) / 2 ^ 40 ≤ |(500 : ℚ)|
    rw [abs_of_pos (by norm_num)]
    norm_num
  · show |(500 : ℚ)| ≤ 2 ^ 40
    rw [abs_of_pos (by norm_num)]
    norm_num
  · show (1 : ℚ) / 2 ^ 40 ≤ |(500 : ℚ)|
    rw [abs_of_pos (by norm_num)]
    norm_num
  · show |(500 : ℚ)| ≤ 2 ^ 40
    rw [abs_of_pos (by norm_num)]
    norm_num
  · show |(1 / 2 : ℚ)| ≤ 65536
    rw [abs_of_pos (by norm_num)]
    norm_num
  · show |(1 / 2 : ℚ)| ≤ 65536
    rw [abs_of_pos (by norm_num)]
    norm_num

/-- Pixel (1, 1) of the scenario has valid depth. -/
theorem scenario_depthValid11 : depthValid scenarioDepth 1 1 := by
  rw [depthValid_iff_raw]
  decide

/-- The output colour of a stored (blue, green, red) = (10, 20, 30). -/
theorem colorOf_10_20_30 :
    colorOf ⟨u8 10, u8 20, u8 30⟩ =
      (F32.finite (15790321 / 134217728), F32.finite (10526881 / 134217728),
        F32.finite (10526881 / 268435456)) := by
  have e30 : ((u8 30 : Fin 256) : ℕ) = 30 := rfl
  have e20 : ((u8 20 : Fin 256) : ℕ) = 20 := rfl
  have e10 : ((u8 10 : Fin 256) : ℕ) = 10 := rfl
  show (F32.ofInt (((u8 30 : Fin 256) : ℕ) : ℤ) / F32.finite 255,
    F32.ofInt (((u8 20 : Fin 256) : ℕ) : ℤ) / F32.finite 255,
    F32.ofInt (((u8 10 : Fin 256) : ℕ) : ℤ) / F32.finite 255) = _
  rw [e30, e20, e10, F32.ofInt_natCast 30 (by norm_num), F32.ofInt_natCast 20 (by norm_num),
    F32.ofInt_natCast 10 (by norm_num), F32.finite_div _ _ (by norm_num),
    F32.finite_div _ _ (by norm_num), F32.finite_div _ _ (by norm_num)]
  have r30 := round32_channel_30
    (xor (decide ((((30 : ℕ) : ℚ)) < 0)) (decide ((255 : ℚ) < 0)))
  have r20 := round32_channel_20
    (xor (decide ((((20 : ℕ) : ℚ)) < 0)) (decide ((255 : ℚ) < 0)))
  have r10 := round32_channel_10
    (xor (decide ((((10 : ℕ) : ℚ)) < 0)) (decide ((255 : ℚ) < 0)))
  rw [show (((30 : ℕ) : ℚ)) / 255 = 30 / 255 by norm_num, r30,
    show (((20 : ℕ) : ℚ)) / 255 = 20 / 255 by norm_num, r20,
    show (((10 : ℕ) : ℚ)) / 255 = 10 / 255 by norm_num, r10]

/-- The output colour of a black sample. -/
theorem colorOf_black : colorOf ⟨u8 0, u8 0, u8 0⟩ = (F32.finite 0, F32.finite 0, F32.finite 0) := by
  have e0 : ((u8 0 : Fin 256) : ℕ) = 0 := rfl
  show (F32.ofInt (((u8 0 : Fin 256) : ℕ) : ℤ) / F32.finite 255,
    F32.ofInt (((u8 0 : Fin 256) : ℕ) : ℤ) / F32.finite 255,
    F32.ofInt (((u8 0 : Fin 256) : ℕ) : ℤ) / F32.finite 255) = _
  rw [e0, ofInt_nat_zero, pzero_div_finite 255 (by norm_num)]

/-- The output colour of a white sample. -/
theorem colorOf_white :
    colorOf ⟨u8 255, u8 255, u8 255⟩ = (F32.finite 1, F32.finite 1, F32.finite 1) := by
  have e0 : ((u8 255 : Fin 256) : ℕ) = 255 := rfl
  have q : F32.finite ((255 : ℕ) : ℚ) / F32.finite 255 = F32.finite 1 :=
    F32.finite_div_exact _ _ _ (by norm_num) (by norm_num) isRepr_one (by norm_num)
  show (F32.ofInt (((u8 255 : Fin 256) : ℕ) : ℤ) / F32.finite 255,
    F32.ofInt (((u8 255 : Fin 256) : ℕ) : ℤ) / F32.finite 255,
    F32.ofInt (((u8 255 : Fin 256) : ℕ) : ℤ) / F32.finite 255) = _
  rw [e0, F32.ofInt_natCast 255 (by norm_num), q]

/-! ## Claims -/

/-- C1 (as amended): for every depth image, every non-empty colour image and
all intrinsics, `R` and `T`, `depth2pcd` returns an output whose length is the
number of depth pixels `(i, j)` that pass both checks of the source, and that
length is at most depth width times depth height.  A pixel passes both checks
exactly when its raw value lies in 1..10000 (binary32 depth with
`0 < depth <= 10`) and the test `z_c <= 0` is false, that is, `z_c > 0` or `z_c`
is NaN. -/
theorem C1_output_length (oob : F32 → ℤ) (D : DepthMat) (C : ColorMat)
    (Kd Kc : CameraIntrinsics) (R : Mat33) (T : Mat31) (hr : 0 < C.rows) (hc : 0 < C.cols) :
    (∀ i j : ℕ, passes D Kd R T i j ↔
      ((1 ≤ (D.px i j : ℕ) ∧ (D.px i j : ℕ) ≤ 10000) ∧
        (F32.finite 0 < (colorFramePoint D Kd R T i j).2.2 ∨
          (colorFramePoint D Kd R T i j).2.2 = F32.nan))) ∧
    ∃ out, depth2pcd oob D C Kd Kc R T = some out ∧
      out.length = (Finset.filter (fun p : ℕ × ℕ => passes D Kd R T p.1 p.2)
        (Finset.range D.rows ×ˢ Finset.range D.cols)).card ∧
      out.length ≤ D.cols * D.rows := by
  refine ⟨?_, _, depth2pcd_total oob D C Kd Kc R T hr hc,
    length_filterMap_pixelPoint oob D C Kd Kc R T, ?_⟩
  · intro i j
    unfold passes
    rw [depthValid_iff_raw, F32.not_le_zero_iff]
  · calc ((rowMajor D.rows D.cols).filterMap
          (fun p => pixelPoint oob D C Kd Kc R T p.1 p.2)).length
        ≤ (rowMajor D.rows D.cols).length := List.length_filterMap_le _ _
      _ = D.rows * D.cols := length_rowMajor _ _
      _ = D.cols * D.rows := Nat.mul_comm _ _

/-- C1, instance: the scenario images, whose colour image is 2x2. -/
theorem C1_output_length_witness :
    ∃ out, depth2pcd oobX86 scenarioDepth scenarioColor scenarioK scenarioK Mat33.eye Mat31.zeros
        = some out ∧
      out.length = (Finset.filter
        (fun p : ℕ × ℕ => passes scenarioDepth scenarioK Mat33.eye Mat31.zeros p.1 p.2)
        (Finset.range scenarioDepth.rows ×ˢ Finset.range scenarioDepth.cols)).card ∧
      out.length ≤ scenarioDepth.cols * scenarioDepth.rows :=
  (C1_output_length oobX86 scenarioDepth scenarioColor scenarioK scenarioK Mat33.eye Mat31.zeros
    (by decide) (by decide)).2

/-- C1 as stated fails in two ways.  On an empty colour image the one-pixel
depth image at one meter has one pixel passing both validity predicates, and
the conversion returns no output at all.  On a non-empty colour image with the
focal length `fx = 2^-149`, pixel (0, 1) of the one-row depth image has
`x = +inf` and `z_c = NaN`; the test `z_c <= 0` is false, so the output has one
point, while no pixel of the image has valid depth and `z_c > 0`. -/
theorem C1_counterexample :
    (depth2pcd oobX86 onePixelDepth emptyColor unitK unitK Mat33.eye Mat31.zeros = none ∧
      (Finset.filter (fun p : ℕ × ℕ => passes onePixelDepth unitK Mat33.eye Mat31.zeros p.1 p.2)
        (Finset.range onePixelDepth.rows ×ˢ Finset.range onePixelDepth.cols)).card = 1) ∧
    (∃ out, depth2pcd oobX86 overflowDepth overflowColor tinyFocalK unitK Mat33.eye Mat31.zeros
        = some out ∧ out.length = 1 ∧
      (Finset.filter (fun p : ℕ × ℕ => depthValid overflowDepth p.1 p.2 ∧
          F32.finite 0 < (colorFramePoint overflowDepth tinyFocalK Mat33.eye Mat31.zeros p.1 p.2).2.2)
        (Finset.range overflowDepth.rows ×ˢ Finset.range overflowDepth.cols)).card = 0) := by
  refine ⟨⟨onePixel_emptyColor_fails, ?_⟩, _, tiny_output, rfl, ?_⟩
  · rw [← length_filterMap_pixelPoint oobX86 onePixelDepth emptyColor unitK unitK]
    have e1 : onePixelDepth.rows = 1 := rfl
    have e2 : onePixelDepth.cols = 1 := rfl
    have h : pixelPoint oobX86 onePixelDepth emptyColor unitK unitK Mat33.eye Mat31.zeros 0 0
        = some (mkPoint (colorFramePoint onePixelDepth unitK Mat33.eye Mat31.zeros 0 0)
          (emptyColor.px
            (sampleIndex oobX86 onePixelDepth emptyColor unitK unitK Mat33.eye
              Mat31.zeros 0 0).1.toNat
            (sampleIndex oobX86 onePixelDepth emptyColor unitK unitK Mat33.eye
              Mat31.zeros 0 0).2.toNat)) := by
      unfold pixelPoint
      rw [if_pos onePixel_passes]
    rw [e1, e2, rowMajor_one_one, filterMap_pixels_cons_some _ 0 0 _ _ h, List.filterMap_nil]
    rfl
  · rw [Finset.card_eq_zero, Finset.filter_eq_empty_iff]
    rintro ⟨i, j⟩ hp ⟨hd, hz⟩
    rw [Finset.mem_product, Finset.mem_range, Finset.mem_range] at hp
    have hi : i < 1 := hp.1
    have hj : j < 2 := hp.2
    have hi0 : i = 0 := by omega
    subst hi0
    rcases (show j = 0 ∨ j = 1 by omega) with hj0 | hj1
    · subst hj0
      have hd2 : depthValid overflowDepth 0 0 := hd
      rw [depthValid_iff_raw] at hd2
      exact absurd hd2 (by decide)
    · subst hj1
      have hz2 : F32.finite 0 <
          (colorFramePoint overflowDepth tinyFocalK Mat33.eye Mat31.zeros 0 1).2.2 := hz
      rw [tiny_point] at hz2
      exact absurd hz2 (by decide)

/-- C2 (as amended): for every input with a non-empty colour image, the output
of `depth2pcd` is exactly the row-major enumeration of the depth pixels (rows
outer, columns inner) with, in that order, the point of each pixel that passes
both checks of the source; and if pixels `p` and `q` both yield points and `p`
precedes `q` in scan order, the point of `p` stands at a smaller output index
than the point of `q`.  The point of a pixel is the one the loop body appends
there, and a pixel has one exactly when it passes both checks. -/
theorem C2_scan_order (oob : F32 → ℤ) (D : DepthMat) (C : ColorMat)
    (Kd Kc : CameraIntrinsics) (R : Mat33) (T : Mat31) (hr : 0 < C.rows) (hc : 0 < C.cols) :
    (∀ (i j : ℕ) (pc : List Point3DRGB), loopBody oob D C Kd Kc R T i j pc =
      some (pc ++ (pixelPoint oob D C Kd Kc R T i j).toList)) ∧
    (∀ i j : ℕ, (pixelPoint oob D C Kd Kc R T i j).isSome = true ↔ passes D Kd R T i j) ∧
    ∃ out, depth2pcd oob D C Kd Kc R T = some out ∧
      out = (rowMajor D.rows D.cols).filterMap (fun p => pixelPoint oob D C Kd Kc R T p.1 p.2) ∧
      ∀ p q : ℕ × ℕ, p.1 < D.rows → p.2 < D.cols → q.1 < D.rows → q.2 < D.cols →
        ∀ x y : Point3DRGB, pixelPoint oob D C Kd Kc R T p.1 p.2 = some x →
          pixelPoint oob D C Kd Kc R T q.1 q.2 = some y → scanBefore p q →
          ∃ a b : ℕ, a < b ∧ out[a]? = some x ∧ out[b]? = some y := by
  refine ⟨fun i j pc => loopBody_total oob D C Kd Kc R T i j pc hr hc, ?_,
    _, depth2pcd_total oob D C Kd Kc R T hr hc, rfl, ?_⟩
  · intro i j
    rw [pixelPoint_isSome]
    exact decide_eq_true_iff
  intro p q hp1 hp2 hq1 hq2 x y hx hy hpq
  obtain ⟨l1, l2, l3, hl⟩ := pairwise_split scanBefore scanBefore_irrefl scanBefore_asymm
    (rowMajor D.rows D.cols) (rowMajor_pairwise _ _) p q
    ((mem_rowMajor _ _ p).mpr ⟨hp1, hp2⟩) ((mem_rowMajor _ _ q).mpr ⟨hq1, hq2⟩) hpq
  rw [hl]
  exact filterMap_order (fun p : ℕ × ℕ => pixelPoint oob D C Kd Kc R T p.1 p.2)
    l1 l2 l3 p q x y hx hy

/-- C2, instance: the scenario images, whose colour image is 2x2. -/
theorem C2_scan_order_witness :
    ∃ out, depth2pcd oobX86 scenarioDepth scenarioColor scenarioK scenarioK Mat33.eye Mat31.zeros
        = some out ∧
      out = (rowMajor scenarioDepth.rows scenarioDepth.cols).filterMap
        (fun p => pixelPoint oobX86 scenarioDepth scenarioColor scenarioK scenarioK
          Mat33.eye Mat31.zeros p.1 p.2) ∧
      ∀ p q : ℕ × ℕ, p.1 < scenarioDepth.rows → p.2 < scenarioDepth.cols →
        q.1 < scenarioDepth.rows → q.2 < scenarioDepth.cols →
        ∀ x y : Point3DRGB,
          pixelPoint oobX86 scenarioDepth scenarioColor scenarioK scenarioK
            Mat33.eye Mat31.zeros p.1 p.2 = some x →
          pixelPoint oobX86 scenarioDepth scenarioColor scenarioK scenarioK
            Mat33.eye Mat31.zeros q.1 q.2 = some y → scanBefore p q →
          ∃ a b : ℕ, a < b ∧ out[a]? = some x ∧ out[b]? = some y :=
  (C2_scan_order oobX86 scenarioDepth scenarioColor scenarioK scenarioK Mat33.eye Mat31.zeros
    (by decide) (by decide)).2.2

/-- C2 as stated fails on an empty colour image: the pixel of the one-pixel
depth image passes both checks, so the row-major enumeration keeps one point,
and the conversion returns no output. -/
theorem C2_counterexample :
    depth2pcd oobX86 onePixelDepth emptyColor unitK unitK Mat33.eye Mat31.zeros = none ∧
    passes onePixelDepth unitK Mat33.eye Mat31.zeros 0 0 ∧
    ((rowMajor onePixelDepth.rows onePixelDepth.cols).filterMap
      (fun p => pixelPoint oobX86 onePixelDepth emptyColor unitK unitK
        Mat33.eye Mat31.zeros p.1 p.2)).length = 1 := by
  refine ⟨onePixel_emptyColor_fails, onePixel_passes, ?_⟩
  have e1 : onePixelDepth.rows = 1 := rfl
  have e2 : onePixelDepth.cols = 1 := rfl
  have h : pixelPoint oobX86 onePixelDepth emptyColor unitK unitK Mat33.eye Mat31.zeros 0 0
      = some (mkPoint (colorFramePoint onePixelDepth unitK Mat33.eye Mat31.zeros 0 0)
        (emptyColor.px
          (sampleIndex oobX86 onePixelDepth emptyColor unitK unitK Mat33.eye
            Mat31.zeros 0 0).1.toNat
          (sampleIndex oobX86 onePixelDepth emptyColor unitK unitK Mat33.eye
            Mat31.zeros 0 0).2.toNat)) := by
    unfold pixelPoint
    rw [if_pos onePixel_passes]
  rw [e1, e2, rowMajor_one_one, filterMap_pixels_cons_some _ 0 0 _ _ h, List.filterMap_nil]
  rfl

/-- C3: every point appended by the loop body at pixel `(i, j)` has
`(x, y, z) = R * p + T` for the back-projected point
`p = ((j - cx) * depth / fx, (i - cy) * depth / fy, depth)`, `depth = raw/1000`,
every operation being the binary32 one of the source (so that a coordinate may
be infinite or NaN); and every point of the output of `depth2pcd` is such a
point for some pixel `(i, j)` of the depth image that passes both checks.  The
output carries colour-frame coordinates, not depth-frame ones. -/
theorem C3_emitted_coordinates (oob : F32 → ℤ) (D : DepthMat) (C : ColorMat)
    (Kd Kc : CameraIntrinsics) (R : Mat33) (T : Mat31) :
    (∀ (i j : ℕ) (pc : List Point3DRGB) (pt : Point3DRGB),
      loopBody oob D C Kd Kc R T i j pc = some (pc ++ [pt]) →
      (pt.x, pt.y, pt.z) = extrinsic R T
        ((F32.ofInt j - Kd.cx) * (F32.ofInt (D.px i j : ℕ) / F32.finite 1000) / Kd.fx,
         (F32.ofInt i - Kd.cy) * (F32.ofInt (D.px i j : ℕ) / F32.finite 1000) / Kd.fy,
         F32.ofInt (D.px i j : ℕ) / F32.finite 1000)) ∧
    (∀ out, depth2pcd oob D C Kd Kc R T = some out → ∀ pt ∈ out,
      ∃ i j, i < D.rows ∧ j < D.cols ∧ passes D Kd R T i j ∧
        (pt.x, pt.y, pt.z) = extrinsic R T
          ((F32.ofInt j - Kd.cx) * (F32.ofInt (D.px i j : ℕ) / F32.finite 1000) / Kd.fx,
           (F32.ofInt i - Kd.cy) * (F32.ofInt (D.px i j : ℕ) / F32.finite 1000) / Kd.fy,
           F32.ofInt (D.px i j : ℕ) / F32.finite 1000)) ∧
    (∀ p : Vec3, extrinsic R T p =
      (R.r00 * p.1 + R.r01 * p.2.1 + R.r02 * p.2.2 + T.t0,
       R.r10 * p.1 + R.r11 * p.2.1 + R.r12 * p.2.2 + T.t1,
       R.r20 * p.1 + R.r21 * p.2.1 + R.r22 * p.2.2 + T.t2)) := by
  have key : ∀ (i j : ℕ) (pt : Point3DRGB), pixelPoint oob D C Kd Kc R T i j = some pt →
      (pt.x, pt.y, pt.z) = extrinsic R T
        ((F32.ofInt j - Kd.cx) * (F32.ofInt (D.px i j : ℕ) / F32.finite 1000) / Kd.fx,
         (F32.ofInt i - Kd.cy) * (F32.ofInt (D.px i j : ℕ) / F32.finite 1000) / Kd.fy,
         F32.ofInt (D.px i j : ℕ) / F32.finite 1000) := by
    intro i j pt h
    rw [(pixelPoint_eq_some oob D C Kd Kc R T i j pt h).2]
    rfl
  refine ⟨?_, ?_, fun p => rfl⟩
  · intro i j pc pt h
    exact key i j pt (pixelPoint_of_loopBody oob D C Kd Kc R T i j pc pt h)
  · intro out h pt hpt
    obtain ⟨i, j, hi, hj, hpp⟩ := mem_output oob D C Kd Kc R T out h pt hpt
    exact ⟨i, j, hi, hj, (pixelPoint_eq_some oob D C Kd Kc R T i j pt hpp).1, key i j pt hpp⟩

/-- C3, instance: the first point of the scenario output, the point of pixel
(0, 0). -/
theorem C3_emitted_coordinates_witness :
    ∃ i j, i < scenarioDepth.rows ∧ j < scenarioDepth.cols ∧
      passes scenarioDepth scenarioK Mat33.eye Mat31.zeros i j ∧
      ((mkPoint (F32.finite (-8589935 / 8589934592), F32.finite (-8589935 / 8589934592),
          F32.finite 1) (scenarioColor.px 0 0)).x,
        (mkPoint (F32.finite (-8589935 / 8589934592), F32.finite (-8589935 / 8589934592),
          F32.finite 1) (scenarioColor.px 0 0)).y,
        (mkPoint (F32.finite (-8589935 / 8589934592), F32.finite (-8589935 / 8589934592),
          F32.finite 1) (scenarioColor.px 0 0)).z) =
      extrinsic Mat33.eye Mat31.zeros
        ((F32.ofInt j - scenarioK.cx) * (F32.ofInt (scenarioDepth.px i j : ℕ) / F32.finite 1000)
            / scenarioK.fx,
         (F32.ofInt i - scenarioK.cy) * (F32.ofInt (scenarioDepth.px i j : ℕ) / F32.finite 1000)
            / scenarioK.fy,
         F32.ofInt (scenarioDepth.px i j : ℕ) / F32.finite 1000) :=
  (C3_emitted_coordinates oobX86 scenarioDepth scenarioColor scenarioK scenarioK
    Mat33.eye Mat31.zeros).2.1 _ (scenario_output oobX86 scenarioColor.px) _
    (List.mem_cons_self _ _)

/-- C4: at every pixel the depth check `depth <= 0 || depth > 10` of the
source, with the binary32 `depth = raw / 1000.0f`, holds exactly when `raw = 0`
or `raw > 10000`; in that case the loop body leaves the point cloud unchanged
whatever the other inputs, so no point for the pixel is emitted.  A raw value
of exactly 10000 passes the check, and a pixel that passes it is emitted as
soon as the test `z_c <= 0` is false and the colour image is non-empty.  Every
point of the output of `depth2pcd` is the point of a pixel whose raw value lies
in 1..10000. -/
theorem C4_depth_check (oob : F32 → ℤ) (D : DepthMat) (C : ColorMat)
    (Kd Kc : CameraIntrinsics) (R : Mat33) (T : Mat31) :
    (∀ i j : ℕ,
      ((F32.ofInt (D.px i j : ℕ) / F32.finite 1000 ≤ F32.ofInt 0 ∨
          F32.ofInt (D.px i j : ℕ) / F32.finite 1000 > F32.finite 10) ↔
        ((D.px i j : ℕ) = 0 ∨ 10000 < (D.px i j : ℕ))) ∧
      (((D.px i j : ℕ) = 0 ∨ 10000 < (D.px i j : ℕ)) →
        ∀ pc, loopBody oob D C Kd Kc R T i j pc = some pc) ∧
      ((D.px i j : ℕ) = 10000 →
        ¬ (F32.ofInt (D.px i j : ℕ) / F32.finite 1000 ≤ F32.ofInt 0 ∨
          F32.ofInt (D.px i j : ℕ) / F32.finite 1000 > F32.finite 10)) ∧
      (¬ ((D.px i j : ℕ) = 0 ∨ 10000 < (D.px i j : ℕ)) →
        ¬ (colorFramePoint D Kd R T i j).2.2 ≤ F32.finite 0 → 0 < C.rows → 0 < C.cols →
        ∃ pt, ∀ pc, loopBody oob D C Kd Kc R T i j pc = some (pc ++ [pt]))) ∧
    (∀ out, depth2pcd oob D C Kd Kc R T = some out → ∀ pt ∈ out,
      ∃ i j, i < D.rows ∧ j < D.cols ∧ 1 ≤ (D.px i j : ℕ) ∧ (D.px i j : ℕ) ≤ 10000 ∧
        (pt.x, pt.y, pt.z) = colorFramePoint D Kd R T i j) := by
  have hiff : ∀ i j : ℕ,
      ((F32.ofInt (D.px i j : ℕ) / F32.finite 1000 ≤ F32.ofInt 0 ∨
          F32.ofInt (D.px i j : ℕ) / F32.finite 1000 > F32.finite 10) ↔
      ((D.px i j : ℕ) = 0 ∨ 10000 < (D.px i j : ℕ))) := by
    intro i j
    refine (depth_check_iff D i j).trans ?_
    rw [depthValid_iff_raw]
    omega
  constructor
  · intro i j
    refine ⟨hiff i j, ?_, ?_, ?_⟩
    · intro h pc
      apply loopBody_of_not_passes
      intro hp
      have := (depthValid_iff_raw D i j).mp hp.1
      omega
    · intro h
      rw [hiff i j]
      omega
    · intro h hz hr hc
      have hd : depthValid D i j := by
        rw [depthValid_iff_raw]
        omega
      have hp : passes D Kd R T i j := ⟨hd, hz⟩
      refine ⟨mkPoint (colorFramePoint D Kd R T i j)
        (C.px (sampleIndex oob D C Kd Kc R T i j).1.toNat
          (sampleIndex oob D C Kd Kc R T i j).2.toNat), ?_⟩
      intro pc
      rw [loopBody_total oob D C Kd Kc R T i j pc hr hc]
      unfold pixelPoint
      rw [if_pos hp]
      rfl
  · intro out h pt hpt
    obtain ⟨i, j, hi, hj, hpp⟩ := mem_output oob D C Kd Kc R T out h pt hpt
    obtain ⟨hp, hpt2⟩ := pixelPoint_eq_some oob D C Kd Kc R T i j pt hpp
    have hraw := (depthValid_iff_raw D i j).mp hp.1
    refine ⟨i, j, hi, hj, hraw.1, hraw.2, ?_⟩
    rw [hpt2]
    rfl

/-- C4, instance: pixel (0, 1) of the scenario has raw value 0, so the loop body
leaves the empty point cloud unchanged. -/
theorem C4_depth_check_witness :
    loopBody oobX86 scenarioDepth scenarioColor scenarioK scenarioK Mat33.eye Mat31.zeros 0 1 []
      = some [] :=
  ((C4_depth_check oobX86 scenarioDepth scenarioColor scenarioK scenarioK Mat33.eye
    Mat31.zeros).1 0 1).2.1 (Or.inl (by decide)) []

/-- C5 (as amended): a pixel with valid depth whose transformed point has
`z_c <= 0` (third component of `R * p + T`) leaves the point cloud unchanged, so
no point for it is emitted; and every point appended by the loop body, hence
every point of the output of `depth2pcd`, has a `z` for which the test `z <= 0`
is false: `z > 0`, or `z` is NaN. -/
theorem C5_behind_camera (oob : F32 → ℤ) (D : DepthMat) (C : ColorMat)
    (Kd Kc : CameraIntrinsics) (R : Mat33) (T : Mat31) :
    (∀ (i j : ℕ), depthValid D i j →
      (extrinsic R T
        ((F32.ofInt j - Kd.cx) * (F32.ofInt (D.px i j : ℕ) / F32.finite 1000) / Kd.fx,
         (F32.ofInt i - Kd.cy) * (F32.ofInt (D.px i j : ℕ) / F32.finite 1000) / Kd.fy,
         F32.ofInt (D.px i j : ℕ) / F32.finite 1000)).2.2 ≤ F32.ofInt 0 →
      ∀ pc, loopBody oob D C Kd Kc R T i j pc = some pc) ∧
    (∀ (i j : ℕ) (pc : List Point3DRGB) (pt : Point3DRGB),
      loopBody oob D C Kd Kc R T i j pc = some (pc ++ [pt]) →
      ¬ pt.z ≤ F32.ofInt 0 ∧ (F32.finite 0 < pt.z ∨ pt.z = F32.nan)) ∧
    (∀ out, depth2pcd oob D C Kd Kc R T = some out → ∀ pt ∈ out,
      ¬ pt.z ≤ F32.ofInt 0 ∧ (F32.finite 0 < pt.z ∨ pt.z = F32.nan)) := by
  have key : ∀ (i j : ℕ) (pt : Point3DRGB), pixelPoint oob D C Kd Kc R T i j = some pt →
      ¬ pt.z ≤ F32.ofInt 0 ∧ (F32.finite 0 < pt.z ∨ pt.z = F32.nan) := by
    intro i j pt h
    obtain ⟨hp, hpt2⟩ := pixelPoint_eq_some oob D C Kd Kc R T i j pt h
    have hz : ¬ pt.z ≤ F32.finite 0 := by
      rw [hpt2]
      exact hp.2
    rw [F32.ofInt_zero]
    exact ⟨hz, (F32.not_le_zero_iff pt.z).mp hz⟩
  refine ⟨?_, ?_, ?_⟩
  · intro i j _ hz pc
    apply loopBody_of_not_passes
    intro hp
    rw [F32.ofInt_zero] at hz
    exact hp.2 hz
  · intro i j pc pt h
    exact key i j pt (pixelPoint_of_loopBody oob D C Kd Kc R T i j pc pt h)
  · intro out h pt hpt
    obtain ⟨i, j, _, _, hpp⟩ := mem_output oob D C Kd Kc R T out h pt hpt
    exact key i j pt hpp

/-- C5, instance: the one-pixel image at one meter, moved onto the plane
`z = 0` by the translation, emits nothing; and the first point of the scenario
output has `z > 0`. -/
theorem C5_behind_camera_witness :
    loopBody oobX86 onePixelDepth scenarioColor unitK unitK Mat33.eye towardsCameraT 0 0 []
      = some [] ∧
    (¬ (mkPoint (F32.finite (-8589935 / 8589934592), F32.finite (-8589935 / 8589934592),
        F32.finite 1) (scenarioColor.px 0 0)).z ≤ F32.ofInt 0 ∧
      (F32.finite 0 < (mkPoint (F32.finite (-8589935 / 8589934592),
          F32.finite (-8589935 / 8589934592), F32.finite 1) (scenarioColor.px 0 0)).z ∨
        (mkPoint (F32.finite (-8589935 / 8589934592), F32.finite (-8589935 / 8589934592),
          F32.finite 1) (scenarioColor.px 0 0)).z = F32.nan)) :=
  ⟨(C5_behind_camera oobX86 onePixelDepth scenarioColor unitK unitK Mat33.eye towardsCameraT).1
      0 0 onePixel_depthValid
      (by
        have h := onePixel_towards_z
        have h2 : (extrinsic Mat33.eye towardsCameraT
            ((F32.ofInt ((0 : ℕ) : ℤ) - unitK.cx) *
                (F32.ofInt (onePixelDepth.px 0 0 : ℕ) / F32.finite 1000) / unitK.fx,
              (F32.ofInt ((0 : ℕ) : ℤ) - unitK.cy) *
                (F32.ofInt (onePixelDepth.px 0 0 : ℕ) / F32.finite 1000) / unitK.fy,
              F32.ofInt (onePixelDepth.px 0 0 : ℕ) / F32.finite 1000)).2.2 = F32.finite 0 := h
        rw [h2, F32.ofInt_zero]
        exact (F32.finite_le_iff 0 0).mpr le_rfl) [],
    (C5_behind_camera oobX86 scenarioDepth scenarioColor scenarioK scenarioK
      Mat33.eye Mat31.zeros).2.2 _ (scenario_output oobX86 scenarioColor.px) _
      (List.mem_cons_self _ _)⟩

/-- C5 as stated fails: with the focal length `fx = 2^-149`, pixel (0, 1) of the
one-row depth image has valid depth, its back-projected `x` overflows to
`+inf`, and the third component of `R * p + T` is NaN; the test `z_c <= 0` is
false, so a point is emitted, and its `z` is NaN, not a value greater than 0. -/
theorem C5_counterexample :
    depthValid overflowDepth 0 1 ∧
    (colorFramePoint overflowDepth tinyFocalK Mat33.eye Mat31.zeros 0 1).2.2 = F32.nan ∧
    depth2pcd oobX86 overflowDepth overflowColor tinyFocalK unitK Mat33.eye Mat31.zeros
      = some [mkPoint (F32.inf false, F32.nan, F32.nan) (overflowColor.px 0 0)] ∧
    (mkPoint (F32.inf false, F32.nan, F32.nan) (overflowColor.px 0 0)).z = F32.nan ∧
    ¬ F32.finite 0 < (mkPoint (F32.inf false, F32.nan, F32.nan) (overflowColor.px 0 0)).z := by
  refine ⟨overflow_depthValid01, ?_, tiny_output, rfl, by decide⟩
  rw [tiny_point]

/-- C6 (as amended): with identity rotation, zero translation and colour
intrinsics equal to the depth intrinsics `K`, for a pixel `(i, j)` with valid
depth the binary32 projection `(u, v)` of the back-projected point is not
`(j, i)` in general.  If `K` is of moderate range (finite, focal lengths of
magnitude between `2^-40` and `2^40`, principal point of magnitude at most
`2^16`) and `i, j < 2^16`, then `u` and `v` are finite and within `1/16` of `j`
and `i`, so rounding yields `(j, i)` and the colour image is sampled at the
clamped row `i` and column `j`.  And `u` is the number `j` (resp. `v` is `i`)
whenever the focal length is nonzero and no operation of lines 57 and 72 (resp.
58 and 73) rounds. -/
theorem C6_round_trip (oob : F32 → ℤ) (D : DepthMat) (C : ColorMat) (K : CameraIntrinsics)
    (i j : ℕ) (hd : depthValid D i j) :
    (moderate K → i < 65536 → j < 65536 →
      ((project K (colorFramePoint D K Mat33.eye Mat31.zeros i j)).1.isFinite = true ∧
        |(project K (colorFramePoint D K Mat33.eye Mat31.zeros i j)).1.toRat - j| ≤ 1 / 16) ∧
      ((project K (colorFramePoint D K Mat33.eye Mat31.zeros i j)).2.isFinite = true ∧
        |(project K (colorFramePoint D K Mat33.eye Mat31.zeros i j)).2.toRat - i| ≤ 1 / 16) ∧
      castInt oob (roundf (project K (colorFramePoint D K Mat33.eye Mat31.zeros i j)).1) = j ∧
      castInt oob (roundf (project K (colorFramePoint D K Mat33.eye Mat31.zeros i j)).2) = i ∧
      sampleIndex oob D C K K Mat33.eye Mat31.zeros i j =
        (max 0 (min ((C.rows : ℤ) - 1) i), max 0 (min ((C.cols : ℤ) - 1) j))) ∧
    (K.fx.toRat ≠ 0 → exactColumn D K i j → (j : ℤ) ≤ 2147483647 →
      (project K (colorFramePoint D K Mat33.eye Mat31.zeros i j)).1.Exactly j ∧
      castInt oob (roundf (project K (colorFramePoint D K Mat33.eye Mat31.zeros i j)).1) = j) ∧
    (K.fy.toRat ≠ 0 → exactRow D K i j → (i : ℤ) ≤ 2147483647 →
      (project K (colorFramePoint D K Mat33.eye Mat31.zeros i j)).2.Exactly i ∧
      castInt oob (roundf (project K (colorFramePoint D K Mat33.eye Mat31.zeros i j)).2) = i) := by
  refine ⟨?_, ?_, ?_⟩
  · intro hK hi hj
    obtain ⟨hu, hv⟩ := project_near D K i j hK hd hi hj
    have cu := castInt_roundf_near oob _ j hu.1 hu.2 (by omega)
    have cv := castInt_roundf_near oob _ i hv.1 hv.2 (by omega)
    refine ⟨hu, hv, cu, cv, ?_⟩
    unfold sampleIndex clampIdx
    rw [cu, cv]
  · intro hfx hex hj
    have h := exactColumn_project D K i j hd hfx hex
    exact ⟨h, castInt_roundf_exactly oob _ j h hj⟩
  · intro hfy hex hi
    have h := exactRow_project D K i j hd hfy hex
    exact ⟨h, castInt_roundf_exactly oob _ i h hi⟩

/-- C6, instance: pixel (1, 1) of the scenario, raw value 500, with the scenario
intrinsics `fx = fy = 500`, `cx = cy = 0.5`, where operations round; and with
unit intrinsics, where none does. -/
theorem C6_round_trip_witness :
    (castInt oobX86 (roundf (project scenarioK
        (colorFramePoint scenarioDepth scenarioK Mat33.eye Mat31.zeros 1 1)).1) = ((1 : ℕ) : ℤ) ∧
      castInt oobX86 (roundf (project scenarioK
        (colorFramePoint scenarioDepth scenarioK Mat33.eye Mat31.zeros 1 1)).2) = ((1 : ℕ) : ℤ)) ∧
    (project unitK (colorFramePoint scenarioDepth unitK Mat33.eye Mat31.zeros 1 1)).1.Exactly
      ((1 : ℕ) : ℚ) ∧
    (project unitK (colorFramePoint scenarioDepth unitK Mat33.eye Mat31.zeros 1 1)).2.Exactly
      ((1 : ℕ) : ℚ) :=
  ⟨⟨((C6_round_trip oobX86 scenarioDepth scenarioColor scenarioK 1 1 scenario_depthValid11).1
        scenarioK_moderate (by norm_num) (by norm_num)).2.2.1,
      ((C6_round_trip oobX86 scenarioDepth scenarioColor scenarioK 1 1 scenario_depthValid11).1
        scenarioK_moderate (by norm_num) (by norm_num)).2.2.2.1⟩,
    ((C6_round_trip oobX86 scenarioDepth scenarioColor unitK 1 1 scenario_depthValid11).2.1
      (by norm_num [unitK, F32.toRat]) unit_exactColumn (by norm_num)).1,
    ((C6_round_trip oobX86 scenarioDepth scenarioColor unitK 1 1 scenario_depthValid11).2.2
      (by norm_num [unitK, F32.toRat]) unit_exactRow (by norm_num)).1⟩

/-- C6 as stated fails: with unit focal lengths and the principal point at
column `2^25`, pixel (0, 1) of the one-row depth image has valid depth, the
difference `1 - 2^25` of line 57 rounds to `-2^25`, and the projection is
`u = 0`, not `j = 1`; rounding yields column 0. -/
theorem C6_counterexample :
    depthValid overflowDepth 0 1 ∧
    farPrincipalK.fx = F32.finite 1 ∧ farPrincipalK.fy = F32.finite 1 ∧
    project farPrincipalK
      (colorFramePoint overflowDepth farPrincipalK Mat33.eye Mat31.zeros 0 1)
      = (F32.finite 0, F32.finite 0) ∧
    F32.finite 0 ≠ F32.finite ((1 : ℕ) : ℚ) ∧
    castInt oobX86 (roundf (project farPrincipalK
      (colorFramePoint overflowDepth farPrincipalK Mat33.eye Mat31.zeros 0 1)).1) = 0 ∧
    (sampleIndex oobX86 overflowDepth overflowColor farPrincipalK farPrincipalK
      Mat33.eye Mat31.zeros 0 1).2 = 0 := by
  refine ⟨overflow_depthValid01, rfl, rfl, far_project, ?_, ?_, ?_⟩
  · intro h
    have := F32.finite.inj h
    norm_num at this
  · rw [far_project]
    exact castInt_roundf_zero oobX86
  · rw [far_sampleIndex]

/-- C7 (as amended): whenever the loop body emits a point, the colour read
succeeded at the sampled (row, column), and for the sample stored there as
(blue, green, red) = `(c0, c1, c2)` the point has `(r, g, b)` equal to the
binary32 quotients `(c2 / 255.0f, c1 / 255.0f, c0 / 255.0f)`: each is the
binary32 value nearest to the exact quotient, within `2^-25` of it; every point
of the output of `depth2pcd` is coloured in this way from the sample of some
pixel; in particular a stored (blue = 10, green = 20, red = 30) gives
`(15790321 / 2^27, 10526881 / 2^27, 10526881 / 2^28)`. -/
theorem C7_color_channels (oob : F32 → ℤ) (D : DepthMat) (C : ColorMat)
    (Kd Kc : CameraIntrinsics) (R : Mat33) (T : Mat31) :
    (∀ (i j : ℕ) (pc : List Point3DRGB) (pt : Point3DRGB),
      loopBody oob D C Kd Kc R T i j pc = some (pc ++ [pt]) →
      ∃ c, C.atVec3b (sampleIndex oob D C Kd Kc R T i j).1 (sampleIndex oob D C Kd Kc R T i j).2
          = some c ∧
        (pt.r, pt.g, pt.b) =
          (F32.ofInt (c.c2 : ℕ) / F32.finite 255, F32.ofInt (c.c1 : ℕ) / F32.finite 255,
            F32.ofInt (c.c0 : ℕ) / F32.finite 255) ∧
        (∃ r g b : ℚ, (pt.r, pt.g, pt.b) = (F32.finite r, F32.finite g, F32.finite b) ∧
          F32.finite r = F32.round32 (((c.c2 : ℕ) : ℚ) / 255) false ∧
          F32.finite g = F32.round32 (((c.c1 : ℕ) : ℚ) / 255) false ∧
          F32.finite b = F32.round32 (((c.c0 : ℕ) : ℚ) / 255) false ∧
          |r - ((c.c2 : ℕ) : ℚ) / 255| ≤ 1 / 33554432 ∧
          |g - ((c.c1 : ℕ) : ℚ) / 255| ≤ 1 / 33554432 ∧
          |b - ((c.c0 : ℕ) : ℚ) / 255| ≤ 1 / 33554432) ∧
        (c = ⟨u8 10, u8 20, u8 30⟩ → (pt.r, pt.g, pt.b) =
          (F32.finite (15790321 / 134217728), F32.finite (10526881 / 134217728),
            F32.finite (10526881 / 268435456)))) ∧
    (∀ out, depth2pcd oob D C Kd Kc R T = some out → ∀ pt ∈ out,
      ∃ i j c, i < D.rows ∧ j < D.cols ∧
        c = C.px (sampleIndex oob D C Kd Kc R T i j).1.toNat
          (sampleIndex oob D C Kd Kc R T i j).2.toNat ∧
        (pt.r, pt.g, pt.b) =
          (F32.ofInt (c.c2 : ℕ) / F32.finite 255, F32.ofInt (c.c1 : ℕ) / F32.finite 255,
            F32.ofInt (c.c0 : ℕ) / F32.finite 255)) := by
  constructor
  · intro i j pc pt h
    obtain ⟨c, hread, hpt⟩ := loopBody_read oob D C Kd Kc R T i j pc pt h
    have hrgb : (pt.r, pt.g, pt.b) =
        (F32.ofInt (c.c2 : ℕ) / F32.finite 255, F32.ofInt (c.c1 : ℕ) / F32.finite 255,
          F32.ofInt (c.c0 : ℕ) / F32.finite 255) := by
      rw [hpt]
      rfl
    refine ⟨c, hread, hrgb, ?_, ?_⟩
    · obtain ⟨r, hr, _, _, er, fr⟩ := F32.channel_cases (c.c2 : ℕ) c.c2.isLt
      obtain ⟨g, hg, _, _, eg, fg⟩ := F32.channel_cases (c.c1 : ℕ) c.c1.isLt
      obtain ⟨b, hb, _, _, eb, fb⟩ := F32.channel_cases (c.c0 : ℕ) c.c0.isLt
      refine ⟨r, g, b, ?_, fr, fg, fb, er, eg, eb⟩
      rw [hrgb, hr, hg, hb]
    · intro hc
      rw [hrgb, hc]
      exact colorOf_10_20_30
  · intro out h pt hpt
    obtain ⟨i, j, hi, hj, hpp⟩ := mem_output oob D C Kd Kc R T out h pt hpt
    refine ⟨i, j, _, hi, hj, rfl, ?_⟩
    rw [(pixelPoint_eq_some oob D C Kd Kc R T i j pt hpp).2]
    rfl

/-- C7, instance: the scenario with the colour image storing (blue, green, red)
= (10, 20, 30) everywhere; the first output point is coloured from such a
sample. -/
theorem C7_color_channels_witness :
    ∃ i j c, i < scenarioDepth.rows ∧ j < scenarioDepth.cols ∧
      c = scenarioColor.px
        (sampleIndex oobX86 scenarioDepth scenarioColor scenarioK scenarioK
          Mat33.eye Mat31.zeros i j).1.toNat
        (sampleIndex oobX86 scenarioDepth scenarioColor scenarioK scenarioK
          Mat33.eye Mat31.zeros i j).2.toNat ∧
      ((mkPoint (F32.finite (-8589935 / 8589934592), F32.finite (-8589935 / 8589934592),
          F32.finite 1) (scenarioColor.px 0 0)).r,
        (mkPoint (F32.finite (-8589935 / 8589934592), F32.finite (-8589935 / 8589934592),
          F32.finite 1) (scenarioColor.px 0 0)).g,
        (mkPoint (F32.finite (-8589935 / 8589934592), F32.finite (-8589935 / 8589934592),
          F32.finite 1) (scenarioColor.px 0 0)).b) =
        (F32.ofInt (c.c2 : ℕ) / F32.finite 255, F32.ofInt (c.c1 : ℕ) / F32.finite 255,
          F32.ofInt (c.c0 : ℕ) / F32.finite 255) :=
  (C7_color_channels oobX86 scenarioDepth scenarioColor scenarioK scenarioK
    Mat33.eye Mat31.zeros).2 _ (scenario_output oobX86 scenarioColor.px) _
    (List.mem_cons_self _ _)

/-- C7 as stated fails in the values: in the scenario with the colour image
storing (blue, green, red) = (10, 20, 30), the first output point has
`(r, g, b) = (15790321 / 2^27, 10526881 / 2^27, 10526881 / 2^28)`, the binary32
quotients, and none of them is the number `30/255`, `20/255` or `10/255`. -/
theorem C7_counterexample :
    depth2pcd oobX86 scenarioDepth scenarioColor scenarioK scenarioK Mat33.eye Mat31.zeros =
      some [mkPoint (F32.finite (-8589935 / 8589934592), F32.finite (-8589935 / 8589934592),
          F32.finite 1) (scenarioColor.px 0 0),
        mkPoint (F32.finite (8589935 / 17179869184), F32.finite (8589935 / 17179869184),
          F32.finite (1 / 2)) (scenarioColor.px 1 1)] ∧
    scenarioColor.px 0 0 = ⟨u8 10, u8 20, u8 30⟩ ∧
    ((mkPoint (F32.finite (-8589935 / 8589934592), F32.finite (-8589935 / 8589934592),
        F32.finite 1) (scenarioColor.px 0 0)).r,
      (mkPoint (F32.finite (-8589935 / 8589934592), F32.finite (-8589935 / 8589934592),
        F32.finite 1) (scenarioColor.px 0 0)).g,
      (mkPoint (F32.finite (-8589935 / 8589934592), F32.finite (-8589935 / 8589934592),
        F32.finite 1) (scenarioColor.px 0 0)).b) =
      (F32.finite (15790321 / 134217728), F32.finite (10526881 / 134217728),
        F32.finite (10526881 / 268435456)) ∧
    F32.finite (15790321 / 134217728) ≠ F32.finite (30 / 255) ∧
    F32.finite (10526881 / 134217728) ≠ F32.finite (20 / 255) ∧
    F32.finite (10526881 / 268435456) ≠ F32.finite (10 / 255) := by
  refine ⟨scenario_output oobX86 scenarioColor.px, rfl, colorOf_10_20_30, ?_, ?_, ?_⟩
  · intro h
    have := F32.finite.inj h
    norm_num at this
  · intro h
    have := F32.finite.inj h
    norm_num at this
  · intro h
    have := F32.finite.inj h
    norm_num at this

/-- C8, the code at the failing input: pixel (0, 1) passes both validity checks
and projects to `u = 2^32`, which rounds above `width - 1 = 1`; the value is
outside the range of `int`, the x86-64 conversion yields `INT_MIN`, the clamp
returns column 0, and the emitted point carries the colour of column 0 (black)
and not the colour of column `width - 1` (white). -/
theorem C8_cast_overflow_samples_column_zero :
    passes overflowDepth unitK Mat33.eye nearPlaneT 0 1 ∧
    (project overflowK (colorFramePoint overflowDepth unitK Mat33.eye nearPlaneT 0 1)).1
      = F32.finite 4294967296 ∧
    roundf (project overflowK
      (colorFramePoint overflowDepth unitK Mat33.eye nearPlaneT 0 1)).1
      = F32.finite 4294967296 ∧
    ((overflowColor.cols : ℤ) - 1 < 4294967296) ∧
    F32.finite (((overflowColor.cols : ℤ) - 1 : ℤ) : ℚ) <
      roundf (project overflowK
        (colorFramePoint overflowDepth unitK Mat33.eye nearPlaneT 0 1)).1 ∧
    depth2pcd oobX86 overflowDepth overflowColor unitK overflowK Mat33.eye nearPlaneT
      = some [⟨F32.finite 1, F32.finite 0, F32.finite (1 / 1048576),
          F32.finite 0, F32.finite 0, F32.finite 0⟩] ∧
    mkPoint (F32.finite 1, F32.finite 0, F32.finite (1 / 1048576))
        (overflowColor.px 0 (overflowColor.cols - 1))
      = ⟨F32.finite 1, F32.finite 0, F32.finite (1 / 1048576),
          F32.finite 1, F32.finite 1, F32.finite 1⟩ := by
  have r2 : ((overflowColor.cols : ℕ) : ℤ) = 2 := rfl
  refine ⟨overflow_passes, ?_, ?_, ?_, ?_, ?_, ?_⟩
  · rw [overflow_project]
  · rw [overflow_project]
    exact roundf_two_pow_32
  · rw [r2]
    norm_num
  · rw [overflow_project]
    show F32.finite ((((overflowColor.cols : ℕ) : ℤ) - 1 : ℤ) : ℚ) < roundf (F32.finite 4294967296)
    rw [roundf_two_pow_32, r2, F32.finite_lt_iff]
    norm_num
  · rw [overflow_output]
    have e : overflowColor.px 0 0 = ⟨u8 0, u8 0, u8 0⟩ := rfl
    unfold mkPoint
    rw [e, colorOf_black]
  · have e : overflowColor.px 0 (overflowColor.cols - 1) = ⟨u8 255, u8 255, u8 255⟩ := rfl
    unfold mkPoint
    rw [e, colorOf_white]

/-- C9 (as amended): for the 2x2 depth image `[[1000, 0], [11000, 500]]`, any
2x2 colour image, identity `R`, zero `T` and depth = colour intrinsics
`fx = fy = 500`, `cx = cy = 0.5`, `depth2pcd` returns exactly two points, in
this order: the point of pixel (0, 0) with `x = y = -8589935 / 2^33`, the
binary32 value nearest to `-0.001`, and `z = 1`, and the point of pixel (1, 1)
with `x = y = 8589935 / 2^34`, the binary32 value nearest to `0.0005`, and
`z = 0.5`; these coordinates are within `1e-4` of the decimal values; the loop
body leaves the point cloud unchanged at pixels (0, 1) (raw 0) and (1, 0) (raw
11000). -/
theorem C9_scenario (oob : F32 → ℤ) (px : ℕ → ℕ → Vec3b) :
    ∃ p1 p2 : Point3DRGB,
      depth2pcd oob scenarioDepth ⟨2, 2, px⟩ scenarioK scenarioK Mat33.eye Mat31.zeros
        = some [p1, p2] ∧
      (p1.x, p1.y, p1.z) =
        (F32.finite (-8589935 / 8589934592), F32.finite (-8589935 / 8589934592), F32.finite 1) ∧
      (p2.x, p2.y, p2.z) =
        (F32.finite (8589935 / 17179869184), F32.finite (8589935 / 17179869184),
          F32.finite (1 / 2)) ∧
      F32.finite (-8589935 / 8589934592) = F32.round32 (-1 / 1000) false ∧
      F32.finite (8589935 / 17179869184) = F32.round32 (1 / 2000) false ∧
      |(-8589935 / 8589934592 : ℚ) - (-1 / 1000)| ≤ 1 / 10000 ∧
      |(8589935 / 17179869184 : ℚ) - 1 / 2000| ≤ 1 / 10000 ∧
      (∀ pc, loopBody oob scenarioDepth ⟨2, 2, px⟩ scenarioK scenarioK Mat33.eye Mat31.zeros
        0 0 pc = some (pc ++ [p1])) ∧
      (∀ pc, loopBody oob scenarioDepth ⟨2, 2, px⟩ scenarioK scenarioK Mat33.eye Mat31.zeros
        0 1 pc = some pc) ∧
      (∀ pc, loopBody oob scenarioDepth ⟨2, 2, px⟩ scenarioK scenarioK Mat33.eye Mat31.zeros
        1 0 pc = some pc) ∧
      (∀ pc, loopBody oob scenarioDepth ⟨2, 2, px⟩ scenarioK scenarioK Mat33.eye Mat31.zeros
        1 1 pc = some (pc ++ [p2])) := by
  refine ⟨mkPoint (F32.finite (-8589935 / 8589934592), F32.finite (-8589935 / 8589934592),
      F32.finite 1) (px 0 0),
    mkPoint (F32.finite (8589935 / 17179869184), F32.finite (8589935 / 17179869184),
      F32.finite (1 / 2)) (px 1 1),
    scenario_output oob px, rfl, rfl, (round32_neg_thousandth false).symm,
    (round32_two_thousandth false).symm, ?_, ?_, ?_, ?_, ?_, ?_⟩
  · rw [abs_le]
    constructor <;> norm_num
  · rw [abs_le]
    constructor <;> norm_num
  · intro pc
    rw [loopBody_total oob scenarioDepth ⟨2, 2, px⟩ scenarioK scenarioK Mat33.eye Mat31.zeros
      0 0 pc (Nat.succ_pos 1) (Nat.succ_pos 1), scenario_pixel00]
    rfl
  · intro pc
    rw [loopBody_total oob scenarioDepth ⟨2, 2, px⟩ scenarioK scenarioK Mat33.eye Mat31.zeros
      0 1 pc (Nat.succ_pos 1) (Nat.succ_pos 1), scenario_pixel01]
    simp
  · intro pc
    rw [loopBody_total oob scenarioDepth ⟨2, 2, px⟩ scenarioK scenarioK Mat33.eye Mat31.zeros
      1 0 pc (Nat.succ_pos 1) (Nat.succ_pos 1), scenario_pixel10]
    simp
  · intro pc
    rw [loopBody_total oob scenarioDepth ⟨2, 2, px⟩ scenarioK scenarioK Mat33.eye Mat31.zeros
      1 1 pc (Nat.succ_pos 1) (Nat.succ_pos 1), scenario_pixel11]
    rfl

/-- C9, instance: the scenario with the colour image storing (blue, green, red)
= (10, 20, 30) everywhere, under the x86-64 conversion. -/
theorem C9_scenario_witness :
    ∃ p1 p2 : Point3DRGB,
      depth2pcd oobX86 scenarioDepth ⟨2, 2, scenarioColor.px⟩ scenarioK scenarioK
        Mat33.eye Mat31.zeros = some [p1, p2] ∧
      (p1.x, p1.y, p1.z) =
        (F32.finite (-8589935 / 8589934592), F32.finite (-8589935 / 8589934592), F32.finite 1) ∧
      (p2.x, p2.y, p2.z) =
        (F32.finite (8589935 / 17179869184), F32.finite (8589935 / 17179869184),
          F32.finite (1 / 2)) := by
  obtain ⟨p1, p2, h, h1, h2, _⟩ := C9_scenario oobX86 scenarioColor.px
  exact ⟨p1, p2, h, h1, h2⟩

/-- C9 as stated fails in the values: the scenario output has
`x = y = -8589935 / 2^33` at pixel (0, 0) and `x = y = 8589935 / 2^34` at pixel
(1, 1), and these binary32 values are not the numbers `-0.001` and `0.0005`. -/
theorem C9_counterexample :
    depth2pcd oobX86 scenarioDepth scenarioColor scenarioK scenarioK Mat33.eye Mat31.zeros =
      some [mkPoint (F32.finite (-8589935 / 8589934592), F32.finite (-8589935 / 8589934592),
          F32.finite 1) (scenarioColor.px 0 0),
        mkPoint (F32.finite (8589935 / 17179869184), F32.finite (8589935 / 17179869184),
          F32.finite (1 / 2)) (scenarioColor.px 1 1)] ∧
    (mkPoint (F32.finite (-8589935 / 8589934592), F32.finite (-8589935 / 8589934592),
      F32.finite 1) (scenarioColor.px 0 0)).x = F32.finite (-8589935 / 8589934592) ∧
    (mkPoint (F32.finite (8589935 / 17179869184), F32.finite (8589935 / 17179869184),
      F32.finite (1 / 2)) (scenarioColor.px 1 1)).x = F32.finite (8589935 / 17179869184) ∧
    F32.finite (-8589935 / 8589934592) ≠ F32.finite (-1 / 1000) ∧
    F32.finite (8589935 / 17179869184) ≠ F32.finite (1 / 2000) := by
  refine ⟨scenario_output oobX86 scenarioColor.px, rfl, rfl, ?_, ?_⟩
  · intro h
    have := F32.finite.inj h
    norm_num at this
  · intro h
    have := F32.finite.inj h
    norm_num at this

/-- C10: for every non-empty colour image, of any dimensions, and all
intrinsics, `R` and `T`: the loop body reads the colour image only at the
sampled (row, column) of a pixel passing both checks; that (row, column)
satisfies `0 <= row <= height - 1` and `0 <= column <= width - 1`, so the read
succeeds; the loop body never fails, and `depth2pcd` returns an output. -/
theorem C10_sample_in_bounds (oob : F32 → ℤ) (D : DepthMat) (C : ColorMat)
    (Kd Kc : CameraIntrinsics) (R : Mat33) (T : Mat31) (hr : 0 < C.rows) (hc : 0 < C.cols) :
    (∀ (i j : ℕ) (pc : List Point3DRGB),
      (passes D Kd R T i j →
        loopBody oob D C Kd Kc R T i j pc =
          (C.atVec3b (sampleIndex oob D C Kd Kc R T i j).1
              (sampleIndex oob D C Kd Kc R T i j).2).map
            (fun c => pc ++ [mkPoint (colorFramePoint D Kd R T i j) c])) ∧
      (¬ passes D Kd R T i j → loopBody oob D C Kd Kc R T i j pc = some pc) ∧
      0 ≤ (sampleIndex oob D C Kd Kc R T i j).1 ∧
      (sampleIndex oob D C Kd Kc R T i j).1 ≤ (C.rows : ℤ) - 1 ∧
      0 ≤ (sampleIndex oob D C Kd Kc R T i j).2 ∧
      (sampleIndex oob D C Kd Kc R T i j).2 ≤ (C.cols : ℤ) - 1 ∧
      (sampleIndex oob D C Kd Kc R T i j).1 =
        max 0 (min ((C.rows : ℤ) - 1)
          (castInt oob (roundf (project Kc (colorFramePoint D Kd R T i j)).2))) ∧
      (sampleIndex oob D C Kd Kc R T i j).2 =
        max 0 (min ((C.cols : ℤ) - 1)
          (castInt oob (roundf (project Kc (colorFramePoint D Kd R T i j)).1))) ∧
      (C.atVec3b (sampleIndex oob D C Kd Kc R T i j).1
        (sampleIndex oob D C Kd Kc R T i j).2).isSome = true ∧
      (loopBody oob D C Kd Kc R T i j pc).isSome = true) ∧
    (depth2pcd oob D C Kd Kc R T).isSome = true := by
  constructor
  · intro i j pc
    have h1 := clampIdx_bounds oob C.rows (project Kc (colorFramePoint D Kd R T i j)).2 hr
    have h2 := clampIdx_bounds oob C.cols (project Kc (colorFramePoint D Kd R T i j)).1 hc
    refine ⟨loopBody_of_passes oob D C Kd Kc R T i j pc,
      loopBody_of_not_passes oob D C Kd Kc R T i j pc, h1.1, h1.2, h2.1, h2.2, rfl, rfl, ?_, ?_⟩
    · rw [atVec3b_sampleIndex oob D C Kd Kc R T i j hr hc]
      rfl
    · rw [loopBody_total oob D C Kd Kc R T i j pc hr hc]
      rfl
  · rw [depth2pcd_total oob D C Kd Kc R T hr hc]
    rfl

/-- C10, instance: the 2x2 scenario depth image against a colour image of one
row and two columns. -/
theorem C10_sample_in_bounds_witness :
    (depth2pcd oobX86 scenarioDepth overflowColor scenarioK overflowK
      Mat33.eye nearPlaneT).isSome = true :=
  (C10_sample_in_bounds oobX86 scenarioDepth overflowColor scenarioK overflowK
    Mat33.eye nearPlaneT (by decide) (by decide)).2

/-- C11 (as amended): the call without `R` and `T` is the call with the 3x3
identity and the zero vector; in that case every point appended by the loop
body at pixel `(i, j)`, and every point of the output, has each of `x` and `y`
equal to the back-projected binary32 coordinate (`(j - cx) * depth / fx`, resp.
`(i - cy) * depth / fy`, with `+0` for `-0`), or NaN, and `z` equal to the
binary32 `depth = raw / 1000.0f`, or NaN; NaN occurs only when a back-projected
`x` or `y` is infinite or NaN, and when both are finite the emitted `x` and `y`
stand for the same numbers as the back-projected ones and `z` is `depth`. -/
theorem C11_default_extrinsic (oob : F32 → ℤ) (D : DepthMat) (C : ColorMat)
    (Kd Kc : CameraIntrinsics) :
    depth2pcdDefault oob D C Kd Kc = depth2pcd oob D C Kd Kc Mat33.eye Mat31.zeros ∧
    (∀ i j : ℕ, backProject D Kd i j =
      ((F32.ofInt j - Kd.cx) * (F32.ofInt (D.px i j : ℕ) / F32.finite 1000) / Kd.fx,
       (F32.ofInt i - Kd.cy) * (F32.ofInt (D.px i j : ℕ) / F32.finite 1000) / Kd.fy,
       F32.ofInt (D.px i j : ℕ) / F32.finite 1000)) ∧
    (∀ (i j : ℕ) (pc : List Point3DRGB) (pt : Point3DRGB),
      loopBody oob D C Kd Kc Mat33.eye Mat31.zeros i j pc = some (pc ++ [pt]) →
      (pt.x = F32.nan ∨ pt.x = (backProject D Kd i j).1 ∨
        ((backProject D Kd i j).1 = F32.negZero ∧ pt.x = F32.finite 0)) ∧
      (pt.y = F32.nan ∨ pt.y = (backProject D Kd i j).2.1 ∨
        ((backProject D Kd i j).2.1 = F32.negZero ∧ pt.y = F32.finite 0)) ∧
      (pt.z = F32.nan ∨ pt.z = F32.ofInt (D.px i j : ℕ) / F32.finite 1000) ∧
      ((backProject D Kd i j).1.isFinite = true → (backProject D Kd i j).2.1.isFinite = true →
        (pt.x.isFinite = true ∧ pt.x.toRat = (backProject D Kd i j).1.toRat) ∧
        (pt.y.isFinite = true ∧ pt.y.toRat = (backProject D Kd i j).2.1.toRat) ∧
        pt.z = F32.ofInt (D.px i j : ℕ) / F32.finite 1000)) ∧
    (∀ out, depth2pcdDefault oob D C Kd Kc = some out → ∀ pt ∈ out,
      ∃ i j, i < D.rows ∧ j < D.cols ∧ depthValid D i j ∧
        (pt.x = F32.nan ∨ pt.x = (backProject D Kd i j).1 ∨
          ((backProject D Kd i j).1 = F32.negZero ∧ pt.x = F32.finite 0)) ∧
        (pt.y = F32.nan ∨ pt.y = (backProject D Kd i j).2.1 ∨
          ((backProject D Kd i j).2.1 = F32.negZero ∧ pt.y = F32.finite 0)) ∧
        (pt.z = F32.nan ∨ pt.z = F32.ofInt (D.px i j : ℕ) / F32.finite 1000) ∧
        ((backProject D Kd i j).1.isFinite = true → (backProject D Kd i j).2.1.isFinite = true →
          (pt.x.isFinite = true ∧ pt.x.toRat = (backProject D Kd i j).1.toRat) ∧
          (pt.y.isFinite = true ∧ pt.y.toRat = (backProject D Kd i j).2.1.toRat) ∧
          pt.z = F32.ofInt (D.px i j : ℕ) / F32.finite 1000)) := by
  have key : ∀ (i j : ℕ) (pt : Point3DRGB),
      pixelPoint oob D C Kd Kc Mat33.eye Mat31.zeros i j = some pt →
      (pt.x = F32.nan ∨ pt.x = (backProject D Kd i j).1 ∨
        ((backProject D Kd i j).1 = F32.negZero ∧ pt.x = F32.finite 0)) ∧
      (pt.y = F32.nan ∨ pt.y = (backProject D Kd i j).2.1 ∨
        ((backProject D Kd i j).2.1 = F32.negZero ∧ pt.y = F32.finite 0)) ∧
      (pt.z = F32.nan ∨ pt.z = F32.ofInt (D.px i j : ℕ) / F32.finite 1000) ∧
      ((backProject D Kd i j).1.isFinite = true → (backProject D Kd i j).2.1.isFinite = true →
        (pt.x.isFinite = true ∧ pt.x.toRat = (backProject D Kd i j).1.toRat) ∧
        (pt.y.isFinite = true ∧ pt.y.toRat = (backProject D Kd i j).2.1.toRat) ∧
        pt.z = F32.ofInt (D.px i j : ℕ) / F32.finite 1000) := by
    intro i j pt h
    have hpt := (pixelPoint_eq_some oob D C Kd Kc Mat33.eye Mat31.zeros i j pt h).2
    have ex : pt.x = (colorFramePoint D Kd Mat33.eye Mat31.zeros i j).1 := by rw [hpt]; rfl
    have ey : pt.y = (colorFramePoint D Kd Mat33.eye Mat31.zeros i j).2.1 := by rw [hpt]; rfl
    have ez : pt.z = (colorFramePoint D Kd Mat33.eye Mat31.zeros i j).2.2 := by rw [hpt]; rfl
    rw [ex, ey, ez]
    refine ⟨?_, ?_, ?_, ?_⟩
    · rcases colorFramePoint_eye_zeros_x D Kd i j with e | e | e
      · exact Or.inl e.1
      · exact Or.inr (Or.inl e)
      · exact Or.inr (Or.inr e)
    · rcases colorFramePoint_eye_zeros_y D Kd i j with e | e | e
      · exact Or.inl e.1
      · exact Or.inr (Or.inl e)
      · exact Or.inr (Or.inr e)
    · rcases colorFramePoint_eye_zeros_z D Kd i j with e | e
      · exact Or.inl e.1
      · exact Or.inr e
    · intro hx hy
      exact colorFramePoint_eye_zeros_finite D Kd i j hx hy
  refine ⟨rfl, fun i j => rfl, ?_, ?_⟩
  · intro i j pc pt h
    exact key i j pt (pixelPoint_of_loopBody oob D C Kd Kc Mat33.eye Mat31.zeros i j pc pt h)
  · intro out h pt hpt
    obtain ⟨i, j, hi, hj, hpp⟩ := mem_output oob D C Kd Kc Mat33.eye Mat31.zeros out h pt hpt
    exact ⟨i, j, hi, hj,
      (pixelPoint_eq_some oob D C Kd Kc Mat33.eye Mat31.zeros i j pt hpp).1.1, key i j pt hpp⟩

/-- C11, instance: the first point of the scenario output, obtained by the call
without `R` and `T`. -/
theorem C11_default_extrinsic_witness :
    ∃ i j, i < scenarioDepth.rows ∧ j < scenarioDepth.cols ∧ depthValid scenarioDepth i j ∧
      ((mkPoint (F32.finite (-8589935 / 8589934592), F32.finite (-8589935 / 8589934592),
          F32.finite 1) (scenarioColor.px 0 0)).z = F32.nan ∨
        (mkPoint (F32.finite (-8589935 / 8589934592), F32.finite (-8589935 / 8589934592),
          F32.finite 1) (scenarioColor.px 0 0)).z
          = F32.ofInt (scenarioDepth.px i j : ℕ) / F32.finite 1000) := by
  obtain ⟨i, j, hi, hj, hd, _, _, hz, _⟩ :=
    (C11_default_extrinsic oobX86 scenarioDepth scenarioColor scenarioK scenarioK).2.2.2 _
      (scenario_output oobX86 scenarioColor.px) _ (List.mem_cons_self _ _)
  exact ⟨i, j, hi, hj, hd, hz⟩

/-- C11 as stated fails: under the default extrinsic with the focal length
`fx = 2^-149`, pixel (0, 1) of the one-row depth image back-projects to
`(+inf, 0, 1)`, and the emitted point is `(+inf, NaN, NaN)`: its `y` is not
the back-projected `y = 0` and its `z` is not `raw/1000 = 1`. -/
theorem C11_counterexample :
    depth2pcdDefault oobX86 overflowDepth overflowColor tinyFocalK unitK
      = some [mkPoint (F32.inf false, F32.nan, F32.nan) (overflowColor.px 0 0)] ∧
    backProject overflowDepth tinyFocalK 0 1 = (F32.inf false, F32.finite 0, F32.finite 1) ∧
    F32.ofInt (overflowDepth.px 0 1 : ℕ) / F32.finite 1000 = F32.finite 1 ∧
    (mkPoint (F32.inf false, F32.nan, F32.nan) (overflowColor.px 0 0)).y = F32.nan ∧
    (mkPoint (F32.inf false, F32.nan, F32.nan) (overflowColor.px 0 0)).z = F32.nan ∧
    F32.nan ≠ F32.finite 0 ∧ F32.nan ≠ F32.finite 1 :=
  ⟨tiny_output, tiny_backProject, overflow_depth01, rfl, rfl, by simp, by simp⟩

/-- C12: every point of the output of `depth2pcd` has each of its colour
components `r`, `g` and `b` between 0 and 1 inclusive; so has every point the
loop body appends. -/
theorem C12_color_range (oob : F32 → ℤ) (D : DepthMat) (C : ColorMat)
    (Kd Kc : CameraIntrinsics) (R : Mat33) (T : Mat31) :
    (∀ (i j : ℕ) (pc : List Point3DRGB) (pt : Point3DRGB),
      loopBody oob D C Kd Kc R T i j pc = some (pc ++ [pt]) →
      F32.finite 0 ≤ pt.r ∧ pt.r ≤ F32.finite 1 ∧ F32.finite 0 ≤ pt.g ∧ pt.g ≤ F32.finite 1 ∧
        F32.finite 0 ≤ pt.b ∧ pt.b ≤ F32.finite 1) ∧
    (∀ out, depth2pcd oob D C Kd Kc R T = some out → ∀ pt ∈ out,
      F32.finite 0 ≤ pt.r ∧ pt.r ≤ F32.finite 1 ∧ F32.finite 0 ≤ pt.g ∧ pt.g ≤ F32.finite 1 ∧
        F32.finite 0 ≤ pt.b ∧ pt.b ≤ F32.finite 1) := by
  have chan : ∀ c : Fin 256, F32.finite 0 ≤ F32.ofInt (c : ℕ) / F32.finite 255 ∧
      F32.ofInt (c : ℕ) / F32.finite 255 ≤ F32.finite 1 := by
    intro c
    obtain ⟨r, hr, h0, h1, _⟩ := F32.channel_cases (c : ℕ) c.isLt
    rw [hr, F32.finite_le_iff, F32.finite_le_iff]
    exact ⟨h0, h1⟩
  have key : ∀ (i j : ℕ) (pt : Point3DRGB), pixelPoint oob D C Kd Kc R T i j = some pt →
      F32.finite 0 ≤ pt.r ∧ pt.r ≤ F32.finite 1 ∧ F32.finite 0 ≤ pt.g ∧ pt.g ≤ F32.finite 1 ∧
        F32.finite 0 ≤ pt.b ∧ pt.b ≤ F32.finite 1 := by
    intro i j pt h
    rw [(pixelPoint_eq_some oob D C Kd Kc R T i j pt h).2]
    exact ⟨(chan _).1, (chan _).2, (chan _).1, (chan _).2, (chan _).1, (chan _).2⟩
  constructor
  · intro i j pc pt h
    exact key i j pt (pixelPoint_of_loopBody oob D C Kd Kc R T i j pc pt h)
  · intro out h pt hpt
    obtain ⟨i, j, _, _, hpp⟩ := mem_output oob D C Kd Kc R T out h pt hpt
    exact key i j pt hpp

/-- C12, instance: the first point of the scenario output. -/
theorem C12_color_range_witness :
    F32.finite 0 ≤ (mkPoint (F32.finite (-8589935 / 8589934592),
        F32.finite (-8589935 / 8589934592), F32.finite 1) (scenarioColor.px 0 0)).r ∧
    (mkPoint (F32.finite (-8589935 / 8589934592), F32.finite (-8589935 / 8589934592),
      F32.finite 1) (scenarioColor.px 0 0)).r ≤ F32.finite 1 ∧
    F32.finite 0 ≤ (mkPoint (F32.finite (-8589935 / 8589934592),
        F32.finite (-8589935 / 8589934592), F32.finite 1) (scenarioColor.px 0 0)).g ∧
    (mkPoint (F32.finite (-8589935 / 8589934592), F32.finite (-8589935 / 8589934592),
      F32.finite 1) (scenarioColor.px 0 0)).g ≤ F32.finite 1 ∧
    F32.finite 0 ≤ (mkPoint (F32.finite (-8589935 / 8589934592),
        F32.finite (-8589935 / 8589934592), F32.finite 1) (scenarioColor.px 0 0)).b ∧
    (mkPoint (F32.finite (-8589935 / 8589934592), F32.finite (-8589935 / 8589934592),
      F32.finite 1) (scenarioColor.px 0 0)).b ≤ F32.finite 1 :=
  (C12_color_range oobX86 scenarioDepth scenarioColor scenarioK scenarioK
    Mat33.eye Mat31.zeros).2 _ (scenario_output oobX86 scenarioColor.px) _
    (List.mem_cons_self _ _)

/-- C13: for every input, the output of `depth2pcd` over the whole depth image
is the concatenation, in increasing row order, of the point sequences obtained
by processing each depth row `i` on its own (true row index `i`, same images
and parameters, empty start vector); processing one row on its own is the row
range of length one; and for every partition of the rows into contiguous row
ranges, the concatenation of the partial results in row order is the output of
`depth2pcd`.  When a colour read fails, both sides have no result. -/
theorem C13_row_decomposition (oob : F32 → ℤ) (D : DepthMat) (C : ColorMat)
    (Kd Kc : CameraIntrinsics) (R : Mat33) (T : Mat31) :
    depth2pcd oob D C Kd Kc R T =
      concatParts ((List.range D.rows).map (fun i => rowLoop oob D C Kd Kc R T i [])) ∧
    (∀ i, rowRange oob D C Kd Kc R T i 1 = rowLoop oob D C Kd Kc R T i []) ∧
    (∀ ns : List ℕ, ns.sum = D.rows →
      depth2pcd oob D C Kd Kc R T =
        concatParts ((rowRanges 0 ns).map (fun r => rowRange oob D C Kd Kc R T r.1 r.2))) := by
  refine ⟨?_, ?_, ?_⟩
  · exact foldlM_eq_concatParts (fun i pc => rowLoop oob D C Kd Kc R T i pc)
      (fun i pc => rowLoop_append oob D C Kd Kc R T i pc) (List.range D.rows)
  · intro i
    unfold rowRange
    rw [List.range'_one]
    show (rowLoop oob D C Kd Kc R T i []).bind pure = _
    cases rowLoop oob D C Kd Kc R T i [] <;> rfl
  · intro ns hns
    rw [concatParts_rowRanges oob D C Kd Kc R T ns 0, hns]
    exact depth2pcd_eq_rowRange oob D C Kd Kc R T

/-- C13, instance: the scenario cut into its two rows. -/
theorem C13_row_decomposition_witness :
    depth2pcd oobX86 scenarioDepth scenarioColor scenarioK scenarioK Mat33.eye Mat31.zeros =
      concatParts ((rowRanges 0 [1, 1]).map
        (fun r => rowRange oobX86 scenarioDepth scenarioColor scenarioK scenarioK
          Mat33.eye Mat31.zeros r.1 r.2)) :=
  (C13_row_decomposition oobX86 scenarioDepth scenarioColor scenarioK scenarioK
    Mat33.eye Mat31.zeros).2.2 [1, 1] (by decide)

/-- C14, the code at the failing input of C8: pixel (0, 1) projects to
`u = 2^32`; the x86-64 conversion of `round(u)` yields `INT_MIN`, so the sampled
column is 0, while column 1 of `[0, width - 1] = [0, 1]` is strictly nearer to
`u`. -/
theorem C14_cast_overflow_not_nearest :
    (project overflowK (colorFramePoint overflowDepth unitK Mat33.eye nearPlaneT 0 1)).1
      = F32.finite 4294967296 ∧
    (sampleIndex oobX86 overflowDepth overflowColor unitK overflowK Mat33.eye nearPlaneT 0 1).2
      = 0 ∧
    clampIdx oobX86 overflowColor.cols (F32.finite 4294967296) = 0 ∧
    (0 : ℤ) ≤ 1 ∧ (1 : ℤ) ≤ (overflowColor.cols : ℤ) - 1 ∧
    |((1 : ℤ) : ℚ) - 4294967296| <
      |((clampIdx oobX86 overflowColor.cols (F32.finite 4294967296) : ℤ) : ℚ) - 4294967296| := by
  have r2 : ((overflowColor.cols : ℕ) : ℤ) = 2 := rfl
  have hclamp : clampIdx oobX86 overflowColor.cols (F32.finite 4294967296) = 0 := by
    rw [clampIdx_eval oobX86 _ _ (-2147483648) (by rw [roundf_two_pow_32, castInt_two_pow_32]),
      r2]
    norm_num
  refine ⟨?_, ?_, hclamp, by norm_num, ?_, ?_⟩
  · rw [overflow_project]
  · rw [overflow_sampleIndex]
  · rw [r2]
    norm_num
  · rw [hclamp]
    norm_num [abs_of_neg, abs_of_nonpos]

/-- C15 (as amended): with identity `R`, zero `T`, colour intrinsics equal to
the depth intrinsics `K` and a colour image at least as wide and as tall as the
depth image, the loop body at a pixel `(i, j)` of the depth image with valid
depth appends one point carrying the colour of the colour image at row `i`,
column `j` (channels reordered and divided by 255 in binary32) whenever the
conversions of `round(u)` and `round(v)` yield `j` and `i`.  This is the case
for every pixel when `K` is of moderate range (finite, focal lengths of
magnitude between `2^-40` and `2^40`, principal point of magnitude at most
`2^16`) and the depth image has at most `2^16` rows and columns; the conversion
then returns these points in scan order. -/
theorem C15_registered_color (oob : F32 → ℤ) (D : DepthMat) (C : ColorMat) (K : CameraIntrinsics)
    (hrows : D.rows ≤ C.rows) (hcols : D.cols ≤ C.cols) :
    (∀ i j : ℕ, i < D.rows → j < D.cols → depthValid D i j →
      castInt oob (roundf (project K (colorFramePoint D K Mat33.eye Mat31.zeros i j)).1) = j →
      castInt oob (roundf (project K (colorFramePoint D K Mat33.eye Mat31.zeros i j)).2) = i →
      ∀ pc, loopBody oob D C K K Mat33.eye Mat31.zeros i j pc =
        some (pc ++ [⟨(colorFramePoint D K Mat33.eye Mat31.zeros i j).1,
          (colorFramePoint D K Mat33.eye Mat31.zeros i j).2.1,
          (colorFramePoint D K Mat33.eye Mat31.zeros i j).2.2,
          F32.ofInt ((C.px i j).c2 : ℕ) / F32.finite 255,
          F32.ofInt ((C.px i j).c1 : ℕ) / F32.finite 255,
          F32.ofInt ((C.px i j).c0 : ℕ) / F32.finite 255⟩])) ∧
    (moderate K → D.rows ≤ 65536 → D.cols ≤ 65536 →
      (∀ i j : ℕ, i < D.rows → j < D.cols → depthValid D i j →
        ∀ pc, loopBody oob D C K K Mat33.eye Mat31.zeros i j pc =
          some (pc ++ [⟨(colorFramePoint D K Mat33.eye Mat31.zeros i j).1,
            (colorFramePoint D K Mat33.eye Mat31.zeros i j).2.1,
            (colorFramePoint D K Mat33.eye Mat31.zeros i j).2.2,
            F32.ofInt ((C.px i j).c2 : ℕ) / F32.finite 255,
            F32.ofInt ((C.px i j).c1 : ℕ) / F32.finite 255,
            F32.ofInt ((C.px i j).c0 : ℕ) / F32.finite 255⟩])) ∧
      depth2pcd oob D C K K Mat33.eye Mat31.zeros =
        some ((rowMajor D.rows D.cols).filterMap (fun p =>
          if depthValid D p.1 p.2 then
            some (mkPoint (colorFramePoint D K Mat33.eye Mat31.zeros p.1 p.2) (C.px p.1 p.2))
          else none))) := by
  have hcore : ∀ i j : ℕ, i < D.rows → j < D.cols → depthValid D i j →
      castInt oob (roundf (project K (colorFramePoint D K Mat33.eye Mat31.zeros i j)).1) = j →
      castInt oob (roundf (project K (colorFramePoint D K Mat33.eye Mat31.zeros i j)).2) = i →
      ∀ pc, loopBody oob D C K K Mat33.eye Mat31.zeros i j pc =
        some (pc ++ [mkPoint (colorFramePoint D K Mat33.eye Mat31.zeros i j) (C.px i j)]) := by
    intro i j hi hj hd hu hv pc
    have hp : passes D K Mat33.eye Mat31.zeros i j := (passes_eye_zeros D K i j).mpr hd
    have hs : sampleIndex oob D C K K Mat33.eye Mat31.zeros i j = ((i : ℤ), (j : ℤ)) := by
      unfold sampleIndex clampIdx
      rw [hu, hv, clamp_index C.rows i (by omega), clamp_index C.cols j (by omega)]
    have hread : C.atVec3b (i : ℤ) (j : ℤ) = some (C.px i j) := by
      unfold ColorMat.atVec3b
      rw [if_pos ⟨by omega, by omega, by omega, by omega⟩]
      simp
    rw [loopBody_of_passes oob D C K K Mat33.eye Mat31.zeros i j pc hp, hs, hread]
    rfl
  refine ⟨fun i j hi hj hd hu hv pc => hcore i j hi hj hd hu hv pc, ?_⟩
  intro hK hR hC
  have hbody : ∀ i j : ℕ, i < D.rows → j < D.cols → ∀ pc,
      loopBody oob D C K K Mat33.eye Mat31.zeros i j pc =
        some (pc ++ (if depthValid D i j then
          some (mkPoint (colorFramePoint D K Mat33.eye Mat31.zeros i j) (C.px i j))
          else none).toList) := by
    intro i j hi hj pc
    by_cases hd : depthValid D i j
    · obtain ⟨hu, hv⟩ := project_near D K i j hK hd (by omega) (by omega)
      have cu := castInt_roundf_near oob _ j hu.1 hu.2 (by omega)
      have cv := castInt_roundf_near oob _ i hv.1 hv.2 (by omega)
      rw [hcore i j hi hj hd cu cv pc, if_pos hd]
      rfl
    · have hp : ¬ passes D K Mat33.eye Mat31.zeros i j :=
        fun h => hd ((passes_eye_zeros D K i j).mp h)
      rw [loopBody_of_not_passes oob D C K K Mat33.eye Mat31.zeros i j pc hp, if_neg hd]
      simp
  constructor
  · intro i j hi hj hd pc
    rw [hbody i j hi hj pc, if_pos hd]
    rfl
  · rw [filterMap_rowMajor (fun i j => if depthValid D i j then
      some (mkPoint (colorFramePoint D K Mat33.eye Mat31.zeros i j) (C.px i j)) else none)]
    have hrow : ∀ i ∈ List.range D.rows, ∀ pc,
        rowLoop oob D C K K Mat33.eye Mat31.zeros i pc =
          some (pc ++ (List.range D.cols).filterMap (fun j =>
            if depthValid D i j then
              some (mkPoint (colorFramePoint D K Mat33.eye Mat31.zeros i j) (C.px i j))
            else none)) := by
      intro i hi pc
      rw [← flatMap_toList_eq_filterMap]
      exact foldlM_append_total (fun j pc => loopBody oob D C K K Mat33.eye Mat31.zeros i j pc)
        (fun j => (if depthValid D i j then
          some (mkPoint (colorFramePoint D K Mat33.eye Mat31.zeros i j) (C.px i j))
          else none).toList) (List.range D.cols)
        (fun j hj pc => hbody i j (List.mem_range.mp hi) (List.mem_range.mp hj) pc) pc
    have h1 := foldlM_append_total (fun i pc => rowLoop oob D C K K Mat33.eye Mat31.zeros i pc)
      (fun i => (List.range D.cols).filterMap (fun j =>
        if depthValid D i j then
          some (mkPoint (colorFramePoint D K Mat33.eye Mat31.zeros i j) (C.px i j)) else none))
      (List.range D.rows) hrow []
    simpa using h1

/-- C15, instance: the scenario, whose colour image has the dimensions of the
depth image; pixel (1, 1) has raw value 500, and the loop body is run on the
empty vector. -/
theorem C15_registered_color_witness :
    loopBody oobX86 scenarioDepth scenarioColor scenarioK scenarioK
        Mat33.eye Mat31.zeros 1 1 [] =
      some ([] ++ [⟨(colorFramePoint scenarioDepth scenarioK Mat33.eye Mat31.zeros 1 1).1,
        (colorFramePoint scenarioDepth scenarioK Mat33.eye Mat31.zeros 1 1).2.1,
        (colorFramePoint scenarioDepth scenarioK Mat33.eye Mat31.zeros 1 1).2.2,
        F32.ofInt ((scenarioColor.px 1 1).c2 : ℕ) / F32.finite 255,
        F32.ofInt ((scenarioColor.px 1 1).c1 : ℕ) / F32.finite 255,
        F32.ofInt ((scenarioColor.px 1 1).c0 : ℕ) / F32.finite 255⟩]) :=
  ((C15_registered_color oobX86 scenarioDepth scenarioColor scenarioK (by decide) (by decide)).2
    scenarioK_moderate (by decide) (by decide)).1 1 1 (by decide) (by decide)
    scenario_depthValid11 []

/-- C15 as stated fails: with unit focal lengths and the principal point at
column `2^25`, identity `R`, zero `T` and a colour image of the dimensions of
the depth image, pixel (0, 1) has valid depth and lies in column 1 (white), but
`1 - 2^25` rounds to `-2^25`, `u = 0`, and the emitted point carries the colour
of column 0 (black). -/
theorem C15_counterexample :
    overflowDepth.rows ≤ overflowColor.rows ∧ overflowDepth.cols ≤ overflowColor.cols ∧
    depthValid overflowDepth 0 1 ∧
    farPrincipalK.fx = F32.finite 1 ∧ farPrincipalK.fy = F32.finite 1 ∧
    depth2pcd oobX86 overflowDepth overflowColor farPrincipalK farPrincipalK
        Mat33.eye Mat31.zeros
      = some [⟨F32.finite (-33554432), F32.finite 0, F32.finite 1,
          F32.finite 0, F32.finite 0, F32.finite 0⟩] ∧
    colorOf (overflowColor.px 0 1) = (F32.finite 1, F32.finite 1, F32.finite 1) ∧
    F32.finite 0 ≠ F32.finite 1 := by
  refine ⟨by decide, by decide, overflow_depthValid01, rfl, rfl, ?_, ?_, ?_⟩
  · rw [far_output]
    have e : overflowColor.px 0 0 = ⟨u8 0, u8 0, u8 0⟩ := rfl
    unfold mkPoint
    rw [e, colorOf_black]
  · have e : overflowColor.px 0 1 = ⟨u8 255, u8 255, u8 255⟩ := rfl
    rw [e, colorOf_white]
  · intro h
    have := F32.finite.inj h
    norm_num at this

/-- C16: for any two non-empty colour images and any two colour intrinsics,
with the same depth image, depth intrinsics, `R` and `T`, `depth2pcd` returns
two outputs of the same length with the same `(x, y, z)` at every position. -/
theorem C16_geometry_independent_of_color (oob : F32 → ℤ) (D : DepthMat) (C1 C2 : ColorMat)
    (Kd Kc1 Kc2 : CameraIntrinsics) (R : Mat33) (T : Mat31)
    (hr1 : 0 < C1.rows) (hc1 : 0 < C1.cols) (hr2 : 0 < C2.rows) (hc2 : 0 < C2.cols) :
    ∃ out1 out2, depth2pcd oob D C1 Kd Kc1 R T = some out1 ∧
      depth2pcd oob D C2 Kd Kc2 R T = some out2 ∧
      out1.length = out2.length ∧
      out1.map (fun p => (p.x, p.y, p.z)) = out2.map (fun p => (p.x, p.y, p.z)) ∧
      ∀ k : ℕ, (out1[k]?).map (fun p => (p.x, p.y, p.z)) =
        (out2[k]?).map (fun p => (p.x, p.y, p.z)) := by
  have hmap : ((rowMajor D.rows D.cols).filterMap
        (fun p => pixelPoint oob D C1 Kd Kc1 R T p.1 p.2)).map (fun p => (p.x, p.y, p.z)) =
      ((rowMajor D.rows D.cols).filterMap
        (fun p => pixelPoint oob D C2 Kd Kc2 R T p.1 p.2)).map (fun p => (p.x, p.y, p.z)) := by
    rw [map_xyz_filterMap, map_xyz_filterMap]
  refine ⟨_, _, depth2pcd_total oob D C1 Kd Kc1 R T hr1 hc1,
    depth2pcd_total oob D C2 Kd Kc2 R T hr2 hc2, ?_, hmap, ?_⟩
  · rw [length_filterMap_pixelPoint, length_filterMap_pixelPoint]
  · intro k
    rw [← List.getElem?_map, ← List.getElem?_map, hmap]

/-- C16, instance: the scenario depth image against the 2x2 colour image with
the scenario intrinsics and against the 1x2 colour image with focal lengths
4096. -/
theorem C16_geometry_independent_of_color_witness :
    ∃ out1 out2,
      depth2pcd oobX86 scenarioDepth scenarioColor scenarioK scenarioK Mat33.eye Mat31.zeros
        = some out1 ∧
      depth2pcd oobX86 scenarioDepth overflowColor scenarioK overflowK Mat33.eye Mat31.zeros
        = some out2 ∧
      out1.length = out2.length ∧
      out1.map (fun p => (p.x, p.y, p.z)) = out2.map (fun p => (p.x, p.y, p.z)) ∧
      ∀ k : ℕ, (out1[k]?).map (fun p => (p.x, p.y, p.z)) =
        (out2[k]?).map (fun p => (p.x, p.y, p.z)) :=
  C16_geometry_independent_of_color oobX86 scenarioDepth scenarioColor overflowColor
    scenarioK scenarioK overflowK Mat33.eye Mat31.zeros
    (by decide) (by decide) (by decide) (by decide)

/-- C17: with identity `R` and zero `T`, at every pixel that passed the depth
check the test `z_c <= 0` is false (`z_c` is the depth `raw / 1000.0f > 0`, or
NaN when a back-projected `x` or `y` is not finite), so the second check does
not reject it and, on a non-empty colour image, the loop body appends a point
for it; the output length is the number of depth pixels whose raw value lies in
1..10000, for any intrinsics. -/
theorem C17_identity_never_rejects (oob : F32 → ℤ) (D : DepthMat) (C : ColorMat)
    (Kd Kc : CameraIntrinsics) (hr : 0 < C.rows) (hc : 0 < C.cols) :
    (∀ i j : ℕ, ¬ (F32.ofInt (D.px i j : ℕ) / F32.finite 1000 ≤ F32.ofInt 0 ∨
        F32.ofInt (D.px i j : ℕ) / F32.finite 1000 > F32.finite 10) →
      ((colorFramePoint D Kd Mat33.eye Mat31.zeros i j).2.2
          = F32.ofInt (D.px i j : ℕ) / F32.finite 1000 ∨
        (colorFramePoint D Kd Mat33.eye Mat31.zeros i j).2.2 = F32.nan) ∧
      ((backProject D Kd i j).1.isFinite = true → (backProject D Kd i j).2.1.isFinite = true →
        (colorFramePoint D Kd Mat33.eye Mat31.zeros i j).2.2
          = F32.ofInt (D.px i j : ℕ) / F32.finite 1000 ∧
        F32.finite 0 < (colorFramePoint D Kd Mat33.eye Mat31.zeros i j).2.2) ∧
      ¬ (colorFramePoint D Kd Mat33.eye Mat31.zeros i j).2.2 ≤ F32.ofInt 0 ∧
      ∃ pt, ∀ pc, loopBody oob D C Kd Kc Mat33.eye Mat31.zeros i j pc = some (pc ++ [pt])) ∧
    ∃ out, depth2pcd oob D C Kd Kc Mat33.eye Mat31.zeros = some out ∧
      out.length = (Finset.filter
        (fun p : ℕ × ℕ => 1 ≤ (D.px p.1 p.2 : ℕ) ∧ (D.px p.1 p.2 : ℕ) ≤ 10000)
        (Finset.range D.rows ×ˢ Finset.range D.cols)).card := by
  constructor
  · intro i j hchk
    have hd : depthValid D i j := by
      by_contra hnd
      exact hchk ((depth_check_iff D i j).mpr hnd)
    have hp : passes D Kd Mat33.eye Mat31.zeros i j := (passes_eye_zeros D Kd i j).mpr hd
    refine ⟨?_, ?_, ?_, ?_⟩
    · rcases colorFramePoint_eye_zeros_z D Kd i j with e | e
      · exact Or.inr e.1
      · exact Or.inl e
    · intro hx hy
      have hz := (colorFramePoint_eye_zeros_finite D Kd i j hx hy).2.2
      refine ⟨hz, ?_⟩
      rw [hz]
      exact hd.1
    · rw [F32.ofInt_zero]
      exact hp.2
    · refine ⟨mkPoint (colorFramePoint D Kd Mat33.eye Mat31.zeros i j)
        (C.px (sampleIndex oob D C Kd Kc Mat33.eye Mat31.zeros i j).1.toNat
          (sampleIndex oob D C Kd Kc Mat33.eye Mat31.zeros i j).2.toNat), ?_⟩
      intro pc
      rw [loopBody_total oob D C Kd Kc Mat33.eye Mat31.zeros i j pc hr hc]
      unfold pixelPoint
      rw [if_pos hp]
      rfl
  · refine ⟨_, depth2pcd_total oob D C Kd Kc Mat33.eye Mat31.zeros hr hc, ?_⟩
    rw [length_filterMap_pixelPoint]
    congr 1
    apply Finset.filter_congr
    intro p _
    rw [passes_eye_zeros, depthValid_iff_raw]

/-- C17, instance: the scenario, where two raw values lie in 1..10000. -/
theorem C17_identity_never_rejects_witness :
    ∃ out, depth2pcd oobX86 scenarioDepth scenarioColor scenarioK scenarioK
        Mat33.eye Mat31.zeros = some out ∧
      out.length = (Finset.filter
        (fun p : ℕ × ℕ => 1 ≤ (scenarioDepth.px p.1 p.2 : ℕ) ∧
          (scenarioDepth.px p.1 p.2 : ℕ) ≤ 10000)
        (Finset.range scenarioDepth.rows ×ˢ Finset.range scenarioDepth.cols)).card :=
  (C17_identity_never_rejects oobX86 scenarioDepth scenarioColor scenarioK scenarioK
    (by decide) (by decide)).2

end Depth2Pcd
